import Mathlib

/-!
Dominator: the fetch pipeline of the sub, the AddObjects loop of the object
server and its client queue, the filesystem scanner of the sub, the machine
database update and the status view of the herd, the dialling of the SRPC client
and the subcommand dispatch of two command-line tools.

A shallow embedding of

* `sub/rpcd/fetch.go` (`rpcType.Fetch`, `doFetch`, `clearFetchInProgress`,
  `readOne`),
* `objectserver/rpcd/lib/addObjects.go` (`addObjects`),
* `lib/objectclient/queue.go` (`ObjectAdderQueue.add`, `close`, `consumeErrors`,
  `readResponses`),
* `sub/scanner/walk.go` (`FileSystem.getInode`, `Directory.scan`, `File.scan`),
* `lib/srpc/client.go` (`dialHTTPDirect`, `dialHTTPEndpoints`, `dialHTTPEndpoint`,
  `doHTTPConnect`),
* `dom/herd/mdb.go` (`mdbUpdateNoLogging`) and `dom/herd/showImagesForSubs.go`
  (`getInfoForSubs`, `makeInfo`),
* `cmd/ami-publisher/main.go` and `cmd/vm-control/main.go` (`printUsage`,
  `subcommands`, `main`),

followed by the properties proved about them.

Conventions.  A Go `error` is an `Option String`: `none` is `nil`, `some m` is an
error whose `Error()` text is `m`; where the code compares error values (the
scanner, the SRPC client), an error keeps its identity (`GoError`, `SrpcError`).
A pointer is an address in
an explicit store.  Package-level variables become fields of an
explicit state record.  Calls into the operating system or the network take their
outcome from an explicit record, so that every failure the code tests for can be
exercised.  Machine integers are naturals, reduced modulo `2^64` where the code
converts between `uint64` and `int64`.
-/

namespace Dominator

/-! ## Part 1: definitions -/

/-! ### sub/rpcd/fetch.go -/

/-- A `hash.Hash`: the bytes of a SHA-512 digest. -/
abbrev Hash := List Nat

/-- The fields of `sub.FetchRequest` that `Fetch` and `doFetch` read. -/
structure FetchRequest where
  ServerAddress : String
  Hashes : List Hash
deriving DecidableEq, Repr

/-- The package-level state of `sub/rpcd` that `Fetch` reads and writes.
`readOnly` is the command-line flag, `fetchInProgress` and `updateInProgress` are
the two variables guarded by `rwLock`, `lockCount` counts the calls of
`rwLock.Lock()`, `running` lists the requests of the `doFetch` goroutines that
have been started and have not finished, and `log` holds what was handed to
`logger`. -/
structure SubState where
  readOnly : Bool
  fetchInProgress : Bool
  updateInProgress : Bool
  lockCount : Nat
  running : List FetchRequest
  log : List String
deriving DecidableEq, Repr

/-- The method `rpcType.Fetch` (fetch.go lines 25 to 46): the returned error and
the state it leaves. -/
def Fetch (request : FetchRequest) (s : SubState) : Option String × SubState :=
  if s.readOnly then
    let txt := "Fetch() rejected due to read-only mode"
    (some txt, { s with log := s.log ++ [txt ++ "\n"] })
  else
    -- rwLock.Lock(); defer rwLock.Unlock()
    let s1 := { s with lockCount := s.lockCount + 1 }
    let s2 := { s1 with
      log := s1.log ++ ["Fetch() " ++ toString request.Hashes.length ++ " objects\n"] }
    if s2.fetchInProgress then
      (some "fetch already in progress",
        { s2 with log := s2.log ++ ["Error: fetch already in progress\n"] })
    else if s2.updateInProgress then
      (some "update in progress",
        { s2 with log := s2.log ++ ["Error: update in progress\n"] })
    else
      -- fetchInProgress = true; go doFetch(request)
      (none, { s2 with fetchInProgress := true, running := s2.running ++ [request] })

/-- The function `clearFetchInProgress` (fetch.go lines 144 to 148), which
`doFetch` defers. -/
def clearFetchInProgress (s : SubState) : SubState :=
  { s with lockCount := s.lockCount + 1, fetchInProgress := false }

/-- The steps of the sub as far as fetching is concerned. -/
inductive FetchStep where
  /-- A call of `Fetch` with the given request. -/
  | call (request : FetchRequest)
  /-- The `i`-th running `doFetch` returns; its deferred `clearFetchInProgress`
  runs. -/
  | finish (i : Nat)
  /-- Code outside fetch.go (the update path) writes `updateInProgress`. -/
  | setUpdate (b : Bool)
deriving DecidableEq, Repr

/-- The effect of one step; `none` when the step is not enabled (no such running
`doFetch`). -/
def FetchStep.apply (s : SubState) : FetchStep → Option SubState
  | .call request => some (Fetch request s).2
  | .finish i =>
    if i < s.running.length then
      some { clearFetchInProgress s with running := s.running.eraseIdx i }
    else none
  | .setUpdate b => some { s with updateInProgress := b }

/-- A state in which no fetch is running. -/
def SubState.idle (s : SubState) : Prop :=
  s.fetchInProgress = false ∧ s.running = []

/-- The states reachable from an idle state by the steps of `FetchStep`. -/
inductive Reachable : SubState → Prop where
  | start (s : SubState) (h : s.idle) : Reachable s
  | step (s s' : SubState) (e : FetchStep) (h : Reachable s)
      (he : e.apply s = some s') : Reachable s'

/-- The conversion `int64(x)` of a `uint64` value, and the `int64` in which
`io.Copy` counts: the value modulo `2^64`, read as a two's complement number. -/
def toInt64 (x : Nat) : Int :=
  if x % 2 ^ 64 < 2 ^ 63 then ((x % 2 ^ 64 : Nat) : Int)
  else ((x % 2 ^ 64 : Nat) : Int) - 2 ^ 64

/-- The verb `%x` of `fmt` applied to one byte: two lower-case hexadecimal
digits. -/
def hexByte (b : Nat) : String :=
  String.mk [Nat.digitChar (b / 16 % 16), Nat.digitChar (b % 16)]

/-- The verb `%x` of `fmt` applied to a hash. -/
def hexOf (h : Hash) : String :=
  String.join (h.map hexByte)

/-- What `readOne` takes from its package and from the libraries it calls:
the variable `objectsDir`, `objectcache.HashToFilename` (not part of the
sources at hand) and the functions `path.Join` and `path.Dir` of the Go
library. -/
structure FetchEnv where
  objectsDir : String
  HashToFilename : Hash → String
  pathJoin : String → String → String
  pathDir : String → String

/-- The part of the local file system that `readOne` changes: the directories
made and the regular files with their contents. -/
structure Disk where
  dirs : List String
  files : List (String × List Nat)
deriving DecidableEq, Repr

/-- The content of the file at a path, if there is one. -/
def Disk.file? (d : Disk) (filename : String) : Option (List Nat) :=
  (d.files.find? (fun f => f.1 = filename)).map (fun f => f.2)

/-- A successful `os.MkdirAll(dirname, ...)`. -/
def Disk.MkdirAll (d : Disk) (dirname : String) : Disk :=
  if dirname ∈ d.dirs then d else { d with dirs := dirname :: d.dirs }

/-- A successful `os.Create(filename)`: the file exists from now on and is
empty, whether or not it existed before. -/
def Disk.Create (d : Disk) (filename : String) : Disk :=
  { d with files := (filename, []) :: d.files.filter (fun f => f.1 ≠ filename) }

/-- Bytes appended to an existing file. -/
def Disk.append (d : Disk) (filename : String) (data : List Nat) : Disk :=
  { d with files := d.files.map (fun f => if f.1 = filename then (f.1, f.2 ++ data) else f) }

/-- The outcome of the system calls and of the network reader during one call of
`readOne`.  `mkdirAllErr` and `createErr` are the errors of `os.MkdirAll` and
`os.Create`; the reader delivers `body` and then ends, with `io.EOF` when
`readErr` is `none` and with that error otherwise; `writeErr` is the error of a
write to the file made while `io.Copy` runs; `stored` is the number of bytes of
`body` that are in the file once the deferred `writer.Flush()` and
`file.Close()` have run (the error of that `Flush` is dropped by the code). -/
structure Transfer where
  mkdirAllErr : Option String
  createErr : Option String
  body : List Nat
  readErr : Option String
  writeErr : Option String
  stored : Nat
deriving DecidableEq, Repr

/-- The call `io.Copy(writer, reader)`: the number of bytes copied and the first
error met, a reader ending with `io.EOF` being no error. -/
def ioCopy (t : Transfer) : Int × Option String :=
  match t.writeErr with
  | some e => (toInt64 (min t.stored t.body.length), some e)
  | none =>
    match t.readErr with
    | some e => (toInt64 t.body.length, some e)
    | none => (toInt64 t.body.length, none)

/-- The file name `readOne` computes for a hash. -/
def objectFilename (env : FetchEnv) (hash : Hash) : String :=
  env.pathJoin env.objectsDir (env.HashToFilename hash)

/-- The function `readOne` (fetch.go lines 120 to 142): the returned error and
the disk it leaves. -/
def readOne (env : FetchEnv) (hash : Hash) (length : Nat) (t : Transfer) (d : Disk) :
    Option String × Disk :=
  let filename := objectFilename env hash
  let dirname := env.pathDir filename
  match t.mkdirAllErr with
  | some err => (some err, d)
  | none =>
    let d1 := d.MkdirAll dirname
    match t.createErr with
    | some err => (some err, d1)
    | none =>
      let d2 := d1.Create filename
      let (nCopied, err) := ioCopy t
      -- deferred: writer.Flush(), then file.Close()
      let d3 := d2.append filename (t.body.take t.stored)
      match err with
      | some e => (some ("error copying: " ++ e), d3)
      | none =>
        if nCopied ≠ toInt64 length then
          (some ("expected length: " ++ toString length ++ ", got: " ++ toString nCopied
            ++ " for: " ++ hexOf hash ++ "\n"), d3)
        else (none, d3)

/-- A concrete environment for examples: `path.Join` of two clean relative
elements, `path.Dir` left abstract as a fixed directory. -/
def exampleEnv : FetchEnv where
  objectsDir := "objects"
  HashToFilename := hexOf
  pathJoin := fun a b => a ++ "/" ++ b
  pathDir := fun _ => "objects"

/-- What `objectsReader.NextObject()` returns for one object: an error, or the
length of the object and its reader, the reader being given by the transfer it
leads to when `readOne` copies from it. -/
inductive NextObject where
  | failure (err : String)
  | object (length : Nat) (t : Transfer)
deriving DecidableEq, Repr

/-- What `doFetch` takes from outside fetch.go.  `exitOnFetchFailure` is the
command-line flag; `MaximumSpeed` is `networkReaderContext.MaximumSpeed()`;
`CheckObjects` and `GetObjects` are the results of these calls on the object
client (for `GetObjects` the error only); `next i` is the result of the call of
`NextObject` made for the hash of index `i`; `speed` is the value computed from
the clock at line 90; `netbenchFilename` is the package variable and
`netbenchCreate` the error of `os.Create` on it; `complete` is the line logged at
lines 99 and 100, which is formatted with `format.FormatBytes`. -/
structure FetchWorld where
  exitOnFetchFailure : Bool
  MaximumSpeed : Nat
  CheckObjects : Except String (List Nat)
  GetObjects : Option String
  next : Nat → NextObject
  speed : Nat
  netbenchFilename : String
  netbenchCreate : Option String
  complete : String

/-- What a call of `doFetch` leaves.  `handled` lists the hashes for which
`NextObject` was called, in order; `rescanObjectCacheChannel` counts the values
sent on that channel; `exitCode` is the argument of `os.Exit` when the process
was ended; `exclusive` tells whether `SetExclusiveGetObjects(true)` was called
and `maximumSpeed` holds the argument of `InitialiseMaximumSpeed`. -/
structure FetchState where
  disk : Disk
  log : List String
  handled : List Hash
  totalLength : Nat
  rescanObjectCacheChannel : Nat
  exitCode : Option Nat
  exclusive : Bool
  maximumSpeed : Option Nat
deriving DecidableEq, Repr

/-- The function `enoughBytesForBenchmark` (fetch.go lines 104 to 118). -/
def enoughBytesForBenchmark (w : FetchWorld) : Bool :=
  match w.CheckObjects with
  | .error _ => false
  | .ok lengths =>
    let totalLength := lengths.foldl (fun total length => (total + length) % 2 ^ 64) 0
    if totalLength > 1024 * 1024 * 64 then true else false

/-- The three places where `doFetch` gives up (fetch.go lines 61 to 65, 72 to 76
and 81 to 85): the line is logged, and the process is ended when
`exitOnFetchFailure` is set. -/
def giveUp (w : FetchWorld) (line : String) (s : FetchState) : FetchState :=
  { s with
    log := s.log ++ [line]
    exitCode := if w.exitOnFetchFailure then some 1 else none }

/-- The loop of `doFetch` (fetch.go lines 69 to 88) over the hashes still to be
handled, `i` being the index of the first of them: whether the loop ran to its
end, and the state it leaves. -/
def fetchObjects (env : FetchEnv) (w : FetchWorld) : List Hash → Nat → FetchState →
    Bool × FetchState
  | [], _, s => (true, s)
  | hash :: rest, i, s =>
    let s1 := { s with handled := s.handled ++ [hash] }
    match w.next i with
    | .failure err => (false, giveUp w (err ++ "\n") s1)
    | .object length t =>
      let (err, disk) := readOne env hash length t s1.disk
      let s2 := { s1 with disk := disk }
      match err with
      | some e => (false, giveUp w (e ++ "\n") s2)
      | none =>
        fetchObjects env w rest (i + 1)
          { s2 with totalLength := (s2.totalLength + length) % 2 ^ 64 }

/-- The value of the variable `benchmark` of `doFetch` (fetch.go lines 51 to 58). -/
def benchmarking (w : FetchWorld) : Bool :=
  if w.MaximumSpeed < 1 then enoughBytesForBenchmark w else false

/-- The state of `doFetch` at line 59, on the disk `disk`. -/
def fetchStart (w : FetchWorld) (disk : Disk) : FetchState :=
  { disk := disk
    log := if benchmarking w then ["Benchmarking network speed\n"] else []
    handled := []
    totalLength := 0
    rescanObjectCacheChannel := 0
    exitCode := none
    exclusive := benchmarking w
    maximumSpeed := none }

/-- The end of `doFetch` once the loop has run to its end (fetch.go lines 89 to
101). -/
def fetchComplete (w : FetchWorld) (s : FetchState) : FetchState :=
  let s1 :=
    if benchmarking w then
      let s' := { s with maximumSpeed := some w.speed }
      match w.netbenchCreate with
      | some _ => s'
      | none =>
        { s' with
          disk := (s'.disk.Create w.netbenchFilename).append w.netbenchFilename
            ((toString w.speed ++ "\n").data.map Char.toNat) }
    else s
  { s1 with
    log := s1.log ++ [w.complete]
    rescanObjectCacheChannel := s1.rescanObjectCacheChannel + 1 }

/-- The function `doFetch` (fetch.go lines 48 to 102), started on the disk `disk`.
The deferred `clearFetchInProgress` is the step `FetchStep.finish`; it does not
run when the process is ended. -/
def doFetch (env : FetchEnv) (w : FetchWorld) (request : FetchRequest) (disk : Disk) :
    FetchState :=
  match w.GetObjects with
  | some err => giveUp w ("Error getting object reader:\t" ++ err ++ "\n") (fetchStart w disk)
  | none =>
    match fetchObjects env w request.Hashes 0 (fetchStart w disk) with
    | (false, s) => s
    | (true, s) => fetchComplete w s

/-- The error with which the handling of one object ends in the loop of `doFetch`,
`none` when the object was stored: the error of `NextObject`, or else the error of
`readOne` (which does not depend on the disk it is started on). -/
def objectError (env : FetchEnv) (hash : Hash) : NextObject → Option String
  | .failure err => some err
  | .object length t => (readOne env hash length t ⟨[], []⟩).1

/-- The disk a call of `readOne` made for `hash` in the loop leaves, the disk being
unchanged when `NextObject` fails. -/
def objectDisk (env : FetchEnv) (hash : Hash) (d : Disk) : NextObject → Disk
  | .failure _ => d
  | .object length t => (readOne env hash length t d).2

/-- The disk left by the attempts made for the hashes of a list, one after the
other, `i` being the index of the first of them. -/
def diskAfter (env : FetchEnv) (w : FetchWorld) : List Hash → Nat → Disk → Disk
  | [], _, d => d
  | hash :: rest, i, d => diskAfter env w rest (i + 1) (objectDisk env hash d (w.next i))

/-- A server for examples: three objects of four bytes are asked for, the second
comes one byte short. -/
def shortWorld : FetchWorld where
  exitOnFetchFailure := false
  MaximumSpeed := 1000
  CheckObjects := .ok []
  GetObjects := none
  next := fun i =>
    if i = 1 then .object 4 ⟨none, none, [5, 6, 7], none, none, 3⟩
    else .object 4 ⟨none, none, [1, 2, 3, 4], none, none, 4⟩
  speed := 100
  netbenchFilename := "netbench"
  netbenchCreate := none
  complete := "Fetch() complete.\n"

/-! ### objectserver/rpcd/lib/addObjects.go -/

/-- The record `objectserver.AddObjectRequest`. -/
structure AddObjectRequest where
  Length : Nat
  ExpectedHash : Option Hash
deriving DecidableEq, Repr

/-- The record `objectserver.AddObjectResponse`, with the fields `addObjects`
fills in. -/
structure AddObjectResponse where
  Hash : Dominator.Hash
  Added : Bool
  ErrorString : String
deriving DecidableEq, Repr

/-- The interface `ObjectAdder`.  `AddObject(conn, length, expectedHash)` reads
the body from the connection and returns `(hash, added, err)`; what it has
stored and what it has read is its state `σ`. -/
structure ObjectAdder (σ : Type) where
  AddObject : σ → Nat → Option Hash → (Hash × Bool × Option String) × σ

/-- What one call of `decoder.Decode(&request)` gives: a request, one of the two
end-of-stream errors the code tests for, or another error. -/
inductive DecodeResult where
  | request (r : AddObjectRequest)
  | EOF
  | ErrUnexpectedEOF
  | failure (msg : String)
deriving DecidableEq, Repr

/-- What a call of `addObjects` leaves: the returned error, the responses encoded
on the connection, the number of `Decode` calls made, the results of `Decode`
not consumed, the state of the adder and the lines logged. -/
structure ServeResult (σ : Type) where
  ret : Option String
  written : List AddObjectResponse
  decodeCalls : Nat
  unread : List DecodeResult
  adder : σ
  log : List String

/-- The line logged when the loop is left by `break`. -/
def logDone (numAdded numObj : Nat) : String :=
  "AddObjects(): " ++ toString numAdded ++ " of " ++ toString numObj ++ " are new objects"

/-- The line logged when a response carries an error. -/
def logFailed (numAdded numObj : Nat) (errorString : String) : String :=
  "AddObjects(): failed, " ++ toString numAdded ++ " of " ++ toString numObj
    ++ " are new objects " ++ errorString

/-- The loop of `addObjects` (addObjects.go lines 18 to 45) together with what
follows it.  The successive results of `decoder.Decode` are the list argument, an
exhausted list standing for `io.EOF`; `ErrorToString` is
`errors.ErrorToString` (not part of the sources at hand); `encodeErr i` is the
error of `encoder.Encode` for the response written in iteration `i`. -/
def addObjectsLoop {σ : Type} (ErrorToString : Option String → String)
    (adder : ObjectAdder σ) (encodeErr : Nat → Option String) :
    List DecodeResult → σ → Nat → Nat → ServeResult σ
  | [], s, numAdded, numObj =>
    ⟨none, [], 1, [], s, [logDone numAdded numObj]⟩
  | .EOF :: rest, s, numAdded, numObj =>
    ⟨none, [], 1, rest, s, [logDone numAdded numObj]⟩
  | .ErrUnexpectedEOF :: rest, s, numAdded, numObj =>
    ⟨none, [], 1, rest, s, [logDone numAdded numObj]⟩
  | .failure msg :: rest, s, _, _ =>
    ⟨some msg, [], 1, rest, s, []⟩
  | .request request :: rest, s, numAdded, numObj =>
    if request.Length < 1 then
      ⟨none, [], 1, rest, s, [logDone numAdded numObj]⟩
    else
      let (result, s') := adder.AddObject s request.Length request.ExpectedHash
      let response : AddObjectResponse := ⟨result.1, result.2.1, ErrorToString result.2.2⟩
      let numAdded' := if response.Added then numAdded + 1 else numAdded
      match encodeErr numObj with
      | some err => ⟨some err, [], 1, rest, s', []⟩
      | none =>
        if response.ErrorString ≠ "" then
          ⟨none, [response], 1, rest, s', [logFailed numAdded' numObj response.ErrorString]⟩
        else
          let r := addObjectsLoop ErrorToString adder encodeErr rest s' numAdded' (numObj + 1)
          { r with written := response :: r.written, decodeCalls := r.decodeCalls + 1 }

/-- The function `addObjects` (addObjects.go lines 12 to 48). -/
def addObjects {σ : Type} (ErrorToString : Option String → String)
    (adder : ObjectAdder σ) (encodeErr : Nat → Option String)
    (decodes : List DecodeResult) (s : σ) : ServeResult σ :=
  addObjectsLoop ErrorToString adder encodeErr decodes s 0 0

/-- An encoder whose every `Encode` succeeds. -/
def encodeOk : Nat → Option String := fun _ => none

/-- The responses an adder gives when the requests of a list are handed to it
one after the other. -/
def adderResults {σ : Type} (ErrorToString : Option String → String)
    (adder : ObjectAdder σ) : σ → List AddObjectRequest → List AddObjectResponse
  | _, [] => []
  | s, r :: rs =>
    let (result, s') := adder.AddObject s r.Length r.ExpectedHash
    ⟨result.1, result.2.1, ErrorToString result.2.2⟩ :: adderResults ErrorToString adder s' rs

/-- A list of responses cut after the first one that carries an error text. -/
def cutAfterFailure : List AddObjectResponse → List AddObjectResponse
  | [] => []
  | r :: rs => if r.ErrorString ≠ "" then [r] else r :: cutAfterFailure rs

/-- The requests of a stream up to the first one of length zero. -/
def beforeTerminator (reqs : List AddObjectRequest) : List AddObjectRequest :=
  reqs.takeWhile (fun r => decide (1 ≤ r.Length))

/-- The way a request stream ends for the decoder: nothing more to read, or one
of the two end-of-stream errors. -/
def endsStream : List DecodeResult → Prop
  | [] => True
  | .EOF :: _ => True
  | .ErrUnexpectedEOF :: _ => True
  | _ => False

/-- The text of a Go error, empty for nil: the reading of `errors.ErrorToString`
used in examples. -/
def errorText : Option String → String
  | none => ""
  | some m => m

/-- An adder for examples: it counts its calls, reports every object as new and
answers with the expected hash. -/
def countingAdder : ObjectAdder Nat where
  AddObject := fun n _ expected => ((expected.getD [], true, none), n + 1)

/-! ### lib/objectclient/queue.go -/

/-- What the client writes on the connection: an encoded request record, or the
raw bytes of a body. -/
inductive Frame where
  | request (r : AddObjectRequest)
  | data (bytes : List Nat)
deriving DecidableEq, Repr

/-- The fields of `ObjectAdderQueue` that `add` uses: the entries waiting in the
buffered `errorChan`, what has been written on the connection, and the number
of tokens put on `getResponseChan`. -/
structure ObjectAdderQueue where
  errorChan : List (Option String)
  sent : List Frame
  getResponseChan : Nat
deriving DecidableEq, Repr

/-- The method `consumeErrors` (queue.go lines 85 to 93): the returned error and
the entries left in the channel. -/
def consumeErrors : List (Option String) → Option String × List (Option String)
  | [] => (none, [])
  | none :: rest => consumeErrors rest
  | some err :: rest => (some err, rest)

/-- A reader: the bytes it delivers and how it ends, `none` being `io.EOF`. -/
structure Reader where
  bytes : List Nat
  endErr : Option String
deriving DecidableEq, Repr

/-- The call `io.ReadFull(reader, data)` for a buffer of `length` bytes: the bytes
placed in the buffer, the error, and the reader afterwards. -/
def ReadFull (reader : Reader) (length : Nat) : List Nat × Option String × Reader :=
  if length ≤ reader.bytes.length then
    (reader.bytes.take length, none, { reader with bytes := reader.bytes.drop length })
  else
    match reader.endErr with
    | some err => (reader.bytes, some err, { reader with bytes := [] })
    | none =>
      (reader.bytes, some (if reader.bytes = [] then "EOF" else "unexpected EOF"),
        { reader with bytes := [] })

/-- How a call of `add` ends: it returns a hash and an error, or it does not return
because the call `make([]byte, length)` of line 42 panics. -/
inductive AddResult where
  | returned (hash : Hash) (err : Option String)
  | panic
deriving DecidableEq, Repr

/-- The method `ObjectAdderQueue.add` (queue.go lines 36 to 71), `sha512` being the
digest function and `maxLen` the largest length for which `make([]byte, length)`
returns on the machine at hand (beyond it the Go runtime panics with "len out of
range", or gives up for want of memory).  The sending goroutine is run at once:
`sendSemaphore` lets only one of them run at a time, in the order of the calls. -/
def ObjectAdderQueue.add (sha512 : List Nat → Hash) (maxLen : Nat) (objQ : ObjectAdderQueue)
    (reader : Reader) (length : Nat) : AddResult × ObjectAdderQueue × Reader :=
  let hash : Hash := List.replicate 64 0
  match consumeErrors objQ.errorChan with
  | (some err, chan) => (.returned hash (some err), { objQ with errorChan := chan }, reader)
  | (none, chan) =>
    let objQ1 := { objQ with errorChan := chan }
    if maxLen < length then (.panic, objQ1, reader)
    else
      let (data, err, reader') := ReadFull reader length
      let nRead := data.length
      match err with
      | some e => (.returned hash (some e), objQ1, reader')
      | none =>
        if nRead % 2 ^ 64 ≠ length then
          (.returned hash (some ("failed to read file data, wanted: " ++ toString length ++
            ", got: " ++ toString nRead ++ " bytes")), objQ1, reader')
        else
          let hash := sha512 data
          let request : AddObjectRequest := ⟨data.length % 2 ^ 64, some hash⟩
          (.returned hash none,
            { objQ1 with
              sent := objQ1.sent ++ [Frame.request request, Frame.data data]
              getResponseChan := objQ1.getResponseChan + 1 },
            reader')

/-- A limit on the length of a slice for examples: `2^47` bytes. -/
def exampleMaxLen : Nat := 2 ^ 47

/-- The results of the server's `decoder.Decode` for what a client wrote, each
body being read by the adder: the request records, in order. -/
def decodesOf : List Frame → List DecodeResult
  | [] => []
  | .request r :: rest => .request r :: decodesOf rest
  | .data _ :: rest => decodesOf rest

/-- The method `ObjectAdderQueue.close` (queue.go lines 73 to 83) as far as the
fields of the queue go: the returned error and the queue afterwards, `connClose`
and `clientClose` being the errors of `objQ.conn.Close()` and
`objQ.client.Close()`.  The closing of `getResponseChan` is recorded in
`QueueSystem`. -/
def ObjectAdderQueue.close (connClose clientClose : Option String)
    (objQ : ObjectAdderQueue) : Option String × ObjectAdderQueue :=
  let (err, chan) := consumeErrors objQ.errorChan
  let err1 := match err with
    | none => connClose
    | some e => some e
  let err2 := match err1 with
    | none => clientClose
    | some e => some e
  (err2, { objQ with errorChan := chan })

/-- What `decoder.Decode(&reply)` gives in `readResponses`: a reply, of which the
field `Error` is read, or an error of the decoder. -/
inductive ReplyResult where
  | reply (Error : Option String)
  | failure (msg : String)
deriving DecidableEq, Repr

/-- The value of `err` at line 104 of queue.go. -/
def ReplyResult.err : ReplyResult → Option String
  | .reply e => e
  | .failure msg => some msg

/-- The queue together with its goroutine `readResponses`.  `taken` counts the
tokens `readResponses` has received from `getResponseChan` (of which
`objQ.getResponseChan` counts those put); `replies` are the results of the calls of
`Decode` still to come, in order, that is the responses of the server that have
arrived and are not decoded yet; the flags tell whether `errorChan` and
`getResponseChan` are closed and whether `readResponses` has returned. -/
structure QueueSystem where
  objQ : ObjectAdderQueue
  taken : Nat
  replies : List ReplyResult
  errorChanClosed : Bool
  getResponseChanClosed : Bool
  readerReturned : Bool
deriving DecidableEq, Repr

/-- The queue `newObjectAdderQueue` returns (queue.go lines 26 to 33), for the
responses the server will give. -/
def newQueueSystem (replies : List ReplyResult) : QueueSystem :=
  ⟨⟨[], [], 0⟩, 0, replies, false, false, false⟩

/-- One pass of the loop of `readResponses` (queue.go lines 98 to 109), or its
return when `getResponseChan` is closed and empty; `none` when the goroutine
cannot move: it has returned, or it waits for a token, for a response, or for
room in `errorChan` (which holds 1024 entries). -/
def readResponsesStep (q : QueueSystem) : Option QueueSystem :=
  if q.readerReturned then none
  else if q.taken < q.objQ.getResponseChan then
    match q.replies with
    | [] => none
    | r :: rest =>
      if q.objQ.errorChan.length < 1024 then
        let q1 := { q with
          taken := q.taken + 1
          replies := rest
          objQ := { q.objQ with errorChan := q.objQ.errorChan ++ [r.err] } }
        match r.err with
        | some _ => some { q1 with errorChanClosed := true, readerReturned := true }
        | none => some q1
      else none
  else if q.getResponseChanClosed then some { q with readerReturned := true }
  else none

/-- A call of `add` on the queue of the system (before any call of `close`). -/
def QueueSystem.add (sha512 : List Nat → Hash) (maxLen : Nat) (q : QueueSystem)
    (reader : Reader) (length : Nat) : AddResult × QueueSystem × Reader :=
  let r := q.objQ.add sha512 maxLen reader length
  (r.1, { q with objQ := r.2.1 }, r.2.2)

/-- A call of `close` on the queue of the system. -/
def QueueSystem.close (connClose clientClose : Option String) (q : QueueSystem) :
    Option String × QueueSystem :=
  let r := q.objQ.close connClose clientClose
  (r.1, { q with getResponseChanClosed := true, objQ := r.2 })

/-- A digest function for examples; any function will do. -/
def exampleDigest (data : List Nat) : Hash := [data.length, data.sum % 256]

/-! ### sub/scanner/walk.go -/

/-- The fields of `syscall.Stat_t` that walk.go reads. -/
structure Stat where
  Dev : Nat
  Ino : Nat
  Mode : Nat
deriving DecidableEq, Repr

/-- The constant `syscall.S_IFMT`. -/
def S_IFMT : Nat := 0o170000

/-- The constant `syscall.S_IFDIR`. -/
def S_IFDIR : Nat := 0o040000

/-- The constant `syscall.S_IFREG`. -/
def S_IFREG : Nat := 0o100000

/-- The constant `syscall.S_IFLNK`. -/
def S_IFLNK : Nat := 0o120000

/-- The error number `syscall.ENOENT`. -/
def ENOENT : Nat := 2

/-- The error values the scanner meets, kept apart by their dynamic type because
the code compares them with `==`: a `syscall.Errno` (what `syscall.Lstat`
returns), an `*os.PathError` wrapping an error number (what `os.Open` and
`os.Readlink` return), an `*os.SyscallError` (what `Readdirnames` returns), and an
error made by `errors.New`. -/
inductive GoError where
  | errno (e : Nat)
  | pathError (op : String) (path : String) (e : Nat)
  | syscallError (call : String) (e : Nat)
  | text (msg : String)
deriving DecidableEq, Repr

/-- The record `Inode`: the stat result, the hash of a regular file once computed
(`none` is the nil slice) and the target of a symbolic link. -/
structure Inode where
  Stat : Dominator.Stat
  Hash : Option (List Nat)
  Symlink : String
deriving DecidableEq, Repr

/-- The record `File`; `Inode` is the pointer `*Inode`, an address in
`FileSystem.inodes`. -/
structure File where
  Name : String
  Inode : Nat
deriving DecidableEq, Repr

/-- The record `Directory`; `Inode` is the pointer `*Inode`, an address in
`FileSystem.inodes`. -/
inductive Directory where
  | mk (Name : String) (Inode : Nat) (DirectoryList : List Directory)
      (FileList : List File)
deriving Repr

/-- The field `Name` of a directory. -/
def Directory.Name : Directory → String
  | .mk name _ _ _ => name

/-- The field `Inode` of a directory. -/
def Directory.Inode : Directory → Nat
  | .mk _ inode _ _ => inode

/-- The field `DirectoryList` of a directory. -/
def Directory.DirectoryList : Directory → List Directory
  | .mk _ _ dirs _ => dirs

/-- The field `FileList` of a directory. -/
def Directory.FileList : Directory → List File
  | .mk _ _ _ files => files

/-- The statement `directory.DirectoryList = append(directory.DirectoryList, &dir)`. -/
def Directory.appendDirectory : Directory → Directory → Directory
  | .mk name inode dirs files, dir => .mk name inode (dirs ++ [dir]) files

/-- The statement `directory.FileList = append(directory.FileList, &file)`. -/
def Directory.appendFile : Directory → File → Directory
  | .mk name inode dirs files, file => .mk name inode dirs (files ++ [file])

/-- The record `FileSystem` as far as walk.go uses it, with the `Inode` records
its pointers lead to: `inodes` is the store of the records allocated so far, a
pointer `*Inode` being a position in it, and `InodeTable` is the map from inode
number to pointer (the first pair with a given key is the entry of the map). -/
structure FileSystem where
  inodes : List Inode
  InodeTable : List (Nat × Nat)
deriving DecidableEq, Repr

/-- The library functions and system calls of the scanner.  `join` is `path.Join`
and `sha512` the digest; `Open` gives the error number when `os.Open` fails,
`Readdirnames` the names of an opened directory, `Lstat` the result of
`syscall.Lstat`, `content` the bytes read from an opened file and `Readlink` the
result of `os.Readlink`. -/
structure Sys where
  join : String → String → String
  sha512 : List Nat → List Nat
  Open : String → Option Nat
  Readdirnames : String → Except Nat (List String)
  Lstat : String → Except Nat Stat
  content : String → List Nat
  Readlink : String → Except Nat String

/-- What the scan did, in order, kept for stating properties; no decision of the
scan reads it.  `entry` records a call of `getInode` for a directory entry with
the pointer and the flag it returned, `dirScan` a call of `Directory.scan` and
`fileScan` a call of `File.scan`, each with the path concerned. -/
inductive ScanEvent where
  | entry (filename : String) (stat : Stat) (inode : Nat) (isNewInode : Bool)
  | dirScan (path : String)
  | fileScan (path : String) (inode : Nat)
deriving DecidableEq, Repr

/-- How a call ends: with nil, with an error, with a nil pointer dereference, or
(in the model only) because the bound on the nesting depth was reached. -/
inductive Outcome where
  | ok
  | error (err : GoError)
  | panic
  | outOfFuel
deriving DecidableEq, Repr

/-- What a call of `Directory.scan` leaves: how it ended, the directory and the
file system as they are at that moment, and what was done. -/
structure ScanResult where
  outcome : Outcome
  directory : Directory
  fileSystem : FileSystem
  trace : List ScanEvent
deriving Repr

/-- The method `FileSystem.getInode` (walk.go lines 14 to 25): the pointer, the
flag `new`, and the file system afterwards. -/
def FileSystem.getInode (fileSystem : FileSystem) (stat : Stat) :
    (Nat × Bool) × FileSystem :=
  match fileSystem.InodeTable.lookup stat.Ino with
  | some inode => ((inode, false), fileSystem)
  | none =>
    let inode := fileSystem.inodes.length
    ((inode, true),
      { inodes := fileSystem.inodes ++ [⟨stat, none, ""⟩]
        InodeTable := (stat.Ino, inode) :: fileSystem.InodeTable })

/-- The method `File.scan` (walk.go lines 84 to 104): how it ends and the file
system afterwards. -/
def File.scan (sys : Sys) (file : File) (fileSystem : FileSystem) (parentName : String) :
    Outcome × FileSystem :=
  let myPathName := sys.join parentName file.Name
  match fileSystem.inodes[file.Inode]? with
  | none => (.panic, fileSystem)
  | some inode =>
    if inode.Stat.Mode &&& S_IFMT = S_IFREG then
      match sys.Open myPathName with
      | some e => (.error (.pathError "open" myPathName e), fileSystem)
      | none =>
        let hash := sys.sha512 (sys.content myPathName)
        (.ok, { fileSystem with
          inodes := fileSystem.inodes.set file.Inode { inode with Hash := some hash } })
    else if inode.Stat.Mode &&& S_IFMT = S_IFLNK then
      match sys.Readlink myPathName with
      | .error e => (.error (.pathError "readlink" myPathName e), fileSystem)
      | .ok symlink =>
        (.ok, { fileSystem with
          inodes := fileSystem.inodes.set file.Inode { inode with Symlink := symlink } })
    else (.ok, fileSystem)

/-- The order of `sort.Strings` on two lists of characters. -/
def charsLt : List Char → List Char → Bool
  | _, [] => false
  | [], _ :: _ => true
  | a :: as, b :: bs => a.toNat < b.toNat || (a.toNat = b.toNat && charsLt as bs)

/-- One name put at its place in a sorted list. -/
def insertName (name : String) : List String → List String
  | [] => [name]
  | x :: xs => if charsLt name.data x.data then name :: x :: xs else x :: insertName name xs

/-- The call `sort.Strings(names)`. -/
def sortStrings (names : List String) : List String :=
  names.foldr insertName []

/-- The loop of `Directory.scan` (walk.go lines 40 to 80) over the names still to
be handled; `scanDir` is the recursive call `dir.scan(fileSystem, myPathName)`. -/
def scanNames (sys : Sys) (scanDir : Directory → FileSystem → String → ScanResult)
    (myPathName : String) : List String → Directory → FileSystem → ScanResult
  | [], directory, fileSystem => ⟨.ok, directory, fileSystem, []⟩
  | name :: names, directory, fileSystem =>
    let filename := sys.join myPathName name
    match sys.Lstat filename with
    | .error e =>
      if e = ENOENT then scanNames sys scanDir myPathName names directory fileSystem
      else ⟨.error (.errno e), directory, fileSystem, []⟩
    | .ok stat =>
      let ((inode, isNewInode), fs1) := fileSystem.getInode stat
      let ev := ScanEvent.entry filename stat inode isNewInode
      match fs1.inodes[directory.Inode]? with
      | none => ⟨.panic, directory, fs1, [ev]⟩
      | some dirInode =>
        if stat.Dev = dirInode.Stat.Dev then
          if stat.Mode &&& S_IFMT = S_IFDIR then
            if !isNewInode then
              ⟨.error (.text ("Hardlinked directory: " ++ filename)), directory, fs1, [ev]⟩
            else
              let dir := Directory.mk name inode [] []
              let sub := scanDir dir fs1 myPathName
              match sub.outcome with
              | .ok =>
                let r := scanNames sys scanDir myPathName names
                  (directory.appendDirectory sub.directory) sub.fileSystem
                { r with trace := ev :: sub.trace ++ r.trace }
              | other => ⟨other, directory, sub.fileSystem, ev :: sub.trace⟩
          else
            let file : File := ⟨name, inode⟩
            if isNewInode then
              let evf := ScanEvent.fileScan (sys.join myPathName name) inode
              match File.scan sys file fs1 myPathName with
              | (.ok, fs2) =>
                let r := scanNames sys scanDir myPathName names
                  (directory.appendFile file) fs2
                { r with trace := ev :: evf :: r.trace }
              | (.error err, fs2) =>
                if err = GoError.errno ENOENT then
                  let r := scanNames sys scanDir myPathName names directory fs2
                  { r with trace := ev :: evf :: r.trace }
                else ⟨.error err, directory, fs2, [ev, evf]⟩
              | (other, fs2) => ⟨other, directory, fs2, [ev, evf]⟩
            else
              let r := scanNames sys scanDir myPathName names
                (directory.appendFile file) fs1
              { r with trace := ev :: r.trace }
        else
          let r := scanNames sys scanDir myPathName names directory fs1
          { r with trace := ev :: r.trace }

/-- The method `Directory.scan` (walk.go lines 27 to 82).  The first argument
bounds the depth of the recursion: a directory is opened only while it is
positive, and `outOfFuel` is the outcome otherwise. -/
def Directory.scan (sys : Sys) : Nat → Directory → FileSystem → String → ScanResult
  | 0, directory, fileSystem, _ => ⟨.outOfFuel, directory, fileSystem, []⟩
  | fuel + 1, directory, fileSystem, parentName =>
    let myPathName := sys.join parentName directory.Name
    match sys.Open myPathName with
    | some e => ⟨.error (.pathError "open" myPathName e), directory, fileSystem,
        [.dirScan myPathName]⟩
    | none =>
      match sys.Readdirnames myPathName with
      | .error e => ⟨.error (.syscallError "readdirent" e), directory, fileSystem,
          [.dirScan myPathName]⟩
      | .ok names =>
        let r := scanNames sys (Directory.scan sys fuel) myPathName (sortStrings names)
          directory fileSystem
        { r with trace := .dirScan myPathName :: r.trace }

/-- The inode table sends every inode number it knows to an allocated record, and
no two inode numbers to the same record.  The empty table is of this kind, and so
is every table built by `getInode` alone. -/
structure FileSystem.wf (fs : FileSystem) : Prop where
  valid : ∀ (ino a : Nat), fs.InodeTable.lookup ino = some a → a < fs.inodes.length
  inj : ∀ (i1 i2 a : Nat), fs.InodeTable.lookup i1 = some a →
    fs.InodeTable.lookup i2 = some a → i1 = i2

/-- Every record of `fs` is still there in `fs'` with the same stat result, and
every entry of the inode table of `fs` is still an entry of that of `fs'`. -/
structure FileSystem.grows (fs fs' : FileSystem) : Prop where
  records : ∀ (a : Nat) (r : Inode), fs.inodes[a]? = some r →
    ∃ r' : Inode, fs'.inodes[a]? = some r' ∧ r'.Stat = r.Stat
  table : ∀ (ino a : Nat), fs.InodeTable.lookup ino = some a →
    fs'.InodeTable.lookup ino = some a

/-- Of two directory entries with the same inode number, the second was not given
a new record. -/
def laterNotNew (e1 e2 : ScanEvent) : Prop :=
  ∀ f1 s1 a1 n1 f2 s2 a2 n2, e1 = ScanEvent.entry f1 s1 a1 n1 →
    e2 = ScanEvent.entry f2 s2 a2 n2 → s1.Ino = s2.Ino → n2 = false

/-- How a piece of a scan that did `t` relates the file system `fs` it started
from to the file system `fs'` it left: nothing is lost, a well-formed table stays
so, the table holds the pointer given to every entry, an entry given a new record
had an inode number the table did not know, and a repeated inode number is never
given a new record. -/
structure ScanRun (fs fs' : FileSystem) (t : List ScanEvent) : Prop where
  grows : fs.grows fs'
  wf : fs.wf → fs'.wf
  recorded : ∀ f s a n, ScanEvent.entry f s a n ∈ t → fs'.InodeTable.lookup s.Ino = some a
  fresh : ∀ f s a, ScanEvent.entry f s a true ∈ t → fs.InodeTable.lookup s.Ino = none
  pairwise : t.Pairwise laterNotNew

/-- Every directory entry on device `D` that was met with a known inode number
ended the scan with the hardlink error for its path. -/
def HardlinkReported (D : Nat) (out : Outcome) (t : List ScanEvent) : Prop :=
  ∀ f s a, ScanEvent.entry f s a false ∈ t → s.Dev = D → s.Mode &&& S_IFMT = S_IFDIR →
    out = Outcome.error (GoError.text ("Hardlinked directory: " ++ f))

/-- What holds of every call of the scan on `directory` started in `fs`: the
relation `ScanRun`, and the report of hardlinked directories on the device of
`directory`. -/
def ScanSpec (directory : Directory) (fs : FileSystem) (res : ScanResult) : Prop :=
  ScanRun fs res.fileSystem res.trace ∧
    ∀ r : Inode, fs.inodes[directory.Inode]? = some r →
      HardlinkReported r.Stat.Dev res.outcome res.trace

/-- A simple reading of `path.Join` for clean elements, used in examples. -/
def exampleJoin (a b : String) : String :=
  if a = "" then b else if a = "/" then "/" ++ b else a ++ "/" ++ b

/-- The root directory of the examples, with its inode already in the table. -/
def rootDirectory : Directory := .mk "/" 0 [] []

/-- The file system of the examples before the scan: the record of the root
directory (device 1, inode number 2). -/
def rootFileSystem : FileSystem := ⟨[⟨⟨1, 2, 0o040755⟩, none, ""⟩], [(2, 0)]⟩

/-- A root directory on device 1 holding the empty directory `usr` with inode
number 128. -/
def plainSys : Sys where
  join := exampleJoin
  sha512 := exampleDigest
  Open := fun _ => none
  Readdirnames := fun p => if p = "/" then .ok ["usr"] else .ok []
  Lstat := fun p => if p = "/usr" then .ok ⟨1, 128, 0o040755⟩ else .error ENOENT
  content := fun _ => []
  Readlink := fun _ => .error 22

/-- The same tree with another file system mounted on `/mnt`: the mount point is
the root directory of that file system, on device 2, with inode number 128. -/
def mountedSys : Sys where
  join := exampleJoin
  sha512 := exampleDigest
  Open := fun _ => none
  Readdirnames := fun p => if p = "/" then .ok ["usr", "mnt"] else .ok []
  Lstat := fun p =>
    if p = "/mnt" then .ok ⟨2, 128, 0o040755⟩
    else if p = "/usr" then .ok ⟨1, 128, 0o040755⟩
    else .error ENOENT
  content := fun _ => []
  Readlink := fun _ => .error 22

/-- A root directory on device 1 holding the regular file `data` with inode
number 7 and the mount point `mnt` of a file system on device 2 whose root has
inode number 7 as well. -/
def sharedInoSys : Sys where
  join := exampleJoin
  sha512 := exampleDigest
  Open := fun _ => none
  Readdirnames := fun p => if p = "/" then .ok ["mnt", "data"] else .ok []
  Lstat := fun p =>
    if p = "/data" then .ok ⟨1, 7, 0o100644⟩
    else if p = "/mnt" then .ok ⟨2, 7, 0o040755⟩
    else .error ENOENT
  content := fun _ => [104, 105]
  Readlink := fun _ => .error 22

/-- A root directory on device 1 holding the directories `x` and `y`, which are
hard links of one directory (inode number 50) that holds nothing else. -/
def hardlinkedSys : Sys where
  join := exampleJoin
  sha512 := exampleDigest
  Open := fun _ => none
  Readdirnames := fun p => if p = "/" then .ok ["y", "x"] else .ok []
  Lstat := fun p =>
    if p = "/x" then .ok ⟨1, 50, 0o040755⟩
    else if p = "/y" then .ok ⟨1, 50, 0o040755⟩
    else .error ENOENT
  content := fun _ => []
  Readlink := fun _ => .error 22

/-- A root directory on device 1 holding `a.conf`, a regular file of another file
system (device 2, inode number 9, such as a file bind-mounted from elsewhere), and
the regular file `b.txt` on device 1 with inode number 9 as well. -/
def foreignFileSys : Sys where
  join := exampleJoin
  sha512 := exampleDigest
  Open := fun _ => none
  Readdirnames := fun p => if p = "/" then .ok ["b.txt", "a.conf"] else .ok []
  Lstat := fun p =>
    if p = "/a.conf" then .ok ⟨2, 9, 0o100644⟩
    else if p = "/b.txt" then .ok ⟨1, 9, 0o100644⟩
    else .error ENOENT
  content := fun _ => [104, 105]
  Readlink := fun _ => .error 22

/-- A root directory on device 1 holding the regular files `gone` and `kept`;
`gone` is removed after its `Lstat` and before it is opened, so that `os.Open`
fails with `ENOENT`. -/
def vanishingSys : Sys where
  join := exampleJoin
  sha512 := exampleDigest
  Open := fun p => if p = "/gone" then some ENOENT else none
  Readdirnames := fun p => if p = "/" then .ok ["gone", "kept"] else .ok []
  Lstat := fun p =>
    if p = "/gone" then .ok ⟨1, 5, 0o100644⟩
    else if p = "/kept" then .ok ⟨1, 6, 0o100644⟩
    else .error ENOENT
  content := fun _ => [104, 105]
  Readlink := fun _ => .error 22

/-- A root directory on device 1 holding the regular files `a` and `b`, hard links
of one file (inode number 20), the symbolic link `lnk` to `usr` (inode number 11),
the directory `usr` (inode number 129) with the regular file `c` (inode number 21),
the mount point `mnt` of a file system on device 2, and the symbolic link `far`,
which reports device 2 (inode number 12), as an entry coming from a lower layer of
an overlay file system does. -/
def linkedSys : Sys where
  join := exampleJoin
  sha512 := exampleDigest
  Open := fun _ => none
  Readdirnames := fun p =>
    if p = "/" then .ok ["usr", "mnt", "lnk", "far", "b", "a"]
    else if p = "/usr" then .ok ["c"]
    else .ok []
  Lstat := fun p =>
    if p = "/a" then .ok ⟨1, 20, 0o100644⟩
    else if p = "/b" then .ok ⟨1, 20, 0o100644⟩
    else if p = "/lnk" then .ok ⟨1, 11, 0o120777⟩
    else if p = "/far" then .ok ⟨2, 12, 0o120777⟩
    else if p = "/mnt" then .ok ⟨2, 128, 0o040755⟩
    else if p = "/usr" then .ok ⟨1, 129, 0o040755⟩
    else if p = "/usr/c" then .ok ⟨1, 21, 0o100644⟩
    else .error ENOENT
  content := fun _ => [104, 105]
  Readlink := fun p =>
    if p = "/lnk" then .ok "usr" else if p = "/far" then .ok "/etc" else .error 22

/-! ### lib/srpc/client.go -/

/-- An error value as client.go handles it: one of the error variables of the
package that the code returns or compares with, or another error, of which only
the text matters. -/
inductive SrpcError where
  | ErrorNoSrpcEndpoint
  | ErrorBadCertificate
  | ErrorMissingCertificate
  | other (text : String)
deriving DecidableEq, Repr

/-- The constants and error texts of package `srpc` that client.go uses and that
are declared in other files of the package. -/
structure SrpcConsts where
  connectString : String
  doNotUseMethodPowers : String
  rpcPath : String
  jsonRpcPath : String
  tlsRpcPath : String
  jsonTlsRpcPath : String
  noSrpcEndpointText : String
  badCertificateText : String
  missingCertificateText : String

/-- The method `Error()` of an error value. -/
def SrpcError.Error (c : SrpcConsts) : SrpcError → String
  | .ErrorNoSrpcEndpoint => c.noSrpcEndpointText
  | .ErrorBadCertificate => c.badCertificateText
  | .ErrorMissingCertificate => c.missingCertificateText
  | .other text => text

/-- The function `strings.Contains`. -/
def stringsContains (s substr : String) : Bool :=
  s.data.tails.any (fun t => substr.data.isPrefixOf t)

/-- The fields of `http.Response` that `doHTTPConnect` reads. -/
structure HttpResponse where
  StatusCode : Int
  Status : String
deriving DecidableEq, Repr

/-- The function `doHTTPConnect` (client.go lines 206 to 231): what is written on
the connection and the returned error, `ReadResponse` being the result of
`http.ReadResponse`. -/
def doHTTPConnect (c : SrpcConsts) (srpcClientDoNotUseMethodPowers : Bool) (path : String)
    (ReadResponse : Except SrpcError HttpResponse) : String × Option SrpcError :=
  let query := if srpcClientDoNotUseMethodPowers then "?" ++ c.doNotUseMethodPowers ++ "=true"
    else ""
  let written := "CONNECT " ++ path ++ query ++ " HTTP/1.0\n\n"
  match ReadResponse with
  | .error err => (written, some err)
  | .ok resp =>
    if resp.StatusCode = 404 then (written, some .ErrorNoSrpcEndpoint)
    else if resp.StatusCode = 401 then (written, some .ErrorBadCertificate)
    else if resp.StatusCode = 405 then (written, some .ErrorMissingCertificate)
    else if resp.StatusCode ≠ 200 ∨ resp.Status ≠ c.connectString then
      (written, some (.other ("unexpected HTTP response: " ++ resp.Status)))
    else (written, none)

/-- The two coders an endpoint can have. -/
inductive Coder where
  | gobCoder
  | jsonCoder
deriving DecidableEq, Repr

/-- The record `endpointType`. -/
structure endpointType where
  coderMaker : Coder
  path : String
  tls : Bool
deriving DecidableEq, Repr

/-- The field of `tls.Config` that `dialHTTPDirect` reads. -/
structure TlsConfig where
  InsecureSkipVerify : Bool
deriving DecidableEq, Repr

/-- The outcomes of the calls that one call of `dialHTTPEndpoint` makes: the error
of `dial`, of the first `SetDeadline`, of the handshake made when `fullTLS` is set,
the result of `http.ReadResponse`, the error of the handshake made after the
CONNECT, of the second `SetDeadline` and of `newClient`. -/
structure Attempt where
  dial : Option SrpcError
  SetDeadline : Option SrpcError
  fullHandshake : Option SrpcError
  ReadResponse : Except SrpcError HttpResponse
  Handshake : Option SrpcError
  clearDeadline : Option SrpcError
  newClient : Option SrpcError

/-- The command-line flags that `dialHTTPEndpoint` and `doHTTPConnect` read. -/
structure SrpcFlags where
  srpcDefaultConnectTimeout : Int
  srpcClientDoNotUseMethodPowers : Bool

/-- What is known of a client that `newClient` returns: the coder, the flag
`isEncrypted`, and whether the data connection is a TLS connection. -/
structure Client where
  makeCoder : Coder
  isEncrypted : Bool
  dataConnTls : Bool
deriving DecidableEq, Repr

/-- The error returned after a failed `tlsConn.Handshake()` (client.go lines 161 to
166 and 174 to 179). -/
def handshakeError (c : SrpcConsts) : Option SrpcError → Option SrpcError
  | none => none
  | some err =>
    if stringsContains (err.Error c) (SrpcError.ErrorBadCertificate.Error c) then
      some .ErrorBadCertificate
    else some err

/-- The function `dialHTTPEndpoint` (client.go lines 140 to 189), `a` giving the
outcomes of the calls it makes. -/
def dialHTTPEndpoint (c : SrpcConsts) (flags : SrpcFlags) (a : Attempt) (fullTLS : Bool)
    (endpoint : endpointType) : Except SrpcError Client :=
  match a.dial with
  | some err => .error err
  | none =>
    match (if flags.srpcDefaultConnectTimeout > 0 then a.SetDeadline else none) with
    | some err => .error err
    | none =>
      match (if fullTLS then handshakeError c a.fullHandshake else none) with
      | some err => .error err
      | none =>
        match (doHTTPConnect c flags.srpcClientDoNotUseMethodPowers endpoint.path
          a.ReadResponse).2 with
        | some err => .error err
        | none =>
          match (if endpoint.tls && !fullTLS then handshakeError c a.Handshake else none) with
          | some err => .error err
          | none =>
            match (if flags.srpcDefaultConnectTimeout > 0 then a.clearDeadline else none) with
            | some err => .error err
            | none =>
              match a.newClient with
              | some err => .error err
              | none => .ok ⟨endpoint.coderMaker, endpoint.tls, fullTLS || endpoint.tls⟩

/-- What a call of `dialHTTPEndpoints` or of `dialHTTPDirect` gives: the result,
and the calls of `dialHTTPEndpoint` made, in order, each with its `fullTLS` and its
endpoint. -/
structure DialResult where
  result : Except SrpcError Client
  tried : List (Bool × endpointType)

/-- The function `dialHTTPEndpoints` (client.go lines 191 to 204); `attempts n`
gives the outcomes of the calls made by the call of `dialHTTPEndpoint` number `n`,
and `i` is the number of the next one. -/
def dialHTTPEndpoints (c : SrpcConsts) (flags : SrpcFlags) (attempts : Nat → Attempt)
    (fullTLS : Bool) : List endpointType → Nat → DialResult
  | [], _ => ⟨.error .ErrorNoSrpcEndpoint, []⟩
  | endpoint :: rest, i =>
    match dialHTTPEndpoint c flags (attempts i) fullTLS endpoint with
    | .ok client => ⟨.ok client, [(fullTLS, endpoint)]⟩
    | .error err =>
      if err ≠ .ErrorNoSrpcEndpoint then ⟨.error err, [(fullTLS, endpoint)]⟩
      else
        let r := dialHTTPEndpoints c flags attempts fullTLS rest (i + 1)
        { r with tried := (fullTLS, endpoint) :: r.tried }

/-- The list `insecureEndpoints` of `dialHTTPDirect`. -/
def insecureEndpoints (c : SrpcConsts) : List endpointType :=
  [⟨.gobCoder, c.rpcPath, false⟩, ⟨.jsonCoder, c.jsonRpcPath, false⟩]

/-- The list `secureEndpoints` of `dialHTTPDirect`. -/
def secureEndpoints (c : SrpcConsts) : List endpointType :=
  [⟨.gobCoder, c.tlsRpcPath, true⟩, ⟨.jsonCoder, c.jsonTlsRpcPath, true⟩]

/-- The function `dialHTTPDirect` (client.go lines 109 to 138). -/
def dialHTTPDirect (c : SrpcConsts) (flags : SrpcFlags) (attempts : Nat → Attempt)
    (tlsConfig : Option TlsConfig) : DialResult :=
  match tlsConfig with
  | none => dialHTTPEndpoints c flags attempts false (insecureEndpoints c) 0
  | some cfg =>
    let endpoints := secureEndpoints c ++
      (if cfg.InsecureSkipVerify then insecureEndpoints c else [])
    let r := dialHTTPEndpoints c flags attempts false endpoints 0
    match r.result with
    | .ok _ => r
    | .error err =>
      if stringsContains (err.Error c) "malformed HTTP response" then
        let r2 := dialHTTPEndpoints c flags attempts true (secureEndpoints c) r.tried.length
        { r2 with tried := r.tried ++ r2.tried }
      else r

/-- Constants for examples. -/
def exampleConsts : SrpcConsts where
  connectString := "200 Connected to Go SRPC"
  doNotUseMethodPowers := "doNotUseMethodPowers"
  rpcPath := "/_goSRPC_/"
  jsonRpcPath := "/_SRPC_/unsecured/JSON"
  tlsRpcPath := "/_go_TLS_SRPC_/"
  jsonTlsRpcPath := "/_SRPC_/TLS/JSON"
  noSrpcEndpointText := "no SRPC endpoint"
  badCertificateText := "bad certificate"
  missingCertificateText := "missing certificate"

/-- A server for examples that speaks TLS on every connection: a CONNECT sent in
the clear is answered with bytes that are no HTTP response, and no endpoint is
served once TLS is on. -/
def tlsOnlyAttempt (n : Nat) : Attempt where
  dial := none
  SetDeadline := none
  fullHandshake := none
  ReadResponse :=
    if n < 1 then .error (.other "malformed HTTP response \"\\x15\\x03\\x01\"")
    else .ok ⟨404, "404 Not Found"⟩
  Handshake := none
  clearDeadline := none
  newClient := none

/-! ### dom/herd/mdb.go -/

/-- The fields of `mdb.Machine` that `mdbUpdateNoLogging` reads. -/
structure Machine where
  Hostname : String
  RequiredImage : String
  PlannedImage : String
deriving DecidableEq, Repr

/-- The record `Sub` as far as mdb.go uses it; `state` stands for the fields that
`mdbUpdateNoLogging` does not mention (the zero value being 0). -/
structure Sub where
  hostname : String
  requiredImage : String
  plannedImage : String
  state : Nat
deriving DecidableEq, Repr, Inhabited

/-- A Go map with string keys: the first pair with a given key is the entry of the
map. -/
abbrev GoMap (β : Type) := List (String × β)

/-- The statement `m[k] = v`. -/
def GoMap.set {β : Type} (m : GoMap β) (k : String) (v : β) : GoMap β :=
  (k, v) :: m.filter (fun e => e.1 ≠ k)

/-- The statement `delete(m, k)`. -/
def GoMap.delete {β : Type} (m : GoMap β) (k : String) : GoMap β :=
  m.filter (fun e => e.1 ≠ k)

/-- The value `m[k]`, `none` when the key is absent. -/
def GoMap.get {β : Type} (m : GoMap β) (k : String) : Option β :=
  (m.find? (fun e => e.1 = k)).map (fun e => e.2)

/-- The fields of `Herd` that mdb.go uses, with the `Sub` records its pointers lead
to: `subs` is the store of the records allocated so far, a pointer `*Sub` being a
position in it; `subsByName` and `subsByIndex` hold such pointers; an image is
stood for by a number. -/
structure Herd where
  subs : List Sub
  subsByName : GoMap Nat
  subsByIndex : List Nat
  imagesByName : GoMap Nat
deriving DecidableEq, Repr

/-- The record a pointer leads to.  The map and the list of a herd hold only
positions of its store; for any other position the zero record is given. -/
def Herd.sub (herd : Herd) (a : Nat) : Sub :=
  herd.subs.getD a default

/-- The state of the loop over the machines (mdb.go lines 33 to 48). -/
structure MachineLoop where
  herd : Herd
  subsToDelete : GoMap Bool
  numNew : Nat
deriving DecidableEq, Repr

/-- One pass of the loop over the machines (mdb.go lines 34 to 47);
`getImageHaveLock` is the method of that name (not part of the sources at hand),
given by what it does to `imagesByName`. -/
def machineStep (getImageHaveLock : GoMap Nat → String → GoMap Nat)
    (st : MachineLoop) (machine : Machine) : MachineLoop :=
  let found := st.herd.subsByName.get machine.Hostname
  -- if sub == nil: a new record, entered in the map
  let herd1 : Herd :=
    match found with
    | some _ => st.herd
    | none =>
      { st.herd with
        subs := st.herd.subs ++ [⟨machine.Hostname, "", "", 0⟩]
        subsByName := st.herd.subsByName.set machine.Hostname st.herd.subs.length }
  let sub : Nat := found.getD st.herd.subs.length
  let numNew := if found.isSome then st.numNew else st.numNew + 1
  let subsToDelete := st.subsToDelete.set (herd1.sub sub).hostname false
  let herd2 : Herd := { herd1 with subsByIndex := herd1.subsByIndex ++ [sub] }
  let herd3 : Herd := { herd2 with
    subs := herd2.subs.set sub
      { herd2.sub sub with
        requiredImage := machine.RequiredImage, plannedImage := machine.PlannedImage } }
  let images1 := getImageHaveLock herd3.imagesByName (herd3.sub sub).requiredImage
  let images2 := getImageHaveLock images1 (herd3.sub sub).plannedImage
  ⟨{ herd3 with imagesByName := images2 }, subsToDelete, numNew⟩

/-- The loop that marks every current sub for deletion (mdb.go lines 30 to 32). -/
def markAll (herd : Herd) : GoMap Bool :=
  herd.subsByName.foldl (fun m e => m.set (herd.sub e.2).hostname true) []

/-- The loop that deletes the flagged subs (mdb.go lines 50 to 55): the map of
subs and the count of deletions. -/
def deleteFlagged (subsToDelete : GoMap Bool) (subsByName : GoMap Nat) : GoMap Nat × Nat :=
  subsToDelete.foldl
    (fun acc e => if e.2 then (acc.1.delete e.1, acc.2 + 1) else acc) (subsByName, 0)

/-- The loop that builds `imageUseMap` (mdb.go lines 56 to 60). -/
def imageUseMap (herd : Herd) : GoMap Bool :=
  herd.subsByName.foldl
    (fun m e => (m.set (herd.sub e.2).requiredImage true).set (herd.sub e.2).plannedImage true) []

/-- The loop that cleans up the images found unused (mdb.go lines 62 to 66). -/
def cleanImages (useMap : GoMap Bool) (imagesByName : GoMap Nat) : GoMap Nat :=
  useMap.foldl (fun images e => if !e.2 then images.delete e.1 else images) imagesByName

/-- The method `Herd.mdbUpdateNoLogging` (mdb.go lines 21 to 68): the returned pair
and the herd afterwards.  `waitForCompletion` and the lock change none of the
fields kept here. -/
def mdbUpdateNoLogging (getImageHaveLock : GoMap Nat → String → GoMap Nat)
    (herd : Herd) (machines : List Machine) : (Nat × Nat) × Herd :=
  let herd0 : Herd := { herd with subsByIndex := [] }
  let subsToDelete := markAll herd0
  let st := machines.foldl (machineStep getImageHaveLock) ⟨herd0, subsToDelete, 0⟩
  let (subsByName, numDeleted) := deleteFlagged st.subsToDelete st.herd.subsByName
  let herd1 : Herd := { st.herd with subsByName := subsByName }
  let images := cleanImages (imageUseMap herd1) herd1.imagesByName
  ((st.numNew, numDeleted), { herd1 with imagesByName := images })

/-- An image server for examples: `getImageHaveLock` enters an image unknown so far
under its name, the empty name apart. -/
def exampleGetImage (images : GoMap Nat) (name : String) : GoMap Nat :=
  if name = "" then images
  else match images.get name with
    | some _ => images
    | none => images.set name name.length

/-- A herd before an update of the examples: the subs `a` and `c`, and three images
of which `old` is required or planned by no sub. -/
def exampleHerd : Herd :=
  ⟨[⟨"a", "img1", "", 3⟩, ⟨"c", "img2", "", 4⟩], [("a", 0), ("c", 1)], [0, 1],
    [("img1", 4), ("img2", 4), ("old", 3)]⟩

/-- The subs of a herd are stored as they should be: the map has each key once,
and the pointer kept under a hostname leads to an allocated record with that
hostname.  Every herd built by `mdbUpdateNoLogging` from the empty herd is of
this kind. -/
structure Herd.wf (herd : Herd) : Prop where
  keys : (herd.subsByName.map Prod.fst).Nodup
  stored : ∀ (k : String) (a : Nat), herd.subsByName.get k = some a →
    a < herd.subs.length ∧ (herd.sub a).hostname = k

/-- The hostnames of a machine list, in order. -/
def hostnames (machines : List Machine) : List String :=
  machines.map Machine.Hostname

/-- What holds of the loop over the machines once the machines `done` have been
handled, `herd` being the herd the update started with. -/
structure MachineInv (herd : Herd) (done : List Machine) (st : MachineLoop) : Prop where
  keys : (st.herd.subsByName.map Prod.fst).Nodup
  stored : ∀ (k : String) (a : Nat), st.herd.subsByName.get k = some a →
    a < st.herd.subs.length ∧ (st.herd.sub a).hostname = k
  old : ∀ (k : String) (a : Nat), herd.subsByName.get k = some a →
    st.herd.subsByName.get k = some a
  known : ∀ k : String, (st.herd.subsByName.get k).isSome ↔
    ((herd.subsByName.get k).isSome ∨ k ∈ hostnames done)
  count : st.herd.subs.length = herd.subs.length + st.numNew
  fresh : ∀ (k : String) (a : Nat), herd.subsByName.get k = none →
    st.herd.subsByName.get k = some a → herd.subs.length ≤ a
  flags : ∀ k : String, st.subsToDelete.get k =
    if k ∈ hostnames done then some false
    else if (herd.subsByName.get k).isSome then some true else none
  flagKeys : (st.subsToDelete.map Prod.fst).Nodup
  trueFlags : (st.subsToDelete.filter (fun e => e.2)).map Prod.fst =
    (herd.subsByName.map Prod.fst).reverse.filter (fun k => decide (k ∉ hostnames done))
  index : st.herd.subsByIndex.map some =
    done.map (fun m => st.herd.subsByName.get m.Hostname)
  kept : ∀ a : Nat, a < herd.subs.length →
    (st.herd.sub a).hostname = (herd.sub a).hostname ∧ (st.herd.sub a).state = (herd.sub a).state
  images : ∀ (k : String) (a : Nat), st.herd.subsByName.get k = some a → k ∈ hostnames done →
    ∃ m ∈ done, m.Hostname = k ∧ (st.herd.sub a).requiredImage = m.RequiredImage ∧
      (st.herd.sub a).plannedImage = m.PlannedImage

/-- The state of the loop over the machines when it ends (mdb.go line 48). -/
def afterMachines (getImageHaveLock : GoMap Nat → String → GoMap Nat)
    (herd : Herd) (machines : List Machine) : MachineLoop :=
  machines.foldl (machineStep getImageHaveLock)
    ⟨{ herd with subsByIndex := [] }, markAll { herd with subsByIndex := [] }, 0⟩

/-- A machine list for the examples: the known machine `a` and the new machine
`b`; the machine `c` of `exampleHerd` is no longer listed. -/
def exampleMachines : List Machine :=
  [⟨"a", "img3", ""⟩, ⟨"b", "img1", "img3"⟩]

/-- The order of `sort.Strings`, not strict: `b` does not come before `a`. -/
def nameLe (a b : String) : Prop :=
  charsLt b.data a.data = false

/-- The order of `sort.Strings`, strict. -/
def nameLt (a b : String) : Prop :=
  charsLt a.data b.data = true

/-- Two results of `Readdirnames` that differ at most in the order of the names. -/
def sameListing : Except Nat (List String) → Except Nat (List String) → Prop
  | .ok names, .ok names' => names.Perm names'
  | .error e, .error e' => e = e'
  | _, _ => False

/-- The passes of the loop of `Directory.scan`, one case for each way a pass can go,
with the result of the loop from that pass on.  `scanNames_run` shows that
`scanNames` always goes one of these ways; the properties of the scan are then
proved by induction over the passes. -/
inductive LoopRun (sys : Sys) (scanDir : Directory → FileSystem → String → ScanResult)
    (myPathName : String) : List String → Directory → FileSystem → ScanResult → Prop where
  /-- No name is left. -/
  | done (directory : Directory) (fs : FileSystem) :
    LoopRun sys scanDir myPathName [] directory fs ⟨.ok, directory, fs, []⟩
  /-- `Lstat` fails with `ENOENT`: the name is skipped. -/
  | lstatSkip (name : String) (names : List String) (directory : Directory)
      (fs : FileSystem) (r : ScanResult)
      (hL : sys.Lstat (sys.join myPathName name) = .error ENOENT)
      (hr : LoopRun sys scanDir myPathName names directory fs r) :
    LoopRun sys scanDir myPathName (name :: names) directory fs r
  /-- `Lstat` fails with another error. -/
  | lstatFail (name : String) (names : List String) (directory : Directory)
      (fs : FileSystem) (e : Nat)
      (hL : sys.Lstat (sys.join myPathName name) = .error e) (hne : e ≠ ENOENT) :
    LoopRun sys scanDir myPathName (name :: names) directory fs
      ⟨.error (.errno e), directory, fs, []⟩
  /-- The pointer `directory.Inode` leads nowhere. -/
  | nilInode (name : String) (names : List String) (directory : Directory)
      (fs : FileSystem) (stat : Stat)
      (hL : sys.Lstat (sys.join myPathName name) = .ok stat)
      (hd : (fs.getInode stat).2.inodes[directory.Inode]? = none) :
    LoopRun sys scanDir myPathName (name :: names) directory fs
      ⟨.panic, directory, (fs.getInode stat).2,
        [ScanEvent.entry (sys.join myPathName name) stat (fs.getInode stat).1.1 (fs.getInode stat).1.2]⟩
  /-- The entry is on another device: it is passed over. -/
  | foreign (name : String) (names : List String) (directory : Directory)
      (fs : FileSystem) (stat : Stat) (dirInode : Inode) (r : ScanResult)
      (hL : sys.Lstat (sys.join myPathName name) = .ok stat)
      (hd : (fs.getInode stat).2.inodes[directory.Inode]? = some dirInode)
      (hdev : stat.Dev ≠ dirInode.Stat.Dev)
      (hr : LoopRun sys scanDir myPathName names directory (fs.getInode stat).2 r) :
    LoopRun sys scanDir myPathName (name :: names) directory fs
      { r with trace :=
        ScanEvent.entry (sys.join myPathName name) stat (fs.getInode stat).1.1 (fs.getInode stat).1.2 ::
          r.trace }
  /-- A directory whose inode number is known already. -/
  | hardlink (name : String) (names : List String) (directory : Directory)
      (fs : FileSystem) (stat : Stat) (dirInode : Inode)
      (hL : sys.Lstat (sys.join myPathName name) = .ok stat)
      (hd : (fs.getInode stat).2.inodes[directory.Inode]? = some dirInode)
      (hdev : stat.Dev = dirInode.Stat.Dev)
      (hmode : stat.Mode &&& S_IFMT = S_IFDIR)
      (hnew : (fs.getInode stat).1.2 = false) :
    LoopRun sys scanDir myPathName (name :: names) directory fs
      ⟨.error (.text ("Hardlinked directory: " ++ sys.join myPathName name)), directory,
        (fs.getInode stat).2,
        [ScanEvent.entry (sys.join myPathName name) stat (fs.getInode stat).1.1 false]⟩
  /-- A new directory whose scan does not end with nil. -/
  | subdirFail (name : String) (names : List String) (directory : Directory)
      (fs : FileSystem) (stat : Stat) (dirInode : Inode)
      (hL : sys.Lstat (sys.join myPathName name) = .ok stat)
      (hd : (fs.getInode stat).2.inodes[directory.Inode]? = some dirInode)
      (hdev : stat.Dev = dirInode.Stat.Dev)
      (hmode : stat.Mode &&& S_IFMT = S_IFDIR)
      (hnew : (fs.getInode stat).1.2 = true)
      (hsub : (scanDir (.mk name (fs.getInode stat).1.1 [] []) (fs.getInode stat).2
        myPathName).outcome ≠ .ok) :
    LoopRun sys scanDir myPathName (name :: names) directory fs
      ⟨(scanDir (.mk name (fs.getInode stat).1.1 [] []) (fs.getInode stat).2
          myPathName).outcome, directory,
        (scanDir (.mk name (fs.getInode stat).1.1 [] []) (fs.getInode stat).2
          myPathName).fileSystem,
        ScanEvent.entry (sys.join myPathName name) stat (fs.getInode stat).1.1 true ::
          (scanDir (.mk name (fs.getInode stat).1.1 [] []) (fs.getInode stat).2
            myPathName).trace⟩
  /-- A new directory whose scan ends with nil: it is appended. -/
  | subdirOk (name : String) (names : List String) (directory : Directory)
      (fs : FileSystem) (stat : Stat) (dirInode : Inode) (r : ScanResult)
      (hL : sys.Lstat (sys.join myPathName name) = .ok stat)
      (hd : (fs.getInode stat).2.inodes[directory.Inode]? = some dirInode)
      (hdev : stat.Dev = dirInode.Stat.Dev)
      (hmode : stat.Mode &&& S_IFMT = S_IFDIR)
      (hnew : (fs.getInode stat).1.2 = true)
      (hsub : (scanDir (.mk name (fs.getInode stat).1.1 [] []) (fs.getInode stat).2
        myPathName).outcome = .ok)
      (hr : LoopRun sys scanDir myPathName names
        (directory.appendDirectory
          (scanDir (.mk name (fs.getInode stat).1.1 [] []) (fs.getInode stat).2
            myPathName).directory)
        (scanDir (.mk name (fs.getInode stat).1.1 [] []) (fs.getInode stat).2
          myPathName).fileSystem r) :
    LoopRun sys scanDir myPathName (name :: names) directory fs
      { r with trace :=
        ScanEvent.entry (sys.join myPathName name) stat (fs.getInode stat).1.1 true ::
          (scanDir (.mk name (fs.getInode stat).1.1 [] []) (fs.getInode stat).2
            myPathName).trace ++ r.trace }
  /-- A file whose inode number is known already: it is appended as it is. -/
  | fileOld (name : String) (names : List String) (directory : Directory)
      (fs : FileSystem) (stat : Stat) (dirInode : Inode) (r : ScanResult)
      (hL : sys.Lstat (sys.join myPathName name) = .ok stat)
      (hd : (fs.getInode stat).2.inodes[directory.Inode]? = some dirInode)
      (hdev : stat.Dev = dirInode.Stat.Dev)
      (hmode : ¬ stat.Mode &&& S_IFMT = S_IFDIR)
      (hnew : (fs.getInode stat).1.2 = false)
      (hr : LoopRun sys scanDir myPathName names
        (directory.appendFile ⟨name, (fs.getInode stat).1.1⟩) (fs.getInode stat).2 r) :
    LoopRun sys scanDir myPathName (name :: names) directory fs
      { r with trace :=
        ScanEvent.entry (sys.join myPathName name) stat (fs.getInode stat).1.1 false :: r.trace }
  /-- A new file whose `File.scan` ends with nil: it is appended. -/
  | fileOk (name : String) (names : List String) (directory : Directory)
      (fs : FileSystem) (stat : Stat) (dirInode : Inode) (fs2 : FileSystem) (r : ScanResult)
      (hL : sys.Lstat (sys.join myPathName name) = .ok stat)
      (hd : (fs.getInode stat).2.inodes[directory.Inode]? = some dirInode)
      (hdev : stat.Dev = dirInode.Stat.Dev)
      (hmode : ¬ stat.Mode &&& S_IFMT = S_IFDIR)
      (hnew : (fs.getInode stat).1.2 = true)
      (hf : File.scan sys ⟨name, (fs.getInode stat).1.1⟩ (fs.getInode stat).2 myPathName =
        (.ok, fs2))
      (hr : LoopRun sys scanDir myPathName names
        (directory.appendFile ⟨name, (fs.getInode stat).1.1⟩) fs2 r) :
    LoopRun sys scanDir myPathName (name :: names) directory fs
      { r with trace :=
        ScanEvent.entry (sys.join myPathName name) stat (fs.getInode stat).1.1 true ::
          ScanEvent.fileScan (sys.join myPathName name) (fs.getInode stat).1.1 :: r.trace }
  /-- A new file whose `File.scan` returns the error number `ENOENT`: it is
  skipped. -/
  | fileSkip (name : String) (names : List String) (directory : Directory)
      (fs : FileSystem) (stat : Stat) (dirInode : Inode) (fs2 : FileSystem) (r : ScanResult)
      (hL : sys.Lstat (sys.join myPathName name) = .ok stat)
      (hd : (fs.getInode stat).2.inodes[directory.Inode]? = some dirInode)
      (hdev : stat.Dev = dirInode.Stat.Dev)
      (hmode : ¬ stat.Mode &&& S_IFMT = S_IFDIR)
      (hnew : (fs.getInode stat).1.2 = true)
      (hf : File.scan sys ⟨name, (fs.getInode stat).1.1⟩ (fs.getInode stat).2 myPathName =
        (.error (.errno ENOENT), fs2))
      (hr : LoopRun sys scanDir myPathName names directory fs2 r) :
    LoopRun sys scanDir myPathName (name :: names) directory fs
      { r with trace :=
        ScanEvent.entry (sys.join myPathName name) stat (fs.getInode stat).1.1 true ::
          ScanEvent.fileScan (sys.join myPathName name) (fs.getInode stat).1.1 :: r.trace }
  /-- A new file whose `File.scan` ends otherwise. -/
  | fileFail (name : String) (names : List String) (directory : Directory)
      (fs : FileSystem) (stat : Stat) (dirInode : Inode) (fs2 : FileSystem) (out : Outcome)
      (hL : sys.Lstat (sys.join myPathName name) = .ok stat)
      (hd : (fs.getInode stat).2.inodes[directory.Inode]? = some dirInode)
      (hdev : stat.Dev = dirInode.Stat.Dev)
      (hmode : ¬ stat.Mode &&& S_IFMT = S_IFDIR)
      (hnew : (fs.getInode stat).1.2 = true)
      (hf : File.scan sys ⟨name, (fs.getInode stat).1.1⟩ (fs.getInode stat).2 myPathName =
        (out, fs2))
      (hok : out ≠ .ok) (hne : out ≠ .error (.errno ENOENT)) :
    LoopRun sys scanDir myPathName (name :: names) directory fs
      ⟨out, directory, fs2,
        [ScanEvent.entry (sys.join myPathName name) stat (fs.getInode stat).1.1 true,
          ScanEvent.fileScan (sys.join myPathName name) (fs.getInode stat).1.1]⟩

/-- The directory `d'` with path `p'` is a directory of the tree `d`, whose path
is `p`: the tree itself, or a directory of one of the trees in its
`DirectoryList`. -/
inductive Directory.At (sys : Sys) : String → Directory → String → Directory → Prop where
  | root (p : String) (d : Directory) : Directory.At sys p d p d
  | child (p : String) (d c : Directory) (p' : String) (d' : Directory)
      (hc : c ∈ d.DirectoryList) (h : Directory.At sys (sys.join p c.Name) c p' d') :
    Directory.At sys p d p' d'

/-- Every directory of the tree `d`, whose path is `p`, has the property `P`. -/
def Directory.All (sys : Sys) (P : String → Directory → Prop) (p : String)
    (d : Directory) : Prop :=
  ∀ p' d', Directory.At sys p d p' d' → P p' d'

/-- The tree `d`, whose path is `p`, lists in one of its `FileList`s the file of
path `f` with the pointer `a`. -/
def FileAt (sys : Sys) (p : String) (d : Directory) (f : String) (a : Nat) : Prop :=
  ∃ p' d' name, Directory.At sys p d p' d' ∧ f = sys.join p' name ∧
    (⟨name, a⟩ : File) ∈ d'.FileList

/-- The names in the two lists of the directory `d` of path `p` are taken, in
order, from the sorted listing of `p`. -/
def SortedDir (sys : Sys) (p : String) (d : Directory) : Prop :=
  ∃ names, sys.Readdirnames p = .ok names ∧
    (d.DirectoryList.map Directory.Name).Sublist (sortStrings names) ∧
    (d.FileList.map File.Name).Sublist (sortStrings names)

/-- The directory `d` of path `p` is on device `D`, and so is, by its `Lstat`,
every entry in its two lists. -/
def OnDevice (sys : Sys) (D : Nat) (fs : FileSystem) (p : String) (d : Directory) : Prop :=
  (∃ r : Inode, fs.inodes[d.Inode]? = some r ∧ r.Stat.Dev = D) ∧
    (∀ c ∈ d.DirectoryList, ∃ stat, sys.Lstat (sys.join p c.Name) = .ok stat ∧ stat.Dev = D) ∧
    (∀ f ∈ d.FileList, ∃ stat, sys.Lstat (sys.join p f.Name) = .ok stat ∧ stat.Dev = D)

/-- The step is a call of `getInode` for a directory entry. -/
def ScanEvent.isEntry : ScanEvent → Prop
  | .entry _ _ _ _ => True
  | _ => False

/-- What may follow what in the scan of a directory on device `D`: a call of
`Directory.scan` or of `File.scan` comes right after the `getInode` of a new entry
of that path on device `D`, a directory in the first case and not a directory in
the second. -/
def Follows (D : Nat) (e1 e2 : ScanEvent) : Prop :=
  match e2 with
  | .dirScan p => ∃ s a, e1 = ScanEvent.entry p s a true ∧ s.Dev = D ∧
      s.Mode &&& S_IFMT = S_IFDIR
  | .fileScan p a => ∃ s, e1 = ScanEvent.entry p s a true ∧ s.Dev = D ∧
      ¬ s.Mode &&& S_IFMT = S_IFDIR
  | .entry _ _ _ _ => True

/-- In the steps `t`, the `getInode` of an entry on device `D` that is not a
directory and was given a new record is followed at once by the call of
`File.scan` for it. -/
def ScansNew (D : Nat) (t : List ScanEvent) : Prop :=
  ∀ (i : Nat) (f : String) (s : Stat) (a : Nat), t[i]? = some (ScanEvent.entry f s a true) →
    s.Dev = D → ¬ s.Mode &&& S_IFMT = S_IFDIR → t[i + 1]? = some (ScanEvent.fileScan f a)

/-- What holds of every call of `Directory.scan` on the directory `d` with the
parent path `parentName`, started in `fs`, `res` being its result. -/
structure DirFacts (sys : Sys) (parentName : String) (d : Directory) (fs : FileSystem)
    (res : ScanResult) : Prop where
  name : res.directory.Name = d.Name
  inode : res.directory.Inode = d.Inode
  dirs : d.DirectoryList <+: res.directory.DirectoryList
  files : d.FileList <+: res.directory.FileList
  frozen : ∀ (a : Nat) (r : Inode), fs.inodes[a]? = some r → res.fileSystem.inodes[a]? = some r
  started : res.outcome = .ok → ∃ rest, res.trace = .dirScan (sys.join parentName d.Name) :: rest
  sorted : d.DirectoryList = [] → d.FileList = [] → res.outcome = .ok →
    Directory.All sys (SortedDir sys) (sys.join parentName d.Name) res.directory
  device : ∀ r0 : Inode, fs.inodes[d.Inode]? = some r0 → d.DirectoryList = [] →
    d.FileList = [] →
    Directory.All sys (OnDevice sys r0.Stat.Dev res.fileSystem) (sys.join parentName d.Name)
      res.directory
  chain : ∀ r0 : Inode, fs.inodes[d.Inode]? = some r0 →
    List.Chain' (Follows r0.Stat.Dev) res.trace.tail ∧
      (∀ e ∈ res.trace.tail.head?, ScanEvent.isEntry e) ∧
      (∀ e ∈ res.trace.head?, e = ScanEvent.dirScan (sys.join parentName d.Name))
  listed : ∀ r0 : Inode, fs.inodes[d.Inode]? = some r0 → res.outcome = .ok →
    ∀ f s a n, ScanEvent.entry f s a n ∈ res.trace → s.Dev = r0.Stat.Dev →
      ¬ s.Mode &&& S_IFMT = S_IFDIR → FileAt sys (sys.join parentName d.Name) res.directory f a
  symlink : ∀ r0 : Inode, fs.inodes[d.Inode]? = some r0 →
    ∀ f s a target, ScanEvent.entry f s a true ∈ res.trace → s.Dev = r0.Stat.Dev →
      s.Mode &&& S_IFMT = S_IFLNK → sys.Readlink f = .ok target →
      res.fileSystem.inodes[a]? = some ⟨s, none, target⟩
  scanned : ∀ r0 : Inode, fs.inodes[d.Inode]? = some r0 → ScansNew r0.Stat.Dev res.trace

/-! ### cmd/ami-publisher/main.go and cmd/vm-control/main.go -/

/-- The record `subcommand` of both tools; `cmdFunc` holds the name of the
function. -/
structure subcommand where
  command : String
  minArgs : Int
  maxArgs : Int
  cmdFunc : String
deriving DecidableEq, Repr

/-- What a run of `main` leaves: the lines written to standard error, the lines
handed to the logger, the calls of subcommand functions made, each with its
arguments, and the exit code of the process. -/
structure MainRun where
  stderr : List String
  log : List String
  calls : List (String × List String)
  exitCode : Nat
deriving DecidableEq, Repr

/-- The loop over `subcommands` in `main` and what follows it (ami-publisher lines
140 to 154, vm-control lines 138 to 152).  `usage` holds the lines `printUsage`
writes; `args` is `flag.Args()`; `run f a` tells how the call of the function `f`
with the arguments `a` ends: `some code` when the function ends the process with
that exit code, `none` when it returns. -/
def dispatch (usage : List String) (run : String → List String → Option Nat)
    (args : List String) : List subcommand → MainRun
  | [] => ⟨usage, [], [], 2⟩
  | sc :: rest =>
    let numSubcommandArgs : Int := (args.length : Int) - 1
    if args.getD 0 "" = sc.command then
      if numSubcommandArgs < sc.minArgs ∨ (sc.maxArgs ≥ 0 ∧ numSubcommandArgs > sc.maxArgs) then
        ⟨usage, [], [], 2⟩
      else
        match run sc.cmdFunc (args.drop 1) with
        | some code => ⟨[], [], [(sc.cmdFunc, args.drop 1)], code⟩
        | none => ⟨[], [], [(sc.cmdFunc, args.drop 1)], 3⟩
    else dispatch usage run args rest

/-- The lines that `printUsage` of ami-publisher writes after "Commands:"
(main.go lines 77 to 94). -/
def amiPublisher.commandLines : List String :=
  ["  add-volumes sizeInGiB",
    "  copy-bootstrap-image stream-name",
    "  delete results-file...",
    "  delete-tags tag-key results-file...",
    "  delete-tag-on-unpackers tag-key",
    "  expire",
    "  import-key-pair name pub-key-file",
    "  launch-instances boot-image",
    "  launch-instances-for-images results-file...",
    "  list-unpackers",
    "  prepare-unpackers [stream-name]",
    "  publish stream-name image-leaf-name",
    "  remove-unused-volumes",
    "  set-exclusive-tags key value results-file...",
    "  set-tags-on-unpackers",
    "  start-instances",
    "  stop-idle-unpackers",
    "  terminate-instances"]

/-- The function `printUsage` of ami-publisher (main.go lines 71 to 95): the lines
written to standard error, `flagDefaults` being what `flag.PrintDefaults()`
writes. -/
def amiPublisher.printUsage (flagDefaults : List String) : List String :=
  ["Usage: ami-publisher [flags...] publish [args...]", "Common flags:"] ++ flagDefaults ++
    ["Commands:"] ++ amiPublisher.commandLines

/-- The table `subcommands` of ami-publisher (main.go lines 106 to 125). -/
def amiPublisher.subcommands : List subcommand :=
  [⟨"add-volumes", 1, 1, "addVolumesSubcommand"⟩,
    ⟨"copy-bootstrap-image", 1, 1, "copyBootstrapImageSubcommand"⟩,
    ⟨"delete", 1, -1, "deleteSubcommand"⟩,
    ⟨"delete-tags", 2, -1, "deleteTagsSubcommand"⟩,
    ⟨"delete-tags-on-unpackers", 1, 1, "deleteTagsOnUnpackersSubcommand"⟩,
    ⟨"expire", 0, 0, "expireSubcommand"⟩,
    ⟨"import-key-pair", 2, 2, "importKeyPairSubcommand"⟩,
    ⟨"launch-instances", 1, 1, "launchInstancesSubcommand"⟩,
    ⟨"launch-instances-for-images", 0, -1, "launchInstancesForImagesSubcommand"⟩,
    ⟨"list-unpackers", 0, 0, "listUnpackersSubcommand"⟩,
    ⟨"prepare-unpackers", 0, 1, "prepareUnpackersSubcommand"⟩,
    ⟨"publish", 2, 2, "publishSubcommand"⟩,
    ⟨"remove-unused-volumes", 0, 0, "removeUnusedVolumesSubcommand"⟩,
    ⟨"set-exclusive-tags", 2, -1, "setExclusiveTagsSubcommand"⟩,
    ⟨"set-tags-on-unpackers", 0, 0, "setTagsSubcommand"⟩,
    ⟨"start-instances", 0, 0, "startInstancesSubcommand"⟩,
    ⟨"stop-idle-unpackers", 0, 0, "stopIdleUnpackersSubcommand"⟩,
    ⟨"terminate-instances", 0, 0, "terminateInstancesSubcommand"⟩]

/-- The function `main` of ami-publisher (main.go lines 127 to 155) once
`flag.Parse()` has succeeded: `args` is `flag.Args()` and `SetupTls` the error of
`setupclient.SetupTls(true)`. -/
def amiPublisher.main (flagDefaults : List String) (SetupTls : Option String)
    (run : String → List String → Option Nat) (args : List String) : MainRun :=
  if args.length < 1 then ⟨amiPublisher.printUsage flagDefaults, [], [], 2⟩
  else
    match SetupTls with
    | some err => ⟨[], [err ++ "\n"], [], 1⟩
    | none =>
      dispatch (amiPublisher.printUsage flagDefaults) run args amiPublisher.subcommands

/-- The lines that `printUsage` of vm-control writes after "Commands:" (main.go
lines 70 to 88). -/
def vmControl.commandLines : List String :=
  ["  add-address MACaddr [IPaddr]",
    "  add-subnet ID IPgateway IPmask DNSserver...",
    "  change-vm-owner-users IPaddr",
    "  change-vm-tags IPaddr",
    "  create-vm",
    "  destroy-vm IPaddr",
    "  discard-vm-old-image IPaddr",
    "  discard-vm-old-user-data IPaddr",
    "  get-updates",
    "  get-vm-info IPaddr",
    "  list-vms",
    "  remove-excess-addresses MaxFreeAddr",
    "  replace-vm-image IPaddr",
    "  replace-vm-user-data IPaddr",
    "  restore-vm-image IPaddr",
    "  restore-vm-user-data IPaddr",
    "  start-vm IPaddr",
    "  stop-vm IPaddr",
    "  trace-vm-metadata IPaddr"]

/-- The function `printUsage` of vm-control (main.go lines 64 to 89). -/
def vmControl.printUsage (flagDefaults : List String) : List String :=
  ["Usage: vm-control [flags...] command [args...]", "Common flags:"] ++ flagDefaults ++
    ["Commands:"] ++ vmControl.commandLines

/-- The table `subcommands` of vm-control (main.go lines 100 to 120). -/
def vmControl.subcommands : List subcommand :=
  [⟨"add-address", 1, 2, "addAddressSubcommand"⟩,
    ⟨"add-subnet", 4, -1, "addSubnetSubcommand"⟩,
    ⟨"change-vm-owner-users", 1, 1, "changeVmOwnerUsersSubcommand"⟩,
    ⟨"change-vm-tags", 1, 1, "changeVmTagsSubcommand"⟩,
    ⟨"create-vm", 0, 0, "createVmSubcommand"⟩,
    ⟨"destroy-vm", 1, 1, "destroyVmSubcommand"⟩,
    ⟨"discard-vm-old-image", 1, 1, "discardVmOldImageSubcommand"⟩,
    ⟨"discard-vm-old-user-data", 1, 1, "discardVmOldUserDataSubcommand"⟩,
    ⟨"get-updates", 0, 0, "getUpdatesSubcommand"⟩,
    ⟨"get-vm-info", 1, 1, "getVmInfoSubcommand"⟩,
    ⟨"remove-excess-addresses", 1, 1, "removeExcessAddressesSubcommand"⟩,
    ⟨"list-vms", 0, 0, "listVMsSubcommand"⟩,
    ⟨"replace-vm-image", 1, 1, "replaceVmImageSubcommand"⟩,
    ⟨"replace-vm-user-data", 1, 1, "replaceVmUserDataSubcommand"⟩,
    ⟨"restore-vm-image", 1, 1, "restoreVmImageSubcommand"⟩,
    ⟨"restore-vm-user-data", 1, 1, "restoreVmUserDataSubcommand"⟩,
    ⟨"start-vm", 1, 1, "startVmSubcommand"⟩,
    ⟨"stop-vm", 1, 1, "stopVmSubcommand"⟩,
    ⟨"trace-vm-metadata", 1, 1, "traceVmMetadataSubcommand"⟩]

/-- The function `main` of vm-control (main.go lines 122 to 153) once
`flag.Parse()` has succeeded: `clusterManagerHostname` and `hypervisorHostname`
are the values of these flags. -/
def vmControl.main (flagDefaults : List String)
    (clusterManagerHostname hypervisorHostname : String) (SetupTls : Option String)
    (run : String → List String → Option Nat) (args : List String) : MainRun :=
  if args.length < 1 then ⟨vmControl.printUsage flagDefaults, [], [], 2⟩
  else if clusterManagerHostname = "" ∧ hypervisorHostname = "" then
    ⟨["no-one to talk to"], [], [], 2⟩
  else
    match SetupTls with
    | some err => ⟨[err], [], [], 1⟩
    | none => dispatch (vmControl.printUsage flagDefaults) run args vmControl.subcommands

/-- The command name at the start of a line of the usage text. -/
def usageCommand (line : String) : String :=
  String.mk ((line.data.dropWhile (fun ch => ch = ' ')).takeWhile (fun ch => ch ≠ ' '))

/-- What the claim on the dispatch of subcommands says of a run function `m` of
the arguments, for a table and its usage text: exit code 2 when no subcommand is
given, when the first argument is no command of the table, or when the number of
the remaining arguments is below `minArgs` or above a non-negative `maxArgs` of
the matching entry, no function being called in these cases; otherwise the
function of the matching entry is called once with the remaining arguments, and
the exit code is 3 when that function returns. -/
structure Dispatches (table : List subcommand)
    (run : String → List String → Option Nat) (m : List String → MainRun) : Prop where
  missing : (m []).exitCode = 2 ∧ (m []).calls = []
  unknown : ∀ a rest, (∀ sc ∈ table, sc.command ≠ a) →
    (m (a :: rest)).exitCode = 2 ∧ (m (a :: rest)).calls = []
  count : ∀ a rest sc, table.find? (fun sc => sc.command = a) = some sc →
    ((rest.length : Int) < sc.minArgs ∨ (0 ≤ sc.maxArgs ∧ sc.maxArgs < (rest.length : Int))) →
    (m (a :: rest)).exitCode = 2 ∧ (m (a :: rest)).calls = []
  called : ∀ a rest sc, table.find? (fun sc => sc.command = a) = some sc →
    sc.minArgs ≤ (rest.length : Int) → (sc.maxArgs < 0 ∨ (rest.length : Int) ≤ sc.maxArgs) →
    (m (a :: rest)).calls = [(sc.cmdFunc, rest)] ∧
      (m (a :: rest)).exitCode = (run sc.cmdFunc rest).getD 3 ∧
      (run sc.cmdFunc rest = none → (m (a :: rest)).exitCode = 3)

/-! ### dom/herd/showImagesForSubs.go -/

/-- The fields of `Sub` that `getInfoForSubs` and `makeInfo` read.
showImagesForSubs.go belongs to a later state of package `herd` than mdb.go above:
the record holds the machine in its field `mdb` and two statuses, the current one
and the published one; times and durations are numbers. -/
structure StatusSub where
  mdb : Machine
  status : Nat
  publishedStatus : Nat
  lastDisruptionState : Nat
  lastNote : String
  lastScanDuration : Nat
  lastSuccessfulImageName : String
  lastSyncTime : Nat
  lastUpdateTime : Nat
  startTime : Nat
  systemUptime : Option Nat
deriving DecidableEq, Repr

/-- The record `proto.SubInfo` as `makeInfo` fills it. -/
structure SubInfo where
  Hostname : String
  LastDisruptionState : Nat
  LastNote : String
  LastScanDuration : Nat
  LastSuccessfulImage : String
  LastSyncTime : Nat
  LastUpdateTime : Nat
  PlannedImage : String
  RequiredImage : String
  StartTime : Nat
  Status : String
  SystemUptime : Option Nat
deriving DecidableEq, Repr

/-- The fields of `proto.GetInfoForSubsRequest` that `getInfoForSubs` reads. -/
structure GetInfoForSubsRequest where
  Hostnames : List String
  StatusesToMatch : List String
deriving DecidableEq, Repr

/-- The fields of `Herd` that `getInfoForSubs` reads, each pointer being replaced
by the record it leads to. -/
structure StatusHerd where
  subsByIndex : List StatusSub
  subsByName : GoMap StatusSub
deriving DecidableEq, Repr

/-- The method `Sub.makeInfo` (showImagesForSubs.go lines 149 to 164),
`statusString` being the method `String` of the status type. -/
def StatusSub.makeInfo (statusString : Nat → String) (sub : StatusSub) : SubInfo where
  Hostname := sub.mdb.Hostname
  LastDisruptionState := sub.lastDisruptionState
  LastNote := sub.lastNote
  LastScanDuration := sub.lastScanDuration
  LastSuccessfulImage := sub.lastSuccessfulImageName
  LastSyncTime := sub.lastSyncTime
  LastUpdateTime := sub.lastUpdateTime
  PlannedImage := sub.mdb.PlannedImage
  RequiredImage := sub.mdb.RequiredImage
  StartTime := sub.startTime
  Status := statusString sub.publishedStatus
  SystemUptime := sub.systemUptime

/-- The first loop of `getInfoForSubs` (lines 28 to 35), `statusesToMatch` holding
the keys of the map of that name. -/
def infoForAllSubs (statusString : Nat → String) (statusesToMatch : List String) :
    List StatusSub → List SubInfo
  | [] => []
  | sub :: rest =>
    if statusesToMatch.length > 0 ∧ statusString sub.status ∉ statusesToMatch then
      infoForAllSubs statusString statusesToMatch rest
    else sub.makeInfo statusString :: infoForAllSubs statusString statusesToMatch rest

/-- The second loop of `getInfoForSubs` (lines 41 to 50). -/
def infoForHostnames (statusString : Nat → String) (statusesToMatch : List String)
    (subsByName : GoMap StatusSub) : List String → List SubInfo
  | [] => []
  | hostname :: rest =>
    match subsByName.get hostname with
    | some sub =>
      if statusesToMatch.length > 0 ∧ statusString sub.status ∉ statusesToMatch then
        infoForHostnames statusString statusesToMatch subsByName rest
      else
        sub.makeInfo statusString ::
          infoForHostnames statusString statusesToMatch subsByName rest
    | none => infoForHostnames statusString statusesToMatch subsByName rest

/-- The method `Herd.getInfoForSubs` (showImagesForSubs.go lines 20 to 52).
`ConvertListToMap` gives the keys of the map that `stringutil.ConvertListToMap`
returns for a list (its second argument being false). -/
def getInfoForSubs (statusString : Nat → String)
    (ConvertListToMap : List String → List String) (herd : StatusHerd)
    (request : GetInfoForSubsRequest) : List SubInfo × Option String :=
  let statusesToMatch := ConvertListToMap request.StatusesToMatch
  if request.Hostnames.length < 1 then
    (infoForAllSubs statusString statusesToMatch herd.subsByIndex, none)
  else
    (infoForHostnames statusString statusesToMatch herd.subsByName request.Hostnames, none)

/-- Status texts for examples. -/
def exampleStatusString (status : Nat) : String :=
  if status = 5 then "polling" else if status = 6 then "compliant" else "unknown"

/-- A sub for examples that is being polled, its published status being still
that of the poll before. -/
def polledSub : StatusSub where
  mdb := ⟨"a", "img1", ""⟩
  status := 5
  publishedStatus := 6
  lastDisruptionState := 0
  lastNote := ""
  lastScanDuration := 0
  lastSuccessfulImageName := "img1"
  lastSyncTime := 0
  lastUpdateTime := 0
  startTime := 0
  systemUptime := none

/-- The number of running `doFetch` is one when `fetchInProgress` is set and zero
when it is not. -/
def fetchInvariant (s : SubState) : Prop :=
  s.running.length = if s.fetchInProgress then 1 else 0

/-! ## Part 2: theorems -/

/-! ### Fetch: rejection and mutual exclusion -/

/-- C1. With read-only mode off, a `Fetch` made while a fetch or an update is in
progress is rejected without side effects: it returns "fetch already in progress"
when `fetchInProgress` is set and "update in progress" when only
`updateInProgress` is set, it leaves both flags as they were and it starts no
`doFetch`. -/
theorem Fetch_rejected_in_progress (request : FetchRequest) (s : SubState)
    (hro : s.readOnly = false)
    (hbusy : s.fetchInProgress = true ∨ s.updateInProgress = true) :
    (Fetch request s).1 =
        some (if s.fetchInProgress then "fetch already in progress"
              else "update in progress") ∧
      (Fetch request s).2.fetchInProgress = s.fetchInProgress ∧
      (Fetch request s).2.updateInProgress = s.updateInProgress ∧
      (Fetch request s).2.readOnly = s.readOnly ∧
      (Fetch request s).2.running = s.running := by
  rcases hbusy with hf | hu
  · simp [Fetch, hro, hf]
  · by_cases hf : s.fetchInProgress = true
    · simp [Fetch, hro, hf]
    · simp [Fetch, hro, hf, hu]

/-- Witness for C1: a state with an update in progress and no fetch. -/
theorem Fetch_rejected_in_progress_witness :
    (Fetch ⟨"server:6971", [[1, 2]]⟩ ⟨false, false, true, 0, [], []⟩).1 =
        some "update in progress" ∧
      (Fetch ⟨"server:6971", [[1, 2]]⟩ ⟨false, false, true, 0, [], []⟩).2.running = [] := by
  have h := Fetch_rejected_in_progress ⟨"server:6971", [[1, 2]]⟩
    ⟨false, false, true, 0, [], []⟩ rfl (Or.inr rfl)
  exact ⟨h.1, h.2.2.2.2⟩

/-- C2. With the read-only flag set, `Fetch` returns an error for every request
and every state, before any work: the flags are unchanged, the lock is not
taken and no `doFetch` is started. -/
theorem Fetch_read_only (request : FetchRequest) (s : SubState)
    (hro : s.readOnly = true) :
    (Fetch request s).1 = some "Fetch() rejected due to read-only mode" ∧
      (Fetch request s).2.fetchInProgress = s.fetchInProgress ∧
      (Fetch request s).2.updateInProgress = s.updateInProgress ∧
      (Fetch request s).2.lockCount = s.lockCount ∧
      (Fetch request s).2.running = s.running := by
  simp [Fetch, hro]

/-- Witness for C2: an idle sub in read-only mode. -/
theorem Fetch_read_only_witness :
    (Fetch ⟨"server:6971", [[7]]⟩ ⟨true, false, false, 0, [], []⟩).1 =
        some "Fetch() rejected due to read-only mode" ∧
      (Fetch ⟨"server:6971", [[7]]⟩ ⟨true, false, false, 0, [], []⟩).2.lockCount = 0 := by
  have h := Fetch_read_only ⟨"server:6971", [[7]]⟩ ⟨true, false, false, 0, [], []⟩ rfl
  exact ⟨h.1, h.2.2.2.1⟩

theorem fetchInvariant_step (s s' : SubState) (e : FetchStep)
    (h : fetchInvariant s) (he : e.apply s = some s') : fetchInvariant s' := by
  unfold fetchInvariant at *
  cases e with
  | call request =>
    simp only [FetchStep.apply, Option.some.injEq] at he
    subst he
    by_cases hro : s.readOnly = true
    · simpa [Fetch, hro] using h
    · by_cases hf : s.fetchInProgress = true
      · simpa [Fetch, hro, hf] using h
      · by_cases hu : s.updateInProgress = true
        · simpa [Fetch, hro, hf, hu] using h
        · simp [hf] at h
          simp [Fetch, hro, hf, hu, h]
  | finish i =>
    simp only [FetchStep.apply] at he
    split at he
    · next hi =>
      simp only [Option.some.injEq] at he
      subst he
      have hlen : s.running.length = 1 := by
        by_cases hf : s.fetchInProgress = true
        · simpa [hf] using h
        · simp [hf] at h
          simp [h] at hi
      have hi0 : i = 0 := by omega
      simp [clearFetchInProgress, List.length_eraseIdx, hi0, hlen]
    · simp at he
  | setUpdate b =>
    simp only [FetchStep.apply, Option.some.injEq] at he
    subst he
    simpa using h

/-- C3. At most one fetch at a time: in every state reachable from an idle one by
calls of `Fetch`, completions of `doFetch` and writes of `updateInProgress`, at
most one `doFetch` is running, and exactly one is running precisely when
`fetchInProgress` is set. -/
theorem at_most_one_fetch (s : SubState) (h : Reachable s) :
    s.running.length ≤ 1 ∧ (s.running.length = 1 ↔ s.fetchInProgress = true) := by
  have inv : fetchInvariant s := by
    induction h with
    | start s h => simp [fetchInvariant, h.1, h.2]
    | step s s' e _ he ih => exact fetchInvariant_step s s' e ih he
  unfold fetchInvariant at inv
  by_cases hf : s.fetchInProgress = true
  · simp [hf] at inv
    simp [hf, inv]
  · simp [hf] at inv
    simp [hf, inv]

/-- Witness for C3: the state after one accepted `Fetch`, in which one `doFetch`
runs. -/
theorem at_most_one_fetch_witness :
    Reachable (Fetch ⟨"server:6971", [[7]]⟩ ⟨false, false, false, 0, [], []⟩).2 ∧
      (Fetch ⟨"server:6971", [[7]]⟩ ⟨false, false, false, 0, [], []⟩).2.running.length = 1 ∧
      (Fetch ⟨"server:6971", [[7]]⟩ ⟨false, false, false, 0, [], []⟩).2.fetchInProgress
        = true :=
  have hr : Reachable (Fetch ⟨"server:6971", [[7]]⟩ ⟨false, false, false, 0, [], []⟩).2 :=
    Reachable.step ⟨false, false, false, 0, [], []⟩ _ (.call ⟨"server:6971", [[7]]⟩)
      (Reachable.start _ ⟨rfl, rfl⟩) rfl
  ⟨hr, by decide, (at_most_one_fetch _ hr).2.1 (by decide)⟩

/-! ### readOne: the declared length and the file left behind -/

theorem toInt64_eq_iff (n L : Nat) (hn : n < 2 ^ 63) (hL : L < 2 ^ 64) :
    toInt64 n = toInt64 L ↔ n = L := by
  unfold toInt64
  have h1 : n % 2 ^ 64 = n := Nat.mod_eq_of_lt (by omega)
  have h2 : L % 2 ^ 64 = L := Nat.mod_eq_of_lt hL
  rw [h1, h2]
  simp only [hn, if_true]
  split <;> constructor <;> intro h <;> omega

theorem Disk.file?_Create_append (d : Disk) (filename : String) (data : List Nat) :
    ((d.Create filename).append filename data).file? filename = some data := by
  simp [Disk.file?, Disk.Create, Disk.append]

/-- C4. `readOne` enforces the declared length: when the reader ends without
error after `n` bytes, `readOne` returns an error if `n` differs from the
declared length, and returns nil if `n` equals it and the directory creation,
the file creation and the copy succeed.  (`L` is a `uint64` and `n` a byte
count that `io.Copy` reports as an `int64`.) -/
theorem readOne_enforces_length (env : FetchEnv) (hash : Hash) (L : Nat)
    (t : Transfer) (d : Disk)
    (hL : L < 2 ^ 64) (hn : t.body.length < 2 ^ 63) (hread : t.readErr = none) :
    (t.body.length ≠ L → ∃ e, (readOne env hash L t d).1 = some e) ∧
      (t.body.length = L → t.mkdirAllErr = none → t.createErr = none →
        t.writeErr = none → (readOne env hash L t d).1 = none) := by
  have hiff := toInt64_eq_iff t.body.length L hn hL
  constructor
  · intro hne
    have hne' : ¬ toInt64 t.body.length = toInt64 L := fun h => hne (hiff.1 h)
    unfold readOne
    cases hm : t.mkdirAllErr with
    | some e => exact ⟨e, rfl⟩
    | none =>
      cases hc : t.createErr with
      | some e => exact ⟨e, rfl⟩
      | none =>
        cases hw : t.writeErr with
        | some e => exact ⟨"error copying: " ++ e, by simp [ioCopy, hw]⟩
        | none => simp [ioCopy, hw, hread, hne']
  · intro heq hm hc hw
    have h' : toInt64 t.body.length = toInt64 L := hiff.2 heq
    simp [readOne, hm, hc, ioCopy, hw, hread, h']

/-- Witness for C4: a body of four bytes against a declared length of five (an
error) and of four (nil). -/
theorem readOne_enforces_length_witness :
    (∃ e, (readOne exampleEnv [171, 205] 5
        ⟨none, none, [1, 2, 3, 4], none, none, 4⟩ ⟨[], []⟩).1 = some e) ∧
      (readOne exampleEnv [171, 205] 4
        ⟨none, none, [1, 2, 3, 4], none, none, 4⟩ ⟨[], []⟩).1 = none :=
  ⟨(readOne_enforces_length exampleEnv [171, 205] 5
      ⟨none, none, [1, 2, 3, 4], none, none, 4⟩ ⟨[], []⟩
      (by decide) (by decide) rfl).1 (by decide),
   (readOne_enforces_length exampleEnv [171, 205] 4
      ⟨none, none, [1, 2, 3, 4], none, none, 4⟩ ⟨[], []⟩
      (by decide) (by decide) rfl).2 rfl rfl rfl rfl⟩

/-- C5, as stated, fails: the server declares five bytes and supplies four, every
system call succeeds; `readOne` returns its length error and the file is
there, holding the four bytes. -/
theorem readOne_no_file_left_counterexample :
    (readOne exampleEnv [171, 205] 5
        ⟨none, none, [1, 2, 3, 4], none, none, 4⟩ ⟨[], []⟩).1 =
        some "expected length: 5, got: 4 for: abcd\n" ∧
      (readOne exampleEnv [171, 205] 5
        ⟨none, none, [1, 2, 3, 4], none, none, 4⟩ ⟨[], []⟩).2.file?
          (objectFilename exampleEnv [171, 205]) = some [1, 2, 3, 4] := by
  decide

/-- C5, amended. A failed object fetch leaves the object file in place: when the
directory and the file were created and the body has another length than the
declared one or the copy fails, `readOne` returns an error and a file exists
at the path of the hash, holding the bytes of the body that reached it. -/
theorem readOne_failure_leaves_file (env : FetchEnv) (hash : Hash) (L : Nat)
    (t : Transfer) (d : Disk)
    (hL : L < 2 ^ 64) (hn : t.body.length < 2 ^ 63)
    (hm : t.mkdirAllErr = none) (hc : t.createErr = none)
    (hfail : t.body.length ≠ L ∨ t.readErr ≠ none ∨ t.writeErr ≠ none) :
    (∃ e, (readOne env hash L t d).1 = some e) ∧
      (readOne env hash L t d).2.file? (objectFilename env hash) =
        some (t.body.take t.stored) := by
  have hfile : ∀ r : Option String,
      (r, ((d.MkdirAll (env.pathDir (objectFilename env hash))).Create
        (objectFilename env hash)).append (objectFilename env hash)
          (t.body.take t.stored)).2.file? (objectFilename env hash) =
        some (t.body.take t.stored) := fun _ => Disk.file?_Create_append _ _ _
  cases hw : t.writeErr with
  | some e =>
    refine ⟨⟨"error copying: " ++ e, by simp [readOne, hm, hc, ioCopy, hw]⟩, ?_⟩
    simpa [readOne, hm, hc, ioCopy, hw] using hfile none
  | none =>
    cases hr : t.readErr with
    | some e =>
      refine ⟨⟨"error copying: " ++ e, by simp [readOne, hm, hc, ioCopy, hw, hr]⟩, ?_⟩
      simpa [readOne, hm, hc, ioCopy, hw, hr] using hfile none
    | none =>
      have hne : t.body.length ≠ L := by
        rcases hfail with h | h | h
        · exact h
        · exact absurd hr h
        · exact absurd hw h
      have hne' : ¬ toInt64 t.body.length = toInt64 L :=
        fun h => hne ((toInt64_eq_iff _ _ hn hL).1 h)
      refine ⟨by simp [readOne, hm, hc, ioCopy, hw, hr, hne'], ?_⟩
      simpa [readOne, hm, hc, ioCopy, hw, hr, hne'] using hfile none

/-- Witness for the amended C5: five bytes declared, four supplied. -/
theorem readOne_failure_leaves_file_witness :
    (readOne exampleEnv [171, 205] 5
      ⟨none, none, [1, 2, 3, 4], none, none, 4⟩ ⟨[], []⟩).2.file?
        (objectFilename exampleEnv [171, 205]) = some [1, 2, 3, 4] :=
  (readOne_failure_leaves_file exampleEnv [171, 205] 5
    ⟨none, none, [1, 2, 3, 4], none, none, 4⟩ ⟨[], []⟩
    (by decide) (by decide) rfl rfl (Or.inl (by decide))).2

/-! ### addObjects: responses in request order -/

theorem cutAfterFailure_isPrefix (rs : List AddObjectResponse) :
    cutAfterFailure rs <+: rs := by
  induction rs with
  | nil => simp [cutAfterFailure]
  | cons r rs ih =>
    unfold cutAfterFailure
    split
    · exact ⟨rs, rfl⟩
    · exact (List.prefix_cons_inj r).2 ih

theorem adderResults_beforeTerminator_isPrefix {σ : Type} (E : Option String → String)
    (adder : ObjectAdder σ) (s : σ) (reqs : List AddObjectRequest) :
    adderResults E adder s (beforeTerminator reqs) <+: adderResults E adder s reqs := by
  induction reqs generalizing s with
  | nil => simp [beforeTerminator, adderResults]
  | cons r rs ih =>
    by_cases h : 1 ≤ r.Length
    · have := ih (adder.AddObject s r.Length r.ExpectedHash).2
      simp only [beforeTerminator] at this
      simpa [beforeTerminator, List.takeWhile_cons, h, adderResults,
        List.prefix_cons_inj] using this
    · simp [beforeTerminator, List.takeWhile_cons, h, adderResults]

theorem addObjectsLoop_stop {σ : Type} (E : Option String → String)
    (adder : ObjectAdder σ) (enc : Nat → Option String) (stop : List DecodeResult)
    (hstop : endsStream stop) (s : σ) (numAdded numObj : Nat) :
    (addObjectsLoop E adder enc stop s numAdded numObj).written = [] ∧
      (addObjectsLoop E adder enc stop s numAdded numObj).decodeCalls = 1 ∧
      (addObjectsLoop E adder enc stop s numAdded numObj).ret = none := by
  match stop, hstop with
  | [], _ => simp [addObjectsLoop]
  | .EOF :: _, _ => simp [addObjectsLoop]
  | .ErrUnexpectedEOF :: _, _ => simp [addObjectsLoop]

theorem addObjectsLoop_request_ok {σ : Type} (E : Option String → String)
    (adder : ObjectAdder σ) (enc : Nat → Option String) (r : AddObjectRequest)
    (rest : List DecodeResult) (s : σ) (numAdded numObj : Nat)
    (h1 : 1 ≤ r.Length) (henc : enc numObj = none)
    (herr : E (adder.AddObject s r.Length r.ExpectedHash).1.2.2 = "") :
    addObjectsLoop E adder enc (DecodeResult.request r :: rest) s numAdded numObj =
      { addObjectsLoop E adder enc rest (adder.AddObject s r.Length r.ExpectedHash).2
          (if (adder.AddObject s r.Length r.ExpectedHash).1.2.1 = true then numAdded + 1
            else numAdded) (numObj + 1) with
        written := ⟨(adder.AddObject s r.Length r.ExpectedHash).1.1,
            (adder.AddObject s r.Length r.ExpectedHash).1.2.1, ""⟩ ::
          (addObjectsLoop E adder enc rest (adder.AddObject s r.Length r.ExpectedHash).2
            (if (adder.AddObject s r.Length r.ExpectedHash).1.2.1 = true then numAdded + 1
              else numAdded) (numObj + 1)).written
        decodeCalls :=
          (addObjectsLoop E adder enc rest (adder.AddObject s r.Length r.ExpectedHash).2
            (if (adder.AddObject s r.Length r.ExpectedHash).1.2.1 = true then numAdded + 1
              else numAdded) (numObj + 1)).decodeCalls + 1 } := by
  have hlen : ¬ r.Length < 1 := by omega
  simp [addObjectsLoop, hlen, henc, herr]

theorem addObjectsLoop_requests {σ : Type} (E : Option String → String)
    (adder : ObjectAdder σ) (reqs : List AddObjectRequest) (stop : List DecodeResult)
    (hstop : endsStream stop) (s : σ) (numAdded numObj : Nat) :
    (addObjectsLoop E adder encodeOk (reqs.map DecodeResult.request ++ stop) s
        numAdded numObj).written =
        cutAfterFailure (adderResults E adder s (beforeTerminator reqs)) ∧
      (addObjectsLoop E adder encodeOk (reqs.map DecodeResult.request ++ stop) s
        numAdded numObj).decodeCalls ≤ (beforeTerminator reqs).length + 1 ∧
      (addObjectsLoop E adder encodeOk (reqs.map DecodeResult.request ++ stop) s
        numAdded numObj).ret = none := by
  induction reqs generalizing s numAdded numObj with
  | nil =>
    have h := addObjectsLoop_stop E adder encodeOk stop hstop s numAdded numObj
    simp [beforeTerminator, adderResults, cutAfterFailure, h.1, h.2.1, h.2.2]
  | cons r rs ih =>
    by_cases hlen : r.Length < 1
    · have h0 : ¬ 1 ≤ r.Length := by omega
      simp [addObjectsLoop, hlen, beforeTerminator, List.takeWhile_cons, h0, adderResults,
        cutAfterFailure]
    · have h1 : 1 ≤ r.Length := by omega
      have hbt : beforeTerminator (r :: rs) = r :: beforeTerminator rs := by
        simp [beforeTerminator, List.takeWhile_cons, h1]
      by_cases herr : E (adder.AddObject s r.Length r.ExpectedHash).1.2.2 = ""
      · have h := ih (adder.AddObject s r.Length r.ExpectedHash).2
          (if (adder.AddObject s r.Length r.ExpectedHash).1.2.1 = true then numAdded + 1
            else numAdded) (numObj + 1)
        have e := addObjectsLoop_request_ok E adder encodeOk r
          (rs.map DecodeResult.request ++ stop) s numAdded numObj h1 rfl herr
        simp only [List.map_cons, List.cons_append]
        rw [e, hbt]
        simp only [adderResults, cutAfterFailure, herr, ne_eq, not_true_eq_false, if_false,
          List.length_cons]
        exact ⟨by rw [h.1], by omega, h.2.2⟩
      · simp [addObjectsLoop, hlen, encodeOk, hbt, adderResults, cutAfterFailure, herr]

/-- C6. The server answers one for one and in order: for every request stream
that ends as a stream does and every adder, when the responses can be written,
the responses written by `addObjects` are the adder's results (hash, added,
error text) for the requests before the first one of length zero, cut after the
first result that carries an error text; they are a leading part of the adder's
results for the whole stream, so the i-th response is the one for the i-th
request; no request beyond a zero-length one is decoded; and `addObjects`
returns nil. -/
theorem addObjects_in_order {σ : Type} (E : Option String → String)
    (adder : ObjectAdder σ) (s : σ) (reqs : List AddObjectRequest)
    (stop : List DecodeResult) (hstop : endsStream stop) :
    (addObjects E adder encodeOk (reqs.map DecodeResult.request ++ stop) s).written =
        cutAfterFailure (adderResults E adder s (beforeTerminator reqs)) ∧
      (addObjects E adder encodeOk (reqs.map DecodeResult.request ++ stop) s).written <+:
        adderResults E adder s reqs ∧
      (addObjects E adder encodeOk (reqs.map DecodeResult.request ++ stop) s).decodeCalls ≤
        (beforeTerminator reqs).length + 1 ∧
      (addObjects E adder encodeOk (reqs.map DecodeResult.request ++ stop) s).ret = none := by
  have h := addObjectsLoop_requests E adder reqs stop hstop s 0 0
  refine ⟨h.1, ?_, h.2.1, h.2.2⟩
  unfold addObjects
  rw [h.1]
  exact (cutAfterFailure_isPrefix _).trans
    (adderResults_beforeTerminator_isPrefix E adder s reqs)

/-- Witness for C6: three requests, the third of length zero, then a fourth; two
responses are written, for the first two requests. -/
theorem addObjects_in_order_witness :
    (addObjects errorText countingAdder encodeOk
        ([⟨3, some [1]⟩, ⟨2, some [2]⟩, ⟨0, none⟩, ⟨5, some [4]⟩].map DecodeResult.request
          ++ [DecodeResult.EOF]) 0).written =
      [⟨[1], true, ""⟩, ⟨[2], true, ""⟩] := by
  have h := (addObjects_in_order errorText countingAdder 0
    [⟨3, some [1]⟩, ⟨2, some [2]⟩, ⟨0, none⟩, ⟨5, some [4]⟩] [DecodeResult.EOF] trivial).1
  rw [h]
  decide

/-! ### add and addObjects: the empty object -/

theorem addObjectsLoop_written_counters {σ : Type} (E : Option String → String)
    (adder : ObjectAdder σ) (ds : List DecodeResult) (s : σ) (numAdded numObj : Nat) :
    (addObjectsLoop E adder encodeOk ds s numAdded numObj).written =
      (addObjectsLoop E adder encodeOk ds s 0 0).written := by
  induction ds generalizing s numAdded numObj with
  | nil => simp [addObjectsLoop]
  | cons d ds ih =>
    cases d with
    | EOF => simp [addObjectsLoop]
    | ErrUnexpectedEOF => simp [addObjectsLoop]
    | failure msg => simp [addObjectsLoop]
    | request r =>
      by_cases hlen : r.Length < 1
      · simp [addObjectsLoop, hlen]
      · by_cases herr : E (adder.AddObject s r.Length r.ExpectedHash).1.2.2 = ""
        · rw [addObjectsLoop_request_ok E adder encodeOk r ds s numAdded numObj
              (by omega) rfl herr,
            addObjectsLoop_request_ok E adder encodeOk r ds s 0 0 (by omega) rfl herr]
          simp only
          rw [ih, ih (adder.AddObject s r.Length r.ExpectedHash).2 _ (0 + 1)]
        · simp [addObjectsLoop, hlen, herr, encodeOk]

/-- C7, as stated, fails for the empty byte sequence: `add` sends for it a request
of length zero without reporting an error; the server takes that request as the end
of the stream, hands nothing to the adder, writes no response, and does not answer
the request for the three bytes that follows. -/
theorem add_empty_not_served_counterexample :
    (ObjectAdderQueue.add exampleDigest exampleMaxLen ⟨[], [], 0⟩ ⟨[], none⟩ 0).1 =
        .returned (exampleDigest []) none ∧
      (ObjectAdderQueue.add exampleDigest exampleMaxLen ⟨[], [], 0⟩ ⟨[], none⟩ 0).2.1.sent =
        [Frame.request ⟨0, some (exampleDigest [])⟩, Frame.data []] ∧
      (addObjects errorText countingAdder encodeOk
        (decodesOf (ObjectAdderQueue.add exampleDigest exampleMaxLen
          (ObjectAdderQueue.add exampleDigest exampleMaxLen ⟨[], [], 0⟩ ⟨[], none⟩ 0).2.1
          ⟨[5, 6, 7], none⟩ 3).2.1.sent) 0).written = [] ∧
      (addObjects errorText countingAdder encodeOk
        (decodesOf (ObjectAdderQueue.add exampleDigest exampleMaxLen
          (ObjectAdderQueue.add exampleDigest exampleMaxLen ⟨[], [], 0⟩ ⟨[], none⟩ 0).2.1
          ⟨[5, 6, 7], none⟩ 3).2.1.sent) 0).adder = 0 := by
  decide

/-- C7, amended. For every non-empty byte sequence `B` (shorter than `2^64`
bytes and of a length a slice can have, as is every body that `add` has in its
buffer) and a queue with no error pending, `add` returns the digest of `B` and
sends one request of length `|B|` with that digest, followed by `B`; the server,
decoding that request, hands it to the adder with this length and digest, writes
exactly one response for it, and goes on with the requests that follow when
that response carries no error text. -/
theorem add_nonempty_is_served {σ : Type} (sha512 : List Nat → Hash) (maxLen : Nat)
    (E : Option String → String) (adder : ObjectAdder σ) (s : σ)
    (objQ : ObjectAdderQueue) (B : List Nat) (endErr : Option String)
    (rest : List DecodeResult)
    (hB : B ≠ []) (hlen : B.length < 2 ^ 64) (halloc : B.length ≤ maxLen)
    (hq : (consumeErrors objQ.errorChan).1 = none) :
    (objQ.add sha512 maxLen ⟨B, endErr⟩ B.length).1 = .returned (sha512 B) none ∧
      (objQ.add sha512 maxLen ⟨B, endErr⟩ B.length).2.1.sent =
        objQ.sent ++ [Frame.request ⟨B.length, some (sha512 B)⟩, Frame.data B] ∧
      (addObjects E adder encodeOk
          (DecodeResult.request ⟨B.length, some (sha512 B)⟩ :: rest) s).written =
        ⟨(adder.AddObject s B.length (some (sha512 B))).1.1,
          (adder.AddObject s B.length (some (sha512 B))).1.2.1,
          E (adder.AddObject s B.length (some (sha512 B))).1.2.2⟩ ::
        (if E (adder.AddObject s B.length (some (sha512 B))).1.2.2 = "" then
          (addObjects E adder encodeOk rest
            (adder.AddObject s B.length (some (sha512 B))).2).written
         else []) := by
  have hlen' : ¬ 18446744073709551616 ≤ B.length := by
    have : (2 : Nat) ^ 64 = 18446744073709551616 := by norm_num
    omega
  have hmod : B.length % 18446744073709551616 = B.length := Nat.mod_eq_of_lt (by omega)
  have hpos : 1 ≤ B.length := by
    cases B with
    | nil => exact absurd rfl hB
    | cons b bs => simp
  have hnb : ¬ maxLen < B.length := by omega
  refine ⟨?_, ?_, ?_⟩
  · cases hc : consumeErrors objQ.errorChan with
    | mk e chan =>
      rw [hc] at hq
      simp only at hq
      subst hq
      simp [ObjectAdderQueue.add, hc, ReadFull, hmod, hlen', hnb]
  · cases hc : consumeErrors objQ.errorChan with
    | mk e chan =>
      rw [hc] at hq
      simp only at hq
      subst hq
      simp [ObjectAdderQueue.add, hc, ReadFull, hmod, hlen', hnb]
  · unfold addObjects
    by_cases herr : E (adder.AddObject s B.length (some (sha512 B))).1.2.2 = ""
    · rw [addObjectsLoop_request_ok E adder encodeOk ⟨B.length, some (sha512 B)⟩ rest s 0 0
        hpos rfl herr]
      simp only [herr, if_true]
      rw [addObjectsLoop_written_counters]
    · have hl : ¬ B.length < 1 := by omega
      simp [addObjectsLoop, hl, herr, encodeOk]

/-- Witness for the amended C7: the three bytes 5, 6, 7. -/
theorem add_nonempty_is_served_witness :
    (ObjectAdderQueue.add exampleDigest exampleMaxLen ⟨[], [], 0⟩ ⟨[5, 6, 7], none⟩
        3).2.1.sent = [Frame.request ⟨3, some [3, 18]⟩, Frame.data [5, 6, 7]] ∧
      (addObjects errorText countingAdder encodeOk
        (DecodeResult.request ⟨3, some [3, 18]⟩ :: [DecodeResult.request ⟨1, some [1, 9]⟩])
        0).written = [⟨[3, 18], true, ""⟩, ⟨[1, 9], true, ""⟩] := by
  have h := add_nonempty_is_served exampleDigest exampleMaxLen errorText countingAdder 0
    ⟨[], [], 0⟩ [5, 6, 7] none [DecodeResult.request ⟨1, some [1, 9]⟩] (by decide) (by decide)
    (by decide) rfl
  refine ⟨h.2.1, ?_⟩
  have h3 := h.2.2
  simp only [List.length_cons, List.length_nil] at h3
  rw [show exampleDigest [5, 6, 7] = [3, 18] from by decide] at h3
  rw [h3]
  decide

/-! ### The scanner: inode records and hardlinked directories -/

theorem lookup_cons_eq (k k' v : Nat) (l : List (Nat × Nat)) :
    List.lookup k ((k', v) :: l) = if k = k' then some v else List.lookup k l := by
  by_cases h : k = k'
  · simp [List.lookup_cons, h]
  · have hb : (k == k') = false := by simpa using h
    simp [List.lookup_cons, h, hb]

theorem FileSystem.grows_refl (fs : FileSystem) : fs.grows fs :=
  ⟨fun _ r h => ⟨r, h, rfl⟩, fun _ _ h => h⟩

theorem FileSystem.grows_trans {fs1 fs2 fs3 : FileSystem} (h12 : fs1.grows fs2)
    (h23 : fs2.grows fs3) : fs1.grows fs3 := by
  refine ⟨fun a r h => ?_, fun ino a h => h23.table ino a (h12.table ino a h)⟩
  obtain ⟨r2, h2, e2⟩ := h12.records a r h
  obtain ⟨r3, h3, e3⟩ := h23.records a r2 h2
  exact ⟨r3, h3, e3.trans e2⟩

theorem ScanRun.ofNil (fs : FileSystem) : ScanRun fs fs [] :=
  ⟨fs.grows_refl, id, by simp, by simp, List.Pairwise.nil⟩

theorem ScanRun.andThen {fs1 fs2 fs3 : FileSystem} {t1 t2 : List ScanEvent}
    (h1 : ScanRun fs1 fs2 t1) (h2 : ScanRun fs2 fs3 t2) : ScanRun fs1 fs3 (t1 ++ t2) := by
  refine ⟨FileSystem.grows_trans h1.grows h2.grows, fun h => h2.wf (h1.wf h), ?_, ?_, ?_⟩
  · intro f s a n hmem
    rcases List.mem_append.1 hmem with h | h
    · exact h2.grows.table _ _ (h1.recorded f s a n h)
    · exact h2.recorded f s a n h
  · intro f s a hmem
    rcases List.mem_append.1 hmem with h | h
    · exact h1.fresh f s a h
    · have h' := h2.fresh f s a h
      cases hl : fs1.InodeTable.lookup s.Ino with
      | none => rfl
      | some b =>
        rw [h1.grows.table _ _ hl] at h'
        exact absurd h' (by simp)
  · refine List.pairwise_append.2 ⟨h1.pairwise, h2.pairwise, ?_⟩
    intro e1 he1 e2 he2 f1 s1 a1 m1 f2 s2 a2 m2 eq1 eq2 hino
    subst eq1 eq2
    cases m2 with
    | false => rfl
    | true =>
      have h' := h2.fresh f2 s2 a2 he2
      rw [← hino, h1.recorded f1 s1 a1 m1 he1] at h'
      exact absurd h' (by simp)

theorem ScanRun.of_getInode (fs : FileSystem) (stat : Stat) (f : String) :
    ScanRun fs (fs.getInode stat).2
      [ScanEvent.entry f stat (fs.getInode stat).1.1 (fs.getInode stat).1.2] := by
  unfold FileSystem.getInode
  cases hl : fs.InodeTable.lookup stat.Ino with
  | some a =>
    refine ⟨fs.grows_refl, id, ?_, ?_, List.pairwise_singleton _ _⟩
    · intro f' s a' n hmem
      simp only [List.mem_singleton, ScanEvent.entry.injEq] at hmem
      obtain ⟨-, rfl, rfl, -⟩ := hmem
      exact hl
    · intro f' s a' hmem
      simp at hmem
  | none =>
    have hgrow : fs.grows ⟨fs.inodes ++ [⟨stat, none, ""⟩],
        (stat.Ino, fs.inodes.length) :: fs.InodeTable⟩ := by
      refine ⟨fun a r h => ⟨r, ?_, rfl⟩, fun ino a h => ?_⟩
      · have hlt : a < fs.inodes.length := (List.getElem?_eq_some_iff.1 h).1
        simpa [List.getElem?_append_left hlt] using h
      · have hne : ino ≠ stat.Ino := fun e => by rw [e, hl] at h; simp at h
        simpa [lookup_cons_eq, hne] using h
    refine ⟨hgrow, ?_, ?_, ?_, List.pairwise_singleton _ _⟩
    · intro hwf
      refine ⟨fun ino a h => ?_, fun i1 i2 a h1 h2 => ?_⟩
      · simp only [lookup_cons_eq] at h
        simp only [List.length_append, List.length_singleton]
        split at h
        · simp only [Option.some.injEq] at h
          omega
        · have := hwf.valid ino a h
          omega
      · simp only [lookup_cons_eq] at h1 h2
        split at h1 <;> split at h2
        · next e1 e2 => rw [e1, e2]
        · next e1 e2 =>
          simp only [Option.some.injEq] at h1
          have := hwf.valid i2 a h2
          omega
        · next e1 e2 =>
          simp only [Option.some.injEq] at h2
          have := hwf.valid i1 a h1
          omega
        · exact hwf.inj i1 i2 a h1 h2
    · intro f' s a' n hmem
      simp only [List.mem_singleton, ScanEvent.entry.injEq] at hmem
      obtain ⟨-, rfl, rfl, -⟩ := hmem
      simp [lookup_cons_eq]
    · intro f' s a' hmem
      simp only [List.mem_singleton, ScanEvent.entry.injEq] at hmem
      obtain ⟨-, rfl, -, -⟩ := hmem
      exact hl

theorem ScanRun.sameTable {fs fs' : FileSystem} (t : List ScanEvent)
    (htable : fs'.InodeTable = fs.InodeTable) (hlen : fs'.inodes.length = fs.inodes.length)
    (hrec : ∀ (a : Nat) (r : Inode), fs.inodes[a]? = some r →
      ∃ r' : Inode, fs'.inodes[a]? = some r' ∧ r'.Stat = r.Stat)
    (hno : ∀ f s a n, ScanEvent.entry f s a n ∉ t) : ScanRun fs fs' t := by
  refine ⟨⟨hrec, fun ino a h => by rw [htable]; exact h⟩, fun hwf => ⟨?_, ?_⟩, ?_, ?_, ?_⟩
  · intro ino a h
    rw [htable] at h
    rw [hlen]
    exact hwf.valid ino a h
  · intro i1 i2 a h1 h2
    rw [htable] at h1 h2
    exact hwf.inj i1 i2 a h1 h2
  · intro f s a n hmem
    exact absurd hmem (hno f s a n)
  · intro f s a hmem
    exact absurd hmem (hno f s a true)
  · refine List.pairwise_of_forall_mem_list ?_
    intro e1 he1 e2 _ f1 s1 a1 n1 f2 s2 a2 n2 eq1 _ _
    subst eq1
    exact absurd he1 (hno f1 s1 a1 n1)

theorem set_keeps_stat (inodes : List Inode) (p : Nat) (new : Inode)
    (hnew : ∀ old : Inode, inodes[p]? = some old → new.Stat = old.Stat)
    (a : Nat) (r : Inode) (h : inodes[a]? = some r) :
    ∃ r' : Inode, (inodes.set p new)[a]? = some r' ∧ r'.Stat = r.Stat := by
  by_cases hp : p = a
  · subst hp
    have hlt : p < inodes.length := (List.getElem?_eq_some_iff.1 h).1
    exact ⟨new, by simp [List.getElem?_set_self hlt], hnew r h⟩
  · exact ⟨r, by simpa [List.getElem?_set_ne hp] using h, rfl⟩

theorem ScanRun.of_fileScan (sys : Sys) (file : File) (fs : FileSystem) (parentName : String)
    (path : String) (a : Nat) :
    ScanRun fs (File.scan sys file fs parentName).2 [ScanEvent.fileScan path a] := by
  have hno : ∀ f s a' n, ScanEvent.entry f s a' n ∉ [ScanEvent.fileScan path a] := by
    intro f s a' n hmem
    simp at hmem
  have hsame : ScanRun fs fs [ScanEvent.fileScan path a] :=
    ScanRun.sameTable _ rfl rfl (fun a r h => ⟨r, h, rfl⟩) hno
  unfold File.scan
  cases hi : fs.inodes[file.Inode]? with
  | none => exact hsame
  | some inode =>
    simp only
    split
    · cases sys.Open (sys.join parentName file.Name) with
      | some e => exact hsame
      | none =>
        exact ScanRun.sameTable _ rfl (by simp)
          (set_keeps_stat fs.inodes file.Inode _
            (fun old ho => by rw [hi] at ho; cases ho; rfl)) hno
    · split
      · cases sys.Readlink (sys.join parentName file.Name) with
        | error e => exact hsame
        | ok symlink =>
          exact ScanRun.sameTable _ rfl (by simp)
            (set_keeps_stat fs.inodes file.Inode _
              (fun old ho => by rw [hi] at ho; cases ho; rfl)) hno
      · exact hsame

theorem HardlinkReported.afterClean {D : Nat} {out : Outcome} {t1 t2 : List ScanEvent}
    (h1 : ∀ f s a, ScanEvent.entry f s a false ∈ t1 → s.Dev = D →
      s.Mode &&& S_IFMT = S_IFDIR → False)
    (h2 : HardlinkReported D out t2) : HardlinkReported D out (t1 ++ t2) := by
  intro f s a hmem hdev hdir
  rcases List.mem_append.1 hmem with h | h
  · exact (h1 f s a h hdev hdir).elim
  · exact h2 f s a h hdev hdir

theorem HardlinkReported.ofEmpty (D : Nat) (out : Outcome) : HardlinkReported D out [] := by
  intro f s a hmem
  simp at hmem

theorem Directory.Inode_appendDirectory (d sub : Directory) :
    (d.appendDirectory sub).Inode = d.Inode := by
  cases d; rfl

theorem Directory.Inode_appendFile (d : Directory) (file : File) :
    (d.appendFile file).Inode = d.Inode := by
  cases d; rfl

theorem scanNames_spec (sys : Sys) (scanDir : Directory → FileSystem → String → ScanResult)
    (hdir : ∀ d fs p, ScanSpec d fs (scanDir d fs p)) (myPathName : String)
    (names : List String) :
    ∀ directory fs, ScanSpec directory fs (scanNames sys scanDir myPathName names directory fs) := by
  induction names with
  | nil =>
    intro directory fs
    exact ⟨ScanRun.ofNil fs, fun r _ => HardlinkReported.ofEmpty _ _⟩
  | cons name names ih =>
    intro directory fs
    rw [scanNames]
    cases hL : sys.Lstat (sys.join myPathName name) with
    | error e =>
      simp only
      split
      · exact ih directory fs
      · exact ⟨ScanRun.ofNil fs, fun r _ => HardlinkReported.ofEmpty _ _⟩
    | ok stat =>
      have hg := ScanRun.of_getInode fs stat (sys.join myPathName name)
      rcases hgi : fs.getInode stat with ⟨⟨inode, isNew⟩, fs1⟩
      simp only [hgi] at hg ⊢
      have hev : ∀ (out : Outcome) (D : Nat), (isNew = false → stat.Dev = D →
          stat.Mode &&& S_IFMT = S_IFDIR →
            out = Outcome.error (GoError.text ("Hardlinked directory: " ++
              sys.join myPathName name))) →
          HardlinkReported D out [ScanEvent.entry (sys.join myPathName name) stat inode isNew] := by
        intro out D h f s a hmem hdev hdir'
        simp only [List.mem_singleton, ScanEvent.entry.injEq] at hmem
        obtain ⟨rfl, rfl, rfl, rfl⟩ := hmem
        exact h rfl hdev hdir'
      cases hd : fs1.inodes[directory.Inode]? with
      | none =>
        refine ⟨hg, fun r hr => ?_⟩
        obtain ⟨r', hr', -⟩ := hg.grows.records _ r hr
        rw [hd] at hr'
        exact absurd hr' (by simp)
      | some dirInode =>
        have hD : ∀ r : Inode, fs.inodes[directory.Inode]? = some r →
            dirInode.Stat.Dev = r.Stat.Dev := by
          intro r hr
          obtain ⟨r', hr', e⟩ := hg.grows.records _ r hr
          rw [hd] at hr'
          cases hr'
          rw [e]
        have hcont : ∀ (directory' : Directory) (fsA : FileSystem) (tA : List ScanEvent),
            directory'.Inode = directory.Inode → ScanRun fs fsA tA →
            (∀ r : Inode, fs.inodes[directory.Inode]? = some r →
              ∀ f s a, ScanEvent.entry f s a false ∈ tA → s.Dev = r.Stat.Dev →
                s.Mode &&& S_IFMT = S_IFDIR → False) →
            ∀ res : ScanResult,
              res.fileSystem = (scanNames sys scanDir myPathName names directory' fsA).fileSystem →
              res.trace = tA ++ (scanNames sys scanDir myPathName names directory' fsA).trace →
              res.outcome = (scanNames sys scanDir myPathName names directory' fsA).outcome →
              ScanSpec directory fs res := by
          intro directory' fsA tA hino hrun hno res e1 e2 e3
          obtain ⟨hrun', hhard'⟩ := ih directory' fsA
          unfold ScanSpec
          rw [e1, e2, e3]
          refine ⟨hrun.andThen hrun', fun r hr => HardlinkReported.afterClean (hno r hr) ?_⟩
          obtain ⟨r', hr', e⟩ := hrun.grows.records _ r hr
          rw [← hino] at hr'
          have := hhard' r' hr'
          rwa [e] at this
        have hstop : ∀ (fsA : FileSystem) (tA : List ScanEvent) (out : Outcome),
            ScanRun fs fsA tA →
            (∀ r : Inode, fs.inodes[directory.Inode]? = some r →
              HardlinkReported r.Stat.Dev out tA) →
            ∀ res : ScanResult, res.fileSystem = fsA → res.trace = tA → res.outcome = out →
              ScanSpec directory fs res := by
          intro fsA tA out hrun hh res e1 e2 e3
          unfold ScanSpec
          rw [e1, e2, e3]
          exact ⟨hrun, hh⟩
        have hvac : ∀ (D : Nat) (out : Outcome) (t : List ScanEvent),
            (∀ f s a, ScanEvent.entry f s a false ∈ t → s.Dev = D →
              s.Mode &&& S_IFMT = S_IFDIR → False) → HardlinkReported D out t := by
          intro D out t h f s a hmem hdev hdir'
          exact (h f s a hmem hdev hdir').elim
        simp only
        by_cases hdev : stat.Dev = dirInode.Stat.Dev
        · simp only [hdev, if_true]
          by_cases hmode : stat.Mode &&& S_IFMT = S_IFDIR
          · simp only [hmode, if_true]
            cases isNew with
            | false =>
              simp only [Bool.not_false, if_true]
              exact hstop fs1 _ _ hg (fun r hr => hev _ _ (fun _ _ _ => rfl)) _ rfl rfl rfl
            | true =>
              simp only [Bool.not_true, Bool.false_eq_true, if_false]
              have hnew : fs1.inodes[inode]? = some ⟨stat, none, ""⟩ := by
                unfold FileSystem.getInode at hgi
                cases hl : fs.InodeTable.lookup stat.Ino with
                | some b => simp [hl] at hgi
                | none =>
                  simp only [hl, Prod.mk.injEq] at hgi
                  obtain ⟨⟨rfl, -⟩, rfl⟩ := hgi
                  simp
              obtain ⟨hsrun, hshard⟩ := hdir (Directory.mk name inode [] []) fs1 myPathName
              have hshard' := hshard _ hnew
              simp only at hshard'
              have hevNo : ∀ (D : Nat) f s a,
                  ScanEvent.entry f s a false ∈
                    [ScanEvent.entry (sys.join myPathName name) stat inode true] → s.Dev = D →
                    s.Mode &&& S_IFMT = S_IFDIR → False := by
                intro D f s a hmem
                simp at hmem
              cases hso : (scanDir (Directory.mk name inode [] []) fs1 myPathName).outcome with
              | ok =>
                simp only
                refine hcont _ _ ([ScanEvent.entry (sys.join myPathName name) stat inode true] ++
                  (scanDir (Directory.mk name inode [] []) fs1 myPathName).trace)
                  (Directory.Inode_appendDirectory _ _) (hg.andThen hsrun) ?_ _ rfl rfl rfl
                intro r hr f s a hmem hdev' hdir'
                rcases List.mem_append.1 hmem with h | h
                · exact hevNo _ f s a h hdev' hdir'
                · have hDr := hD r hr
                  have := hshard' f s a h (by rw [hdev, hDr]; exact hdev') hdir'
                  rw [hso] at this
                  exact absurd this (by simp)
              | error err =>
                simp only
                refine hstop _ ([ScanEvent.entry (sys.join myPathName name) stat inode true] ++
                  (scanDir (Directory.mk name inode [] []) fs1 myPathName).trace) _
                  (hg.andThen hsrun) ?_ _ rfl rfl rfl
                intro r hr
                have hDr := hD r hr
                refine HardlinkReported.afterClean (hevNo _) ?_
                rw [← hso, ← hDr, ← hdev]
                exact hshard'
              | panic =>
                simp only
                refine hstop _ ([ScanEvent.entry (sys.join myPathName name) stat inode true] ++
                  (scanDir (Directory.mk name inode [] []) fs1 myPathName).trace) _
                  (hg.andThen hsrun) ?_ _ rfl rfl rfl
                intro r hr
                have hDr := hD r hr
                refine HardlinkReported.afterClean (hevNo _) ?_
                rw [← hso, ← hDr, ← hdev]
                exact hshard'
              | outOfFuel =>
                simp only
                refine hstop _ ([ScanEvent.entry (sys.join myPathName name) stat inode true] ++
                  (scanDir (Directory.mk name inode [] []) fs1 myPathName).trace) _
                  (hg.andThen hsrun) ?_ _ rfl rfl rfl
                intro r hr
                have hDr := hD r hr
                refine HardlinkReported.afterClean (hevNo _) ?_
                rw [← hso, ← hDr, ← hdev]
                exact hshard'
          · simp only [hmode, if_false]
            have hevNo : ∀ (D : Nat) f s a,
                ScanEvent.entry f s a false ∈
                  [ScanEvent.entry (sys.join myPathName name) stat inode isNew] → s.Dev = D →
                  s.Mode &&& S_IFMT = S_IFDIR → False := by
              intro D f s a hmem _ hdir'
              simp only [List.mem_singleton, ScanEvent.entry.injEq] at hmem
              obtain ⟨-, rfl, -, -⟩ := hmem
              exact hmode hdir'
            cases isNew with
            | false =>
              simp only [Bool.false_eq_true, if_false]
              exact hcont _ fs1 [ScanEvent.entry (sys.join myPathName name) stat inode false]
                (Directory.Inode_appendFile _ _) hg (fun r _ => hevNo _) _ rfl rfl rfl
            | true =>
              simp only [if_true]
              have hf := ScanRun.of_fileScan sys ⟨name, inode⟩ fs1 myPathName
                (sys.join myPathName name) inode
              rcases hfs : File.scan sys ⟨name, inode⟩ fs1 myPathName with ⟨o, fs2⟩
              rw [hfs] at hf
              simp only at hf ⊢
              have hrun2 := hg.andThen hf
              have hno2 : ∀ (D : Nat) f s a,
                  ScanEvent.entry f s a false ∈
                    [ScanEvent.entry (sys.join myPathName name) stat inode true] ++
                      [ScanEvent.fileScan (sys.join myPathName name) inode] → s.Dev = D →
                    s.Mode &&& S_IFMT = S_IFDIR → False := by
                intro D f s a hmem
                simp at hmem
              cases o with
              | ok =>
                exact hcont _ fs2 _ (Directory.Inode_appendFile _ _) hrun2
                  (fun r _ => hno2 _) _ rfl rfl rfl
              | error err =>
                simp only
                split
                · exact hcont directory fs2 _ rfl hrun2 (fun r _ => hno2 _) _ rfl rfl rfl
                · exact hstop fs2 _ _ hrun2 (fun r _ => hvac _ _ _ (hno2 _)) _ rfl rfl rfl
              | panic =>
                exact hstop fs2 _ _ hrun2 (fun r _ => hvac _ _ _ (hno2 _)) _ rfl rfl rfl
              | outOfFuel =>
                exact hstop fs2 _ _ hrun2 (fun r _ => hvac _ _ _ (hno2 _)) _ rfl rfl rfl
        · simp only [hdev, if_false]
          refine hcont directory fs1 [ScanEvent.entry (sys.join myPathName name) stat inode isNew]
            rfl hg ?_ _ rfl rfl rfl
          intro r hr f s a hmem hdev' _
          simp only [List.mem_singleton, ScanEvent.entry.injEq] at hmem
          obtain ⟨-, rfl, -, -⟩ := hmem
          exact hdev (by rw [hD r hr]; exact hdev')

theorem Directory.scan_spec (sys : Sys) (fuel : Nat) :
    ∀ directory fs parentName,
      ScanSpec directory fs (Directory.scan sys fuel directory fs parentName) := by
  induction fuel with
  | zero =>
    intro directory fs parentName
    exact ⟨ScanRun.ofNil fs, fun r _ => HardlinkReported.ofEmpty _ _⟩
  | succ fuel ih =>
    intro directory fs parentName
    have hno : ∀ f s a n, ScanEvent.entry f s a n ∉
        [ScanEvent.dirScan (sys.join parentName directory.Name)] := by
      intro f s a n hmem
      simp at hmem
    have hself : ScanRun fs fs [ScanEvent.dirScan (sys.join parentName directory.Name)] :=
      ScanRun.sameTable _ rfl rfl (fun a r h => ⟨r, h, rfl⟩) hno
    have hvac : ∀ (D : Nat) (out : Outcome),
        HardlinkReported D out [ScanEvent.dirScan (sys.join parentName directory.Name)] := by
      intro D out f s a hmem
      exact absurd hmem (hno f s a false)
    rw [Directory.scan]
    simp only
    cases sys.Open (sys.join parentName directory.Name) with
    | some e => exact ⟨hself, fun r _ => hvac _ _⟩
    | none =>
      cases sys.Readdirnames (sys.join parentName directory.Name) with
      | error e => exact ⟨hself, fun r _ => hvac _ _⟩
      | ok names =>
        obtain ⟨hrun, hhard⟩ := scanNames_spec sys (Directory.scan sys fuel) ih
          (sys.join parentName directory.Name) (sortStrings names) directory fs
        refine ⟨hself.andThen hrun, fun r hr => ?_⟩
        exact HardlinkReported.afterClean (fun f s a hmem _ _ => hno f s a false hmem) (hhard r hr)

theorem rootFileSystem_wf : rootFileSystem.wf := by
  have key : ∀ ino a : Nat, rootFileSystem.InodeTable.lookup ino = some a → ino = 2 ∧ a = 0 := by
    intro ino a h
    simp only [rootFileSystem, lookup_cons_eq, List.lookup_nil] at h
    split at h
    · next e => exact ⟨e, (Option.some.inj h).symm⟩
    · exact absurd h (by simp)
  refine ⟨fun ino a h => ?_, fun i1 i2 a h1 h2 => ?_⟩
  · rw [(key ino a h).2]
    decide
  · rw [(key i1 a h1).1, (key i2 a h2).1]

/-- C8 fails on the code.  The tree of `mountedSys` is that of `plainSys` with one
more entry, the mount point `/mnt` of a file system on device 2; the scan of the
plain tree succeeds and lists the directory `usr`, the scan with the mount point
fails with a hardlink error for `/usr`, because `getInode` has entered the inode
number of the mount point in the table before the device is compared. -/
theorem scan_mount_point_changes_outcome :
    (Directory.scan plainSys 5 rootDirectory rootFileSystem "").outcome = Outcome.ok ∧
      (Directory.scan plainSys 5 rootDirectory rootFileSystem "").directory.DirectoryList.map
        Directory.Name = ["usr"] ∧
      (Directory.scan mountedSys 5 rootDirectory rootFileSystem "").outcome =
        Outcome.error (GoError.text "Hardlinked directory: /usr") ∧
      (Directory.scan mountedSys 5 rootDirectory rootFileSystem "").directory.DirectoryList.map
        Directory.Name = [] := by
  decide

/-- C9 does not hold of the code: in the scan of `/` on device 1, the regular file
`/data` (device 1, inode number 7) and the mount point `/mnt` (device 2, inode
number 7) are given the same `Inode` record, the one at address 1, although their
devices differ. The record of `/mnt` is looked up by `getInode` before the device
test and under the inode number alone, which is the defect met in C8 and C11. -/
theorem same_record_across_devices_counterexample :
    (Directory.scan sharedInoSys 5 rootDirectory rootFileSystem "").trace =
      [ScanEvent.dirScan "/",
        ScanEvent.entry "/data" ⟨1, 7, 0o100644⟩ 1 true,
        ScanEvent.fileScan "/data" 1,
        ScanEvent.entry "/mnt" ⟨2, 7, 0o040755⟩ 1 false] := by
  decide

/-- The inode table is keyed by the inode number alone: during one scan started
with a well-formed inode table, two directory entries are given the same `Inode`
record if and only if their stat results have the same inode number, whatever
their devices. -/
theorem same_record_iff_same_ino (sys : Sys) (fuel : Nat) (directory : Directory)
    (fs : FileSystem) (parentName : String) (hwf : fs.wf)
    (f1 f2 : String) (s1 s2 : Stat) (a1 a2 : Nat) (n1 n2 : Bool)
    (h1 : ScanEvent.entry f1 s1 a1 n1 ∈
      (Directory.scan sys fuel directory fs parentName).trace)
    (h2 : ScanEvent.entry f2 s2 a2 n2 ∈
      (Directory.scan sys fuel directory fs parentName).trace) :
    a1 = a2 ↔ s1.Ino = s2.Ino := by
  obtain ⟨hrun, -⟩ := Directory.scan_spec sys fuel directory fs parentName
  have l1 := hrun.recorded f1 s1 a1 n1 h1
  have l2 := hrun.recorded f2 s2 a2 n2 h2
  constructor
  · intro e
    subst e
    exact (hrun.wf hwf).inj _ _ _ l1 l2
  · intro e
    rw [e, l2] at l1
    exact (Option.some.inj l1).symm

/-- The file `/data` and the mount point `/mnt` of `sharedInoSys`, as an instance of
`same_record_iff_same_ino`. -/
theorem same_record_iff_same_ino_witness :
    (1 : Nat) = 1 ↔ (⟨1, 7, 0o100644⟩ : Stat).Ino = (⟨2, 7, 0o040755⟩ : Stat).Ino :=
  same_record_iff_same_ino sharedInoSys 5 rootDirectory rootFileSystem ""
    rootFileSystem_wf "/data" "/mnt" ⟨1, 7, 0o100644⟩ ⟨2, 7, 0o040755⟩ 1 1 true false
    (by decide) (by decide)

/-- C10. Hardlinked directories make the scan fail: when the scan reaches two
entries with the same inode number and the later of them, in the order of the
traversal, is a directory on the device of the scanned directory (as it is when
both are), `Directory.scan` returns the error "Hardlinked directory: " followed by
the path of that later entry, at whatever depth the entries are, every enclosing
scan returning the error of the scan it called. -/
theorem hardlinked_directory_fails (sys : Sys) (fuel : Nat) (directory : Directory)
    (fs : FileSystem) (parentName : String) (r : Inode)
    (hroot : fs.inodes[directory.Inode]? = some r)
    (i j : Nat) (hij : i < j)
    (f1 f2 : String) (s1 s2 : Stat) (a1 a2 : Nat) (n1 n2 : Bool)
    (h1 : (Directory.scan sys fuel directory fs parentName).trace[i]? =
      some (ScanEvent.entry f1 s1 a1 n1))
    (h2 : (Directory.scan sys fuel directory fs parentName).trace[j]? =
      some (ScanEvent.entry f2 s2 a2 n2))
    (hino : s1.Ino = s2.Ino)
    (hdev2 : s2.Dev = r.Stat.Dev) (hdir2 : s2.Mode &&& S_IFMT = S_IFDIR) :
    (Directory.scan sys fuel directory fs parentName).outcome =
      Outcome.error (GoError.text ("Hardlinked directory: " ++ f2)) := by
  obtain ⟨hrun, hhard⟩ := Directory.scan_spec sys fuel directory fs parentName
  obtain ⟨hi, e1⟩ := List.getElem?_eq_some_iff.1 h1
  obtain ⟨hj, e2⟩ := List.getElem?_eq_some_iff.1 h2
  have hp := List.pairwise_iff_getElem.1 hrun.pairwise i j hi hj hij
  have hn2 : n2 = false := hp f1 s1 a1 n1 f2 s2 a2 n2 e1 e2 hino
  subst hn2
  have hmem : ScanEvent.entry f2 s2 a2 false ∈
      (Directory.scan sys fuel directory fs parentName).trace := by
    rw [← e2]
    exact List.getElem_mem _
  exact hhard r hroot f2 s2 a2 hmem hdev2 hdir2

/-- Witness for C10: the directories `/x` and `/y` are hard links of one
directory; the scan fails with the error for `/y`. -/
theorem hardlinked_directory_fails_witness :
    (Directory.scan hardlinkedSys 5 rootDirectory rootFileSystem "").outcome =
      Outcome.error (GoError.text ("Hardlinked directory: " ++ "/y")) :=
  hardlinked_directory_fails hardlinkedSys 5 rootDirectory rootFileSystem ""
    ⟨⟨1, 2, 0o040755⟩, none, ""⟩ (by decide) 1 3 (by decide)
    "/x" "/y" ⟨1, 50, 0o040755⟩ ⟨1, 50, 0o040755⟩ 1 1 true false
    (by decide) (by decide) rfl (by decide) (by decide)

/-! ### The scanner: hashes, and entries that vanish -/

/-- C11 fails on the code.  The regular file `/a.conf` lies on another device; the
scan succeeds, `getInode` has given it a record (address 1, inode number 9) that
stays in the inode table without a hash, and the regular file `/b.txt` of the
scanned device, which has the same inode number, is listed in the `FileList` with
that record and is not hashed either. -/
theorem scan_leaves_regular_inode_without_hash :
    (Directory.scan foreignFileSys 5 rootDirectory rootFileSystem "").outcome = Outcome.ok ∧
      (Directory.scan foreignFileSys 5 rootDirectory rootFileSystem "").directory.FileList =
        [⟨"b.txt", 1⟩] ∧
      (Directory.scan foreignFileSys 5 rootDirectory rootFileSystem "").fileSystem.InodeTable.lookup
        9 = some 1 ∧
      (Directory.scan foreignFileSys 5 rootDirectory rootFileSystem "").fileSystem.inodes[1]? =
        some ⟨⟨2, 9, 0o100644⟩, none, ""⟩ ∧
      (⟨2, 9, 0o100644⟩ : Stat).Mode &&& S_IFMT = S_IFREG := by
  decide

/-- C17 fails on the code for a file that vanishes before it is opened: `os.Open`
of `/gone` fails with `ENOENT`, `File.scan` returns the `*os.PathError` that wraps
it, the comparison with `syscall.ENOENT` is false, and the scan returns that error
instead of going on with `/kept`. -/
theorem scan_fails_when_file_vanishes :
    (Directory.scan vanishingSys 5 rootDirectory rootFileSystem "").outcome =
        Outcome.error (GoError.pathError "open" "/gone" ENOENT) ∧
      (Directory.scan vanishingSys 5 rootDirectory rootFileSystem "").directory.FileList = [] ∧
      (Directory.scan vanishingSys 5 rootDirectory rootFileSystem "").trace =
        [ScanEvent.dirScan "/", ScanEvent.entry "/gone" ⟨1, 5, 0o100644⟩ 1 true,
          ScanEvent.fileScan "/gone" 1] := by
  decide

/-! ### The herd: the update from the machine database -/

theorem find?_filter_ne {β : Type} (m : List (String × β)) (k k' : String) (h : k' ≠ k) :
    (m.filter (fun e => decide (e.1 ≠ k))).find? (fun e => decide (e.1 = k')) =
      m.find? (fun e => decide (e.1 = k')) := by
  induction m with
  | nil => rfl
  | cons e m ih =>
    by_cases he : e.1 = k
    · have hne : ¬ e.1 = k' := fun e' => h (e'.symm.trans he)
      rw [List.filter_cons_of_neg (by simpa using he),
        List.find?_cons_of_neg _ (by simpa using hne)]
      exact ih
    · rw [List.filter_cons_of_pos (by simpa using he)]
      by_cases he' : e.1 = k'
      · rw [List.find?_cons_of_pos _ (by simpa using he'),
          List.find?_cons_of_pos _ (by simpa using he')]
      · rw [List.find?_cons_of_neg _ (by simpa using he'),
          List.find?_cons_of_neg _ (by simpa using he')]
        exact ih

theorem find?_filter_self {β : Type} (m : List (String × β)) (k : String) :
    (m.filter (fun e => decide (e.1 ≠ k))).find? (fun e => decide (e.1 = k)) = none := by
  rw [List.find?_eq_none]
  intro e he
  have := (List.mem_filter.1 he).2
  simpa using this

theorem GoMap.get_set {β : Type} (m : GoMap β) (k k' : String) (v : β) :
    (m.set k v).get k' = if k' = k then some v else m.get k' := by
  unfold GoMap.set GoMap.get
  by_cases h : k' = k
  · subst h
    rw [List.find?_cons_of_pos _ (by simp)]
    simp
  · have h' : ¬ k = k' := fun e => h e.symm
    rw [List.find?_cons_of_neg _ (by simpa using h'), find?_filter_ne m k k' h]
    simp [h]

theorem GoMap.get_delete {β : Type} (m : GoMap β) (k k' : String) :
    (m.delete k).get k' = if k' = k then none else m.get k' := by
  unfold GoMap.delete GoMap.get
  by_cases h : k' = k
  · subst h
    rw [find?_filter_self]
    simp
  · rw [find?_filter_ne m k k' h]
    simp [h]

theorem GoMap.get_of_mem {β : Type} (m : GoMap β) (hn : (m.map Prod.fst).Nodup)
    (k : String) (v : β) (h : (k, v) ∈ m) : m.get k = some v := by
  unfold GoMap.get
  induction m with
  | nil => simp at h
  | cons e m ih =>
    simp only [List.map_cons, List.nodup_cons] at hn
    rcases List.mem_cons.1 h with h' | h'
    · subst h'
      simp [List.find?_cons]
    · have hne : ¬ e.1 = k := by
        intro e'
        apply hn.1
        rw [e']
        exact List.mem_map.2 ⟨(k, v), h', rfl⟩
      simp only [List.find?_cons, hne, decide_False]
      exact ih hn.2 h'

theorem GoMap.mem_of_get {β : Type} (m : GoMap β) (k : String) (v : β)
    (h : m.get k = some v) : (k, v) ∈ m := by
  unfold GoMap.get at h
  cases hf : m.find? (fun e => decide (e.1 = k)) with
  | none => simp [hf] at h
  | some e =>
    simp only [hf, Option.map_some', Option.some.injEq] at h
    have hk : e.1 = k := by simpa using List.find?_some hf
    have hm := List.mem_of_find?_eq_some hf
    cases e with
    | mk a b =>
      simp only at hk h
      subst hk h
      exact hm

theorem GoMap.set_all_true (m : GoMap Bool) (k : String)
    (h : ∀ e ∈ m, e.2 = true) : ∀ e ∈ m.set k true, e.2 = true := by
  intro e he
  unfold GoMap.set at he
  rcases List.mem_cons.1 he with rfl | he'
  · rfl
  · exact h e (List.mem_filter.1 he').1

theorem foldl_all_true {α : Type} (f : GoMap Bool → α → GoMap Bool)
    (hf : ∀ m x, (∀ e ∈ m, e.2 = true) → ∀ e ∈ f m x, e.2 = true)
    (l : List α) (m : GoMap Bool) (h : ∀ e ∈ m, e.2 = true) :
    ∀ e ∈ l.foldl f m, e.2 = true := by
  induction l generalizing m with
  | nil => exact h
  | cons x l ih => exact ih (f m x) (hf m x h)

theorem imageUseMap_all_true (herd : Herd) : ∀ e ∈ imageUseMap herd, e.2 = true := by
  unfold imageUseMap
  refine foldl_all_true _ ?_ _ [] (by simp)
  intro m x h
  exact GoMap.set_all_true _ _ (GoMap.set_all_true _ _ h)

theorem cleanImages_of_all_true (useMap : GoMap Bool) (images : GoMap Nat)
    (h : ∀ e ∈ useMap, e.2 = true) : cleanImages useMap images = images := by
  unfold cleanImages
  induction useMap generalizing images with
  | nil => rfl
  | cons e m ih =>
    have he : e.2 = true := h e (List.mem_cons_self _ _)
    simp only [List.foldl_cons, he, Bool.not_true, Bool.false_eq_true, if_false]
    exact ih images (fun e' he' => h e' (List.mem_cons_of_mem _ he'))

theorem mdbUpdate_removes_no_image (getImageHaveLock : GoMap Nat → String → GoMap Nat)
    (herd : Herd) (machines : List Machine) :
    (mdbUpdateNoLogging getImageHaveLock herd machines).2.imagesByName =
      (machines.foldl (machineStep getImageHaveLock)
        ⟨{ herd with subsByIndex := [] }, markAll { herd with subsByIndex := [] }, 0⟩
        ).herd.imagesByName := by
  unfold mdbUpdateNoLogging
  simp only
  exact cleanImages_of_all_true _ _ (imageUseMap_all_true _)

/-- C18 fails on the code.  The herd holds the subs `a` and `c` and the image
`old`, which no sub requires or plans; after an update with an empty machine list
no sub remains and `old` is still in `imagesByName`, with the two other images:
`imageUseMap` only ever holds the value true, so the loop that is to clean up the
unreferenced images deletes nothing. -/
theorem mdbUpdate_keeps_unreferenced_image :
    (mdbUpdateNoLogging exampleGetImage exampleHerd []).2.subsByName = [] ∧
      exampleHerd.imagesByName.get "old" = some 3 ∧
      (mdbUpdateNoLogging exampleGetImage exampleHerd []).2.imagesByName.get "old" = some 3 ∧
      (mdbUpdateNoLogging exampleGetImage exampleHerd []).2.imagesByName =
        exampleHerd.imagesByName := by
  decide

theorem GoMap.get_isSome_iff {β : Type} (m : GoMap β) (k : String) :
    (m.get k).isSome ↔ k ∈ m.map Prod.fst := by
  constructor
  · intro h
    obtain ⟨v, hv⟩ := Option.isSome_iff_exists.1 h
    exact List.mem_map.2 ⟨(k, v), GoMap.mem_of_get m k v hv, rfl⟩
  · intro h
    obtain ⟨e, he, hk⟩ := List.mem_map.1 h
    unfold GoMap.get
    cases hf : m.find? (fun e => decide (e.1 = k)) with
    | some e' => simp
    | none =>
      rw [List.find?_eq_none] at hf
      exact absurd hk (by simpa using hf e he)

theorem GoMap.get_filter_key {β : Type} (m : GoMap β) (p : String → Bool) (k : String) :
    (GoMap.get (m.filter (fun e => p e.1)) k) = if p k then m.get k else none := by
  unfold GoMap.get
  induction m with
  | nil => simp
  | cons e m ih =>
    by_cases hp : p e.1 = true
    · simp only [List.filter_cons, hp, if_true]
      by_cases he : e.1 = k
      · rw [List.find?_cons_of_pos _ (by simpa using he),
          List.find?_cons_of_pos _ (by simpa using he)]
        rw [he] at hp
        simp [hp]
      · rw [List.find?_cons_of_neg _ (by simpa using he),
          List.find?_cons_of_neg _ (by simpa using he)]
        exact ih
    · have hp' : p e.1 = false := by simpa using hp
      simp only [List.filter_cons, hp', Bool.false_eq_true, if_false]
      by_cases he : e.1 = k
      · rw [List.find?_cons_of_pos _ (by simpa using he)]
        rw [he] at hp'
        rw [ih]
        simp [hp']
      · rw [List.find?_cons_of_neg _ (by simpa using he)]
        exact ih

theorem deleteFlagged_fold (std : GoMap Bool) (m : GoMap Nat) (n : Nat) :
    std.foldl (fun acc e => if e.2 then (GoMap.delete acc.1 e.1, acc.2 + 1) else acc) (m, n) =
      (m.filter (fun x => decide ((x.1, true) ∉ std)),
        n + (std.filter (fun e => e.2)).length) := by
  induction std generalizing m n with
  | nil => simp
  | cons e std ih =>
    rw [List.foldl_cons]
    cases e with
    | mk k b =>
      cases b with
      | true =>
        simp only [if_true]
        rw [ih]
        refine Prod.ext ?_ ?_
        · simp only [GoMap.delete, List.filter_filter]
          refine List.filter_congr ?_
          intro x _
          simp [List.mem_cons, not_or, Bool.and_comm]
        · simp [List.filter_cons]
          omega
      | false =>
        simp only [Bool.false_eq_true, if_false]
        rw [ih]
        refine Prod.ext ?_ ?_
        · refine List.filter_congr ?_
          intro x _
          simp [List.mem_cons]
        · simp [List.filter_cons]

theorem deleteFlagged_eq (std : GoMap Bool) (m : GoMap Nat) :
    deleteFlagged std m =
      (m.filter (fun x => decide ((x.1, true) ∉ std)), (std.filter (fun e => e.2)).length) := by
  unfold deleteFlagged
  rw [deleteFlagged_fold]
  simp

theorem getD_set_of_ne (subs : List Sub) (a b : Nat) (v : Sub) (h : a ≠ b) :
    (subs.set a v).getD b default = subs.getD b default := by
  rw [List.getD_eq_getElem?_getD, List.getD_eq_getElem?_getD, List.getElem?_set_ne h]

theorem getD_set_self (subs : List Sub) (a : Nat) (v : Sub) (h : a < subs.length) :
    (subs.set a v).getD a default = v := by
  rw [List.getD_eq_getElem?_getD, List.getElem?_set_self h]
  rfl

theorem getD_append_left (subs : List Sub) (x : Sub) (a : Nat) (h : a < subs.length) :
    (subs ++ [x]).getD a default = subs.getD a default := by
  rw [List.getD_eq_getElem?_getD, List.getD_eq_getElem?_getD, List.getElem?_append_left h]

theorem getD_append_length (subs : List Sub) (x : Sub) :
    (subs ++ [x]).getD subs.length default = x := by
  rw [List.getD_eq_getElem?_getD, List.getElem?_concat_length]
  rfl

theorem machineStep_some (g : GoMap Nat → String → GoMap Nat) (st : MachineLoop)
    (m : Machine) (a : Nat) (h : st.herd.subsByName.get m.Hostname = some a) :
    (machineStep g st m).herd.subs =
        st.herd.subs.set a { st.herd.sub a with
          requiredImage := m.RequiredImage, plannedImage := m.PlannedImage } ∧
      (machineStep g st m).herd.subsByName = st.herd.subsByName ∧
      (machineStep g st m).herd.subsByIndex = st.herd.subsByIndex ++ [a] ∧
      (machineStep g st m).subsToDelete = st.subsToDelete.set (st.herd.sub a).hostname false ∧
      (machineStep g st m).numNew = st.numNew := by
  simp [machineStep, h, Herd.sub]

theorem machineStep_none (g : GoMap Nat → String → GoMap Nat) (st : MachineLoop)
    (m : Machine) (h : st.herd.subsByName.get m.Hostname = none) :
    (machineStep g st m).herd.subs =
        (st.herd.subs ++ [(⟨m.Hostname, "", "", 0⟩ : Sub)]).set st.herd.subs.length
          (⟨m.Hostname, m.RequiredImage, m.PlannedImage, 0⟩ : Sub) ∧
      (machineStep g st m).herd.subsByName =
        st.herd.subsByName.set m.Hostname st.herd.subs.length ∧
      (machineStep g st m).herd.subsByIndex = st.herd.subsByIndex ++ [st.herd.subs.length] ∧
      (machineStep g st m).subsToDelete = st.subsToDelete.set m.Hostname false ∧
      (machineStep g st m).numNew = st.numNew + 1 := by
  simp [machineStep, h, Herd.sub, getD_append_length]

theorem GoMap.keys_set_nodup {β : Type} (m : GoMap β) (k : String) (v : β)
    (h : (m.map Prod.fst).Nodup) : ((m.set k v).map Prod.fst).Nodup := by
  unfold GoMap.set
  rw [List.map_cons, List.nodup_cons]
  constructor
  · intro hmem
    obtain ⟨e, he, hk⟩ := List.mem_map.1 hmem
    have := (List.mem_filter.1 he).2
    simp only [ne_eq, decide_not, Bool.not_eq_true', decide_eq_false_iff_not] at this
    exact this hk
  · exact List.Nodup.sublist (List.Sublist.map _ (List.filter_sublist _)) h

theorem GoMap.trueFlags_set_false (m : GoMap Bool) (k : String) :
    ((m.set k false).filter (fun e => e.2)).map Prod.fst =
      ((m.filter (fun e => e.2)).map Prod.fst).filter (fun x => decide (x ≠ k)) := by
  unfold GoMap.set
  rw [List.filter_cons_of_neg (by simp), List.filter_filter, List.filter_map, List.filter_filter]
  congr 1
  refine List.filter_congr ?_
  intro x _
  simp [Bool.and_comm]

theorem hostnames_concat (done : List Machine) (m : Machine) :
    hostnames (done ++ [m]) = hostnames done ++ [m.Hostname] := by
  simp [hostnames]

theorem mem_hostnames_concat (done : List Machine) (m : Machine) (k : String) :
    k ∈ hostnames (done ++ [m]) ↔ k ∈ hostnames done ∨ k = m.Hostname := by
  rw [hostnames_concat]
  simp

theorem MachineInv.flags_step {herd : Herd} {done : List Machine} {st : MachineLoop}
    (inv : MachineInv herd done st) (m : Machine) :
    (∀ k : String, (st.subsToDelete.set m.Hostname false).get k =
      if k ∈ hostnames (done ++ [m]) then some false
      else if (herd.subsByName.get k).isSome then some true else none) ∧
    ((st.subsToDelete.set m.Hostname false).map Prod.fst).Nodup ∧
    ((st.subsToDelete.set m.Hostname false).filter (fun e => e.2)).map Prod.fst =
      (herd.subsByName.map Prod.fst).reverse.filter
        (fun k => decide (k ∉ hostnames (done ++ [m]))) := by
  refine ⟨fun k => ?_, GoMap.keys_set_nodup _ _ _ inv.flagKeys, ?_⟩
  · rw [GoMap.get_set]
    by_cases hk : k = m.Hostname
    · subst hk
      have : m.Hostname ∈ hostnames (done ++ [m]) :=
        (mem_hostnames_concat done m m.Hostname).2 (Or.inr rfl)
      simp [this]
    · rw [inv.flags k]
      have : k ∈ hostnames (done ++ [m]) ↔ k ∈ hostnames done := by
        rw [mem_hostnames_concat]
        simp [hk]
      simp [hk, this]
  · rw [GoMap.trueFlags_set_false, inv.trueFlags, List.filter_filter]
    refine List.filter_congr ?_
    intro x _
    simp only [mem_hostnames_concat, not_or, ne_eq, decide_not, Bool.decide_and]
    rw [Bool.and_comm]

theorem MachineInv.step_some {herd : Herd} {done : List Machine} {st : MachineLoop}
    (inv : MachineInv herd done st) (g : GoMap Nat → String → GoMap Nat) (m : Machine)
    (a : Nat) (h : st.herd.subsByName.get m.Hostname = some a) :
    MachineInv herd (done ++ [m]) (machineStep g st m) := by
  obtain ⟨hs, hn, hi, hd, hc⟩ := machineStep_some g st m a h
  obtain ⟨halt, hhost⟩ := inv.stored _ _ h
  rw [hhost] at hd
  obtain ⟨hf1, hf2, hf3⟩ := inv.flags_step m
  have hsub_a : (machineStep g st m).herd.sub a =
      { st.herd.sub a with requiredImage := m.RequiredImage, plannedImage := m.PlannedImage } := by
    unfold Herd.sub
    rw [hs]
    exact getD_set_self _ _ _ halt
  have hsub_ne : ∀ b, b ≠ a → (machineStep g st m).herd.sub b = st.herd.sub b := by
    intro b hb
    unfold Herd.sub
    rw [hs]
    exact getD_set_of_ne _ _ _ _ (fun e => hb e.symm)
  have hsub_host : ∀ b, ((machineStep g st m).herd.sub b).hostname = (st.herd.sub b).hostname ∧
      ((machineStep g st m).herd.sub b).state = (st.herd.sub b).state := by
    intro b
    by_cases hb : b = a
    · subst hb
      rw [hsub_a]
      exact ⟨rfl, rfl⟩
    · rw [hsub_ne b hb]
      exact ⟨rfl, rfl⟩
  refine ⟨?_, ?_, ?_, ?_, ?_, ?_, ?_, ?_, ?_, ?_, ?_, ?_⟩
  · rw [hn]; exact inv.keys
  · intro k b hk
    rw [hn] at hk
    obtain ⟨h1, h2⟩ := inv.stored k b hk
    refine ⟨by rw [hs, List.length_set]; exact h1, ?_⟩
    rw [(hsub_host b).1]
    exact h2
  · rw [hn]; exact inv.old
  · intro k
    rw [hn, inv.known k, mem_hostnames_concat]
    constructor
    · rintro (h1 | h1)
      · exact Or.inl h1
      · exact Or.inr (Or.inl h1)
    · rintro (h1 | h1 | h1)
      · exact Or.inl h1
      · exact Or.inr h1
      · subst h1
        exact (inv.known m.Hostname).1 (by rw [h]; rfl)
  · rw [hs, hc, List.length_set]; exact inv.count
  · rw [hn]; exact inv.fresh
  · rw [hd]; exact hf1
  · rw [hd]; exact hf2
  · rw [hd]; exact hf3
  · rw [hi, hn, List.map_append, List.map_append, inv.index]
    simp [h]
  · intro b hb
    rw [(hsub_host b).1, (hsub_host b).2]
    exact inv.kept b hb
  · intro k b hk hmem
    rw [hn] at hk
    by_cases hb : b = a
    · subst hb
      have hk' : k = m.Hostname := by
        rw [← (inv.stored k b hk).2, hhost]
      refine ⟨m, by simp, hk'.symm, ?_, ?_⟩ <;> rw [hsub_a]
    · have hkne : k ≠ m.Hostname := by
        intro e
        rw [e, h] at hk
        exact hb (Option.some.inj hk).symm
      have hdone : k ∈ hostnames done := by
        rcases (mem_hostnames_concat done m k).1 hmem with h1 | h1
        · exact h1
        · exact absurd h1 hkne
      obtain ⟨m', hm', e1, e2, e3⟩ := inv.images k b hk hdone
      refine ⟨m', List.mem_append_left _ hm', e1, ?_, ?_⟩ <;> rw [hsub_ne b hb]
      · exact e2
      · exact e3

theorem MachineInv.step_none {herd : Herd} {done : List Machine} {st : MachineLoop}
    (inv : MachineInv herd done st) (g : GoMap Nat → String → GoMap Nat) (m : Machine)
    (h : st.herd.subsByName.get m.Hostname = none) :
    MachineInv herd (done ++ [m]) (machineStep g st m) := by
  obtain ⟨hs, hn, hi, hd, hc⟩ := machineStep_none g st m h
  obtain ⟨hf1, hf2, hf3⟩ := inv.flags_step m
  have hlen : (machineStep g st m).herd.subs.length = st.herd.subs.length + 1 := by
    rw [hs, List.length_set, List.length_append, List.length_singleton]
  have hsub_new : (machineStep g st m).herd.sub st.herd.subs.length =
      ⟨m.Hostname, m.RequiredImage, m.PlannedImage, 0⟩ := by
    unfold Herd.sub
    rw [hs]
    exact getD_set_self _ _ _ (by simp)
  have hsub_old : ∀ b, b < st.herd.subs.length →
      (machineStep g st m).herd.sub b = st.herd.sub b := by
    intro b hb
    unfold Herd.sub
    rw [hs, getD_set_of_ne _ _ _ _ (by omega), getD_append_left _ _ _ hb]
  have hget : ∀ k, (machineStep g st m).herd.subsByName.get k =
      if k = m.Hostname then some st.herd.subs.length else st.herd.subsByName.get k := by
    intro k
    rw [hn, GoMap.get_set]
  have hget_ne : ∀ k b, st.herd.subsByName.get k = some b → k ≠ m.Hostname := by
    intro k b hk e
    rw [e, h] at hk
    exact absurd hk (by simp)
  refine ⟨?_, ?_, ?_, ?_, ?_, ?_, ?_, ?_, ?_, ?_, ?_, ?_⟩
  · rw [hn]; exact GoMap.keys_set_nodup _ _ _ inv.keys
  · intro k b hk
    rw [hget] at hk
    by_cases hkm : k = m.Hostname
    · rw [if_pos hkm] at hk
      cases hk
      rw [hlen, hsub_new]
      exact ⟨by omega, hkm.symm⟩
    · rw [if_neg hkm] at hk
      obtain ⟨h1, h2⟩ := inv.stored k b hk
      rw [hlen, hsub_old b h1]
      exact ⟨by omega, h2⟩
  · intro k b hk
    have hk' := inv.old k b hk
    rw [hget, if_neg (hget_ne k b hk')]
    exact hk'
  · intro k
    rw [hget, mem_hostnames_concat]
    by_cases hkm : k = m.Hostname
    · simp [hkm]
    · rw [if_neg hkm, inv.known k]
      simp [hkm]
  · rw [hlen, hc, inv.count]; omega
  · intro k b hk0 hk
    rw [hget] at hk
    by_cases hkm : k = m.Hostname
    · rw [if_pos hkm] at hk
      cases hk
      have := inv.count
      omega
    · rw [if_neg hkm] at hk
      exact inv.fresh k b hk0 hk
  · rw [hd]; exact hf1
  · rw [hd]; exact hf2
  · rw [hd]; exact hf3
  · rw [hi, List.map_append, List.map_append, inv.index]
    have hm : (machineStep g st m).herd.subsByName.get m.Hostname = some st.herd.subs.length := by
      rw [hget, if_pos rfl]
    simp only [List.map_cons, List.map_nil, hm]
    congr 1
    refine List.map_congr_left ?_
    intro m' hm'
    have hsome : (st.herd.subsByName.get m'.Hostname).isSome :=
      (inv.known m'.Hostname).2 (Or.inr (List.mem_map.2 ⟨m', hm', rfl⟩))
    have hne : m'.Hostname ≠ m.Hostname := by
      intro e
      rw [e, h] at hsome
      exact absurd hsome (by simp)
    rw [hget, if_neg hne]
  · intro b hb
    have := inv.count
    rw [hsub_old b (by omega)]
    exact inv.kept b hb
  · intro k b hk hmem
    rw [hget] at hk
    by_cases hkm : k = m.Hostname
    · rw [if_pos hkm] at hk
      cases hk
      refine ⟨m, by simp, hkm.symm, ?_, ?_⟩ <;> rw [hsub_new]
    · rw [if_neg hkm] at hk
      have hdone : k ∈ hostnames done := by
        rcases (mem_hostnames_concat done m k).1 hmem with h1 | h1
        · exact h1
        · exact absurd h1 hkm
      obtain ⟨m', hm', e1, e2, e3⟩ := inv.images k b hk hdone
      refine ⟨m', List.mem_append_left _ hm', e1, ?_, ?_⟩ <;>
        rw [hsub_old b (inv.stored k b hk).1]
      · exact e2
      · exact e3

theorem MachineInv.foldl {herd : Herd} (g : GoMap Nat → String → GoMap Nat)
    (machines : List Machine) :
    ∀ (done : List Machine) (st : MachineLoop), MachineInv herd done st →
      MachineInv herd (done ++ machines) (machines.foldl (machineStep g) st) := by
  induction machines with
  | nil =>
    intro done st inv
    simpa using inv
  | cons m ms ih =>
    intro done st inv
    have hstep : MachineInv herd (done ++ [m]) (machineStep g st m) := by
      cases h : st.herd.subsByName.get m.Hostname with
      | some a => exact inv.step_some g m a h
      | none => exact inv.step_none g m h
    have := ih (done ++ [m]) (machineStep g st m) hstep
    simpa using this

theorem markAll_fold (subs : List Sub) (l : List (String × Nat)) (acc : GoMap Bool)
    (hhost : ∀ e ∈ l, (subs.getD e.2 default).hostname = e.1)
    (hnodup : (l.map Prod.fst).Nodup)
    (hdisj : ∀ e ∈ l, e.1 ∉ acc.map Prod.fst) :
    l.foldl (fun m e => GoMap.set m (subs.getD e.2 default).hostname true) acc =
      (l.map (fun e => (e.1, true))).reverse ++ acc := by
  induction l generalizing acc with
  | nil => simp
  | cons e l ih =>
    rw [List.map_cons, List.nodup_cons] at hnodup
    have he : (subs.getD e.2 default).hostname = e.1 := hhost e (List.mem_cons_self _ _)
    have hacc : GoMap.set acc e.1 true = (e.1, true) :: acc := by
      unfold GoMap.set
      congr 1
      rw [List.filter_eq_self]
      intro x hx
      have : x.1 ≠ e.1 := by
        intro e'
        exact hdisj e (List.mem_cons_self _ _) (e' ▸ List.mem_map.2 ⟨x, hx, rfl⟩)
      simpa using this
    rw [List.foldl_cons, he, hacc,
      ih ((e.1, true) :: acc) (fun x hx => hhost x (List.mem_cons_of_mem _ hx)) hnodup.2]
    · simp
    · intro x hx hmem
      rw [List.map_cons, List.mem_cons] at hmem
      rcases hmem with h1 | h1
      · exact hnodup.1 (h1 ▸ List.mem_map.2 ⟨x, hx, rfl⟩)
      · exact hdisj x (List.mem_cons_of_mem _ hx) h1

theorem markAll_eq (herd : Herd) (hwf : herd.wf) :
    markAll { herd with subsByIndex := [] } =
      (herd.subsByName.map (fun e => (e.1, true))).reverse := by
  unfold markAll Herd.sub
  have := markAll_fold herd.subs herd.subsByName []
    (fun e he => (hwf.stored e.1 e.2 (GoMap.get_of_mem _ hwf.keys e.1 e.2 he)).2)
    hwf.keys (fun _ _ h => by simp at h)
  simpa using this

theorem MachineInv.start (herd : Herd) (hwf : herd.wf) :
    MachineInv herd []
      ⟨{ herd with subsByIndex := [] }, markAll { herd with subsByIndex := [] }, 0⟩ := by
  have hkeys : ((herd.subsByName.map (fun e => (e.1, true))).reverse.map Prod.fst) =
      (herd.subsByName.map Prod.fst).reverse := by
    rw [List.map_reverse, List.map_map]
    rfl
  refine ⟨hwf.keys, hwf.stored, fun _ _ h => h, ?_, rfl, ?_, ?_, ?_, ?_, rfl,
    fun _ _ => ⟨rfl, rfl⟩, ?_⟩
  · intro k
    simp [hostnames]
  · intro k a h0 h1
    exact absurd (h0 ▸ h1 : (none : Option Nat) = some a) (by simp)
  · intro k
    rw [markAll_eq herd hwf]
    simp only [hostnames, List.map_nil, List.not_mem_nil, if_false]
    by_cases hk : (herd.subsByName.get k).isSome
    · rw [if_pos hk]
      refine GoMap.get_of_mem _ (by rw [hkeys]; exact List.nodup_reverse.2 hwf.keys) k true ?_
      obtain ⟨e, he, hek⟩ := List.mem_map.1 ((GoMap.get_isSome_iff _ k).1 hk)
      rw [List.mem_reverse]
      exact List.mem_map.2 ⟨e, he, by rw [hek]⟩
    · rw [if_neg hk]
      cases hg : GoMap.get (herd.subsByName.map (fun e => (e.1, true))).reverse k with
      | none => rfl
      | some b =>
        exfalso
        apply hk
        rw [GoMap.get_isSome_iff]
        have hmem := GoMap.mem_of_get _ k b hg
        rw [List.mem_reverse] at hmem
        obtain ⟨e, he, hek⟩ := List.mem_map.1 hmem
        exact List.mem_map.2 ⟨e, he, (Prod.mk.inj hek).1⟩
  · rw [markAll_eq herd hwf, hkeys]
    exact List.nodup_reverse.2 hwf.keys
  · rw [markAll_eq herd hwf]
    have hall : (herd.subsByName.map (fun e => (e.1, true))).reverse.filter (fun e => e.2) =
        (herd.subsByName.map (fun e => (e.1, true))).reverse := by
      rw [List.filter_eq_self]
      intro x hx
      rw [List.mem_reverse] at hx
      obtain ⟨e, _, hek⟩ := List.mem_map.1 hx
      rw [← hek]
    rw [hall, hkeys]
    symm
    rw [List.filter_eq_self]
    intro x _
    simp [hostnames]
  · intro k a _ hm
    simp [hostnames] at hm

theorem afterMachines_inv (g : GoMap Nat → String → GoMap Nat) (herd : Herd)
    (machines : List Machine) (hwf : herd.wf) :
    MachineInv herd machines (afterMachines g herd machines) := by
  have := MachineInv.foldl g machines [] _ (MachineInv.start herd hwf)
  simpa [afterMachines] using this

theorem mdbUpdate_parts (g : GoMap Nat → String → GoMap Nat) (herd : Herd)
    (machines : List Machine) :
    (mdbUpdateNoLogging g herd machines).2.subs = (afterMachines g herd machines).herd.subs ∧
      (mdbUpdateNoLogging g herd machines).2.subsByIndex =
        (afterMachines g herd machines).herd.subsByIndex ∧
      (mdbUpdateNoLogging g herd machines).2.subsByName =
        (afterMachines g herd machines).herd.subsByName.filter
          (fun x => decide ((x.1, true) ∉ (afterMachines g herd machines).subsToDelete)) ∧
      (mdbUpdateNoLogging g herd machines).1 =
        ((afterMachines g herd machines).numNew,
          ((afterMachines g herd machines).subsToDelete.filter (fun e => e.2)).length) := by
  unfold mdbUpdateNoLogging
  simp only [deleteFlagged_eq]
  exact ⟨rfl, rfl, rfl, rfl⟩

theorem mdbUpdate_sub (g : GoMap Nat → String → GoMap Nat) (herd : Herd)
    (machines : List Machine) (a : Nat) :
    (mdbUpdateNoLogging g herd machines).2.sub a = (afterMachines g herd machines).herd.sub a := by
  unfold Herd.sub
  rw [(mdbUpdate_parts g herd machines).1]

theorem mdbUpdate_get (g : GoMap Nat → String → GoMap Nat) (herd : Herd)
    (machines : List Machine) (hwf : herd.wf) (k : String) :
    (mdbUpdateNoLogging g herd machines).2.subsByName.get k =
      if k ∈ hostnames machines then (afterMachines g herd machines).herd.subsByName.get k
      else none := by
  have inv := afterMachines_inv g herd machines hwf
  rw [(mdbUpdate_parts g herd machines).2.2.1]
  rw [GoMap.get_filter_key _
    (fun k => decide ((k, true) ∉ (afterMachines g herd machines).subsToDelete)) k]
  have hflag : (k, true) ∈ (afterMachines g herd machines).subsToDelete ↔
      (afterMachines g herd machines).subsToDelete.get k = some true :=
    ⟨GoMap.get_of_mem _ inv.flagKeys k true, GoMap.mem_of_get _ k true⟩
  by_cases hk : k ∈ hostnames machines
  · have : ¬ (k, true) ∈ (afterMachines g herd machines).subsToDelete := by
      rw [hflag, inv.flags k, if_pos hk]
      simp
    simp [hk, this]
  · rw [if_neg hk]
    by_cases h0 : (herd.subsByName.get k).isSome
    · have : (k, true) ∈ (afterMachines g herd machines).subsToDelete := by
        rw [hflag, inv.flags k, if_neg hk, if_pos h0]
      simp [this]
    · have hnone : (afterMachines g herd machines).herd.subsByName.get k = none := by
        have := (inv.known k).not.2 (by simp [h0, hk])
        simpa using this
      simp [hnone]

theorem charsLt_irrefl (a : List Char) : charsLt a a = false := by
  induction a with
  | nil => rfl
  | cons c cs ih => simp [charsLt, ih]

theorem charsLt_trans (a b c : List Char) (hab : charsLt a b = true)
    (hbc : charsLt b c = true) : charsLt a c = true := by
  induction a generalizing b c with
  | nil =>
    cases b with
    | nil => simp [charsLt] at hab
    | cons y ys =>
      cases c with
      | nil => simp [charsLt] at hbc
      | cons z zs => simp [charsLt]
  | cons x xs ih =>
    cases b with
    | nil => simp [charsLt] at hab
    | cons y ys =>
      cases c with
      | nil => simp [charsLt] at hbc
      | cons z zs =>
        simp only [charsLt, Bool.or_eq_true, decide_eq_true_eq, Bool.and_eq_true] at hab hbc ⊢
        rcases hab with h1 | ⟨h1, h1'⟩ <;> rcases hbc with h2 | ⟨h2, h2'⟩
        · exact Or.inl (by omega)
        · exact Or.inl (by omega)
        · exact Or.inl (by omega)
        · exact Or.inr ⟨by omega, ih ys zs h1' h2'⟩

theorem charsLt_trichotomy (a b : List Char) :
    charsLt a b = true ∨ a = b ∨ charsLt b a = true := by
  induction a generalizing b with
  | nil =>
    cases b with
    | nil => exact Or.inr (Or.inl rfl)
    | cons y ys => exact Or.inl (by simp [charsLt])
  | cons x xs ih =>
    cases b with
    | nil => exact Or.inr (Or.inr (by simp [charsLt]))
    | cons y ys =>
      simp only [charsLt, Bool.or_eq_true, decide_eq_true_eq, Bool.and_eq_true]
      rcases Nat.lt_trichotomy x.toNat y.toNat with h | h | h
      · exact Or.inl (Or.inl h)
      · have hxy : x = y := Char.ext (UInt32.ext h)
        subst hxy
        rcases ih ys with h' | h' | h'
        · exact Or.inl (Or.inr ⟨rfl, h'⟩)
        · exact Or.inr (Or.inl (by rw [h']))
        · exact Or.inr (Or.inr (Or.inr ⟨rfl, h'⟩))
      · exact Or.inr (Or.inr (Or.inl h))

theorem charsLt_asymm (a b : List Char) (hab : charsLt a b = true) : charsLt b a = false := by
  cases h : charsLt b a with
  | false => rfl
  | true =>
    have := charsLt_trans a b a hab h
    rw [charsLt_irrefl] at this
    exact absurd this (by simp)

/-- C19. The sub lifecycle follows the machine database: after
`mdbUpdateNoLogging` on a herd whose subs are stored under their hostnames, the
keys of `subsByName` are exactly the hostnames listed; a hostname not known
before has a new `Sub` record with that hostname; a hostname known before has the
record it had, with hostname and other state as they were; every listed sub has
the required and planned image of a machine of its hostname; a hostname not
listed has no entry; and the pair returned is the number of records created and
the number of earlier subs no longer listed. -/
theorem mdbUpdate_lifecycle (g : GoMap Nat → String → GoMap Nat) (herd : Herd)
    (machines : List Machine) (hwf : herd.wf) :
    (∀ k : String, ((mdbUpdateNoLogging g herd machines).2.subsByName.get k).isSome ↔
        k ∈ hostnames machines) ∧
      (∀ k : String, k ∈ hostnames machines → herd.subsByName.get k = none →
        ∃ a, (mdbUpdateNoLogging g herd machines).2.subsByName.get k = some a ∧
          herd.subs.length ≤ a ∧ a < (mdbUpdateNoLogging g herd machines).2.subs.length ∧
          ((mdbUpdateNoLogging g herd machines).2.sub a).hostname = k) ∧
      (∀ (k : String) (a : Nat), herd.subsByName.get k = some a → k ∈ hostnames machines →
        (mdbUpdateNoLogging g herd machines).2.subsByName.get k = some a ∧
          ((mdbUpdateNoLogging g herd machines).2.sub a).hostname = (herd.sub a).hostname ∧
          ((mdbUpdateNoLogging g herd machines).2.sub a).state = (herd.sub a).state) ∧
      (∀ (k : String) (a : Nat),
        (mdbUpdateNoLogging g herd machines).2.subsByName.get k = some a →
        ∃ m ∈ machines, m.Hostname = k ∧
          ((mdbUpdateNoLogging g herd machines).2.sub a).requiredImage = m.RequiredImage ∧
          ((mdbUpdateNoLogging g herd machines).2.sub a).plannedImage = m.PlannedImage) ∧
      (∀ k : String, k ∉ hostnames machines →
        (mdbUpdateNoLogging g herd machines).2.subsByName.get k = none) ∧
      (mdbUpdateNoLogging g herd machines).2.subs.length =
        herd.subs.length + (mdbUpdateNoLogging g herd machines).1.1 ∧
      (mdbUpdateNoLogging g herd machines).1.2 =
        (herd.subsByName.filter (fun e => decide (e.1 ∉ hostnames machines))).length := by
  have inv := afterMachines_inv g herd machines hwf
  obtain ⟨hsubs, -, -, hret⟩ := mdbUpdate_parts g herd machines
  have hget := mdbUpdate_get g herd machines hwf
  refine ⟨?_, ?_, ?_, ?_, ?_, ?_, ?_⟩
  · intro k
    rw [hget k]
    by_cases hk : k ∈ hostnames machines
    · rw [if_pos hk, inv.known k]
      simp [hk]
    · simp [hk]
  · intro k hk h0
    have hsome : ((afterMachines g herd machines).herd.subsByName.get k).isSome :=
      (inv.known k).2 (Or.inr hk)
    obtain ⟨a, ha⟩ := Option.isSome_iff_exists.1 hsome
    refine ⟨a, by rw [hget k, if_pos hk]; exact ha, inv.fresh k a h0 ha, ?_, ?_⟩
    · rw [hsubs]
      exact (inv.stored k a ha).1
    · rw [mdbUpdate_sub]
      exact (inv.stored k a ha).2
  · intro k a h0 hk
    refine ⟨by rw [hget k, if_pos hk]; exact inv.old k a h0, ?_, ?_⟩
    · rw [mdbUpdate_sub]
      exact (inv.kept a (hwf.stored k a h0).1).1
    · rw [mdbUpdate_sub]
      exact (inv.kept a (hwf.stored k a h0).1).2
  · intro k a hk
    rw [hget k] at hk
    by_cases hmem : k ∈ hostnames machines
    · rw [if_pos hmem] at hk
      obtain ⟨m, hm, e1, e2, e3⟩ := inv.images k a hk hmem
      exact ⟨m, hm, e1, by rw [mdbUpdate_sub]; exact e2, by rw [mdbUpdate_sub]; exact e3⟩
    · rw [if_neg hmem] at hk
      exact absurd hk (by simp)
  · intro k hk
    rw [hget k, if_neg hk]
  · rw [hsubs, hret]
    exact inv.count
  · rw [hret]
    simp only
    rw [← List.length_map (List.filter (fun e => e.2) (afterMachines g herd machines).subsToDelete)
      Prod.fst, inv.trueFlags, List.filter_reverse, List.length_reverse, List.filter_map,
      List.length_map]
    rfl

theorem exampleHerd_wf : exampleHerd.wf := by
  refine ⟨by decide, ?_⟩
  intro k a h
  have hmem := GoMap.mem_of_get _ k a h
  simp only [exampleHerd, List.mem_cons, Prod.mk.injEq, List.mem_nil_iff, or_false] at hmem
  rcases hmem with ⟨rfl, rfl⟩ | ⟨rfl, rfl⟩ <;> exact ⟨by decide, by decide⟩

/-- Witness for C19: the herd with the subs `a` and `c` is updated with the
machines `a` and `b`; afterwards `b` is known and `c` is not. -/
theorem mdbUpdate_lifecycle_witness :
    ((mdbUpdateNoLogging exampleGetImage exampleHerd exampleMachines).2.subsByName.get
        "b").isSome ∧
      (mdbUpdateNoLogging exampleGetImage exampleHerd exampleMachines).2.subsByName.get "c" =
        none ∧
      (mdbUpdateNoLogging exampleGetImage exampleHerd exampleMachines).1 = (1, 1) :=
  ⟨((mdbUpdate_lifecycle exampleGetImage exampleHerd exampleMachines exampleHerd_wf).1
      "b").2 (by decide),
    (mdbUpdate_lifecycle exampleGetImage exampleHerd exampleMachines
      exampleHerd_wf).2.2.2.2.1 "c" (by decide),
    by decide⟩

/-- C20. The list of subs follows the machine list: after `mdbUpdateNoLogging` on a
herd whose subs are stored under their hostnames, with a machine list in strictly
increasing order of hostname, `subsByIndex` has the length of the machine list,
its i-th element is the pointer kept in `subsByName` under the hostname of the i-th
machine, the hostnames of its elements are those of the machines in the same
order, hence strictly increasing, and every sub of `subsByName` occurs in it
exactly once. -/
theorem mdbUpdate_subsByIndex (g : GoMap Nat → String → GoMap Nat) (herd : Herd)
    (machines : List Machine) (hwf : herd.wf)
    (hsorted : (hostnames machines).Pairwise (fun x y => charsLt x.data y.data = true)) :
    (mdbUpdateNoLogging g herd machines).2.subsByIndex.length = machines.length ∧
      (mdbUpdateNoLogging g herd machines).2.subsByIndex.map some =
        machines.map
          (fun m => (mdbUpdateNoLogging g herd machines).2.subsByName.get m.Hostname) ∧
      (mdbUpdateNoLogging g herd machines).2.subsByIndex.map
          (fun a => ((mdbUpdateNoLogging g herd machines).2.sub a).hostname) =
        hostnames machines ∧
      ((mdbUpdateNoLogging g herd machines).2.subsByIndex.map
          (fun a => ((mdbUpdateNoLogging g herd machines).2.sub a).hostname)).Pairwise
        (fun x y => charsLt x.data y.data = true) ∧
      (∀ (k : String) (a : Nat),
        (mdbUpdateNoLogging g herd machines).2.subsByName.get k = some a →
          (mdbUpdateNoLogging g herd machines).2.subsByIndex.count a = 1) := by
  have inv := afterMachines_inv g herd machines hwf
  obtain ⟨-, hidx, -, -⟩ := mdbUpdate_parts g herd machines
  have hget := mdbUpdate_get g herd machines hwf
  have hmap : (mdbUpdateNoLogging g herd machines).2.subsByIndex.map some =
      machines.map
        (fun m => (mdbUpdateNoLogging g herd machines).2.subsByName.get m.Hostname) := by
    rw [hidx, inv.index]
    refine List.map_congr_left ?_
    intro m hm
    have hmem : m.Hostname ∈ hostnames machines := List.mem_map.2 ⟨m, hm, rfl⟩
    rw [hget m.Hostname, if_pos hmem]
  have hlen : (mdbUpdateNoLogging g herd machines).2.subsByIndex.length = machines.length := by
    have := congrArg List.length hmap
    simpa using this
  have hstored : ∀ (k : String) (a : Nat),
      (mdbUpdateNoLogging g herd machines).2.subsByName.get k = some a →
        ((mdbUpdateNoLogging g herd machines).2.sub a).hostname = k := by
    intro k a hk
    rw [hget k] at hk
    by_cases hmem : k ∈ hostnames machines
    · rw [if_pos hmem] at hk
      rw [mdbUpdate_sub]
      exact (inv.stored k a hk).2
    · rw [if_neg hmem] at hk
      exact absurd hk (by simp)
  have hnames : (mdbUpdateNoLogging g herd machines).2.subsByIndex.map
      (fun a => ((mdbUpdateNoLogging g herd machines).2.sub a).hostname) =
        hostnames machines := by
    refine List.ext_getElem? ?_
    intro i
    have hi := congrArg (fun l => l[i]?) hmap
    simp only [List.getElem?_map] at hi
    simp only [hostnames, List.getElem?_map]
    cases hm : machines[i]? with
    | none =>
      rw [hm] at hi
      cases hs : (mdbUpdateNoLogging g herd machines).2.subsByIndex[i]? with
      | none => rfl
      | some a => rw [hs] at hi; simp at hi
    | some m =>
      rw [hm] at hi
      cases hs : (mdbUpdateNoLogging g herd machines).2.subsByIndex[i]? with
      | none => rw [hs] at hi; simp at hi
      | some a =>
        rw [hs] at hi
        simp only [Option.map_some'] at hi ⊢
        rw [hstored m.Hostname a (Option.some.inj hi).symm]
  refine ⟨hlen, hmap, hnames, by rw [hnames]; exact hsorted, ?_⟩
  intro k a hk
  have hnodup : (mdbUpdateNoLogging g herd machines).2.subsByIndex.Nodup := by
    refine List.Nodup.of_map
      (fun a => ((mdbUpdateNoLogging g herd machines).2.sub a).hostname) ?_
    rw [hnames]
    refine List.Pairwise.imp ?_ hsorted
    intro x y hxy e
    rw [e, charsLt_irrefl] at hxy
    exact absurd hxy (by simp)
  have hmem : a ∈ (mdbUpdateNoLogging g herd machines).2.subsByIndex := by
    have hkm : k ∈ hostnames machines := by
      by_contra hnot
      rw [hget k, if_neg hnot] at hk
      exact absurd hk (by simp)
    obtain ⟨m, hm, hmk⟩ := List.mem_map.1 hkm
    have : some a ∈ (mdbUpdateNoLogging g herd machines).2.subsByIndex.map some := by
      rw [hmap]
      exact List.mem_map.2 ⟨m, hm, by rw [hmk]; exact hk⟩
    obtain ⟨b, hb, hba⟩ := List.mem_map.1 this
    cases hba
    exact hb
  exact List.count_eq_one_of_mem hnodup hmem

/-- Witness for C20: the machines `a` and `b`, in this order. -/
theorem mdbUpdate_subsByIndex_witness :
    (mdbUpdateNoLogging exampleGetImage exampleHerd exampleMachines).2.subsByIndex.length =
        exampleMachines.length ∧
      (mdbUpdateNoLogging exampleGetImage exampleHerd exampleMachines).2.subsByIndex.map
          (fun a => ((mdbUpdateNoLogging exampleGetImage exampleHerd exampleMachines).2.sub
            a).hostname) = hostnames exampleMachines :=
  ⟨(mdbUpdate_subsByIndex exampleGetImage exampleHerd exampleMachines exampleHerd_wf
      (by decide)).1,
    (mdbUpdate_subsByIndex exampleGetImage exampleHerd exampleMachines exampleHerd_wf
      (by decide)).2.2.1⟩

/-! ### The scanner: sorting makes the scan independent of the listing order -/

theorem insertName_perm (x : String) (l : List String) : (insertName x l).Perm (x :: l) := by
  induction l with
  | nil => exact List.Perm.refl _
  | cons y ys ih =>
    unfold insertName
    split
    · exact List.Perm.refl _
    · exact (List.Perm.cons y ih).trans (List.Perm.swap x y ys)

theorem sortStrings_perm (l : List String) : (sortStrings l).Perm l := by
  induction l with
  | nil => exact List.Perm.refl _
  | cons x xs ih =>
    have : sortStrings (x :: xs) = insertName x (sortStrings xs) := rfl
    rw [this]
    exact (insertName_perm x _).trans (List.Perm.cons x ih)

theorem nameLe_of_nameLt {a b : String} (h : nameLt a b) : nameLe a b :=
  charsLt_asymm _ _ h

theorem nameLe_trans {a b c : String} (hab : nameLe a b) (hbc : nameLe b c) : nameLe a c := by
  unfold nameLe at *
  cases h : charsLt c.data a.data with
  | false => rfl
  | true =>
    exfalso
    rcases charsLt_trichotomy a.data b.data with h1 | h1 | h1
    · have := charsLt_trans _ _ _ h h1
      rw [hbc] at this
      exact absurd this (by simp)
    · rw [h1] at h
      rw [hbc] at h
      exact absurd h (by simp)
    · rw [hab] at h1
      exact absurd h1 (by simp)

theorem nameLe_antisymm {a b : String} (hab : nameLe a b) (hba : nameLe b a) : a = b := by
  unfold nameLe at *
  rcases charsLt_trichotomy a.data b.data with h1 | h1 | h1
  · rw [hba] at h1
    exact absurd h1 (by simp)
  · exact String.ext h1
  · rw [hab] at h1
    exact absurd h1 (by simp)

theorem insertName_sorted (x : String) (l : List String) (h : l.Pairwise nameLe) :
    (insertName x l).Pairwise nameLe := by
  induction l with
  | nil => exact List.pairwise_singleton _ _
  | cons y ys ih =>
    rw [List.pairwise_cons] at h
    unfold insertName
    split
    · next hlt =>
      have hxy : nameLe x y := nameLe_of_nameLt hlt
      refine List.pairwise_cons.2 ⟨?_, List.pairwise_cons.2 h⟩
      intro z hz
      rcases List.mem_cons.1 hz with rfl | hz'
      · exact hxy
      · exact nameLe_trans hxy (h.1 z hz')
    · next hnlt =>
      have hyx : nameLe y x := by
        unfold nameLe
        simpa using hnlt
      refine List.pairwise_cons.2 ⟨?_, ih h.2⟩
      intro z hz
      rcases List.mem_cons.1 ((insertName_perm x ys).mem_iff.1 hz) with rfl | hz'
      · exact hyx
      · exact h.1 z hz'

theorem sortStrings_sorted (l : List String) : (sortStrings l).Pairwise nameLe := by
  induction l with
  | nil => exact List.Pairwise.nil
  | cons x xs ih => exact insertName_sorted x _ ih

theorem sortStrings_of_perm {l1 l2 : List String} (h : l1.Perm l2) :
    sortStrings l1 = sortStrings l2 := by
  refine List.Perm.eq_of_sorted (fun a b _ _ hab hba => nameLe_antisymm hab hba)
    (sortStrings_sorted l1) (sortStrings_sorted l2) ?_
  exact (sortStrings_perm l1).trans (h.trans (sortStrings_perm l2).symm)

theorem sortStrings_strict (l : List String) (h : l.Nodup) :
    (sortStrings l).Pairwise nameLt := by
  have hnd : (sortStrings l).Nodup := (sortStrings_perm l).nodup_iff.2 h
  have := List.Pairwise.and (sortStrings_sorted l) hnd
  refine List.Pairwise.imp ?_ this
  intro a b hab
  obtain ⟨hle, hne⟩ := hab
  unfold nameLe at hle
  unfold nameLt
  rcases charsLt_trichotomy a.data b.data with h1 | h1 | h1
  · exact h1
  · exact absurd (String.ext h1) hne
  · rw [hle] at h1
    exact absurd h1 (by simp)

theorem File.scan_listing (sys : Sys) (rd : String → Except Nat (List String))
    (file : File) (fs : FileSystem) (parentName : String) :
    File.scan { sys with Readdirnames := rd } file fs parentName =
      File.scan sys file fs parentName := rfl

theorem scanNames_listing (sys : Sys) (rd : String → Except Nat (List String))
    (scanDir : Directory → FileSystem → String → ScanResult) (myPathName : String)
    (names : List String) :
    ∀ directory fs,
      scanNames { sys with Readdirnames := rd } scanDir myPathName names directory fs =
        scanNames sys scanDir myPathName names directory fs := by
  induction names with
  | nil => intro directory fs; rfl
  | cons name names ih =>
    intro directory fs
    rw [scanNames, scanNames]
    simp only [ih, File.scan_listing]

/-- C12. Scan determinism: when the listings of two file systems agree for every
path up to the order of the names (and the file systems agree in everything
else), `Directory.scan` gives the same result on both: the same outcome, the same
directory tree and file lists, the same inode table and records, and the same
sequence of steps. -/
theorem scan_independent_of_listing_order (sys : Sys)
    (rd : String → Except Nat (List String))
    (hperm : ∀ p, sameListing (sys.Readdirnames p) (rd p))
    (fuel : Nat) (directory : Directory) (fs : FileSystem) (parentName : String) :
    Directory.scan { sys with Readdirnames := rd } fuel directory fs parentName =
      Directory.scan sys fuel directory fs parentName := by
  induction fuel generalizing directory fs parentName with
  | zero => rfl
  | succ fuel ih =>
    have hfun : Directory.scan { sys with Readdirnames := rd } fuel =
        Directory.scan sys fuel := by
      funext d f p
      exact ih d f p
    rw [Directory.scan, Directory.scan]
    simp only
    cases hO : sys.Open (sys.join parentName directory.Name) with
    | some e => rfl
    | none =>
      have h := hperm (sys.join parentName directory.Name)
      cases h1 : sys.Readdirnames (sys.join parentName directory.Name) with
      | error e =>
        cases h2 : rd (sys.join parentName directory.Name) with
        | error e' =>
          rw [h1, h2] at h
          simp only [sameListing] at h
          subst h
          rfl
        | ok names' =>
          rw [h1, h2] at h
          exact absurd h (by simp [sameListing])
      | ok names =>
        cases h2 : rd (sys.join parentName directory.Name) with
        | error e' =>
          rw [h1, h2] at h
          exact absurd h (by simp [sameListing])
        | ok names' =>
          rw [h1, h2] at h
          simp only [sameListing] at h
          simp only [hfun, scanNames_listing, sortStrings_of_perm h]

/-- Witness for C12: the listing of the root directory of `hardlinkedSys` in the
other order. -/
theorem scan_independent_of_listing_order_witness :
    Directory.scan { hardlinkedSys with
        Readdirnames := fun p => if p = "/" then .ok ["x", "y"] else .ok [] }
        5 rootDirectory rootFileSystem "" =
      Directory.scan hardlinkedSys 5 rootDirectory rootFileSystem "" :=
  scan_independent_of_listing_order hardlinkedSys
    (fun p => if p = "/" then .ok ["x", "y"] else .ok [])
    (by
      intro p
      by_cases h : p = "/"
      · simp only [hardlinkedSys, h, if_true, sameListing]
        decide
      · simp only [hardlinkedSys, h, if_false, sameListing]
        exact List.Perm.refl _)
    5 rootDirectory rootFileSystem ""

/-! ### The scanner: the passes of the loop -/

theorem scanNames_run (sys : Sys) (scanDir : Directory → FileSystem → String → ScanResult)
    (myPathName : String) (names : List String) :
    ∀ directory fs,
      LoopRun sys scanDir myPathName names directory fs
        (scanNames sys scanDir myPathName names directory fs) := by
  induction names with
  | nil =>
    intro directory fs
    exact LoopRun.done directory fs
  | cons name names ih =>
    intro directory fs
    rw [scanNames]
    cases hL : sys.Lstat (sys.join myPathName name) with
    | error e =>
      simp only
      split
      · next he => subst he; exact LoopRun.lstatSkip _ _ _ _ _ hL (ih directory fs)
      · next he => exact LoopRun.lstatFail _ _ _ _ _ hL he
    | ok stat =>
      simp only
      cases hd : (fs.getInode stat).2.inodes[directory.Inode]? with
      | none => exact LoopRun.nilInode _ _ _ _ _ hL hd
      | some dirInode =>
        simp only
        by_cases hdev : stat.Dev = dirInode.Stat.Dev
        · simp only [hdev, if_true]
          by_cases hmode : stat.Mode &&& S_IFMT = S_IFDIR
          · simp only [hmode, if_true]
            cases hnew : (fs.getInode stat).1.2 with
            | false =>
              simp only [Bool.not_false, if_true]
              have := @LoopRun.hardlink sys scanDir myPathName name names directory fs stat
                dirInode hL hd hdev hmode hnew
              exact this
            | true =>
              simp only [Bool.not_true, Bool.false_eq_true, if_false]
              cases hso : (scanDir (.mk name (fs.getInode stat).1.1 [] []) (fs.getInode stat).2
                  myPathName).outcome with
              | ok =>
                simp only
                exact LoopRun.subdirOk _ _ _ _ _ dirInode _ hL hd hdev hmode hnew hso (ih _ _)
              | error err =>
                simp only
                have := @LoopRun.subdirFail sys scanDir myPathName name names directory fs stat
                  dirInode hL hd hdev hmode hnew (by rw [hso]; simp)
                rw [hso] at this
                exact this
              | panic =>
                simp only
                have := @LoopRun.subdirFail sys scanDir myPathName name names directory fs stat
                  dirInode hL hd hdev hmode hnew (by rw [hso]; simp)
                rw [hso] at this
                exact this
              | outOfFuel =>
                simp only
                have := @LoopRun.subdirFail sys scanDir myPathName name names directory fs stat
                  dirInode hL hd hdev hmode hnew (by rw [hso]; simp)
                rw [hso] at this
                exact this
          · simp only [hmode, if_false]
            cases hnew : (fs.getInode stat).1.2 with
            | false =>
              simp only [Bool.false_eq_true, if_false]
              exact LoopRun.fileOld _ _ _ _ _ dirInode _ hL hd hdev hmode hnew (ih _ _)
            | true =>
              simp only [if_true]
              rcases hfs : File.scan sys ⟨name, (fs.getInode stat).1.1⟩ (fs.getInode stat).2
                myPathName with ⟨o, fs2⟩
              cases o with
              | ok =>
                simp only
                exact LoopRun.fileOk _ _ _ _ _ dirInode fs2 _ hL hd hdev hmode hnew hfs (ih _ _)
              | error err =>
                simp only
                split
                · next he =>
                  subst he
                  exact LoopRun.fileSkip _ _ _ _ _ dirInode fs2 _ hL hd hdev hmode hnew hfs
                    (ih _ _)
                · next he =>
                  exact LoopRun.fileFail _ _ _ _ _ dirInode fs2 _ hL hd hdev hmode hnew hfs
                    (by simp) (by simpa using he)
              | panic =>
                exact LoopRun.fileFail _ _ _ _ _ dirInode fs2 _ hL hd hdev hmode hnew hfs
                  (by simp) (by simp)
              | outOfFuel =>
                exact LoopRun.fileFail _ _ _ _ _ dirInode fs2 _ hL hd hdev hmode hnew hfs
                  (by simp) (by simp)
        · simp only [hdev, if_false]
          exact LoopRun.foreign _ _ _ _ _ dirInode _ hL hd hdev (ih _ _)

/-! ### The scanner: what every scan does -/

theorem getInode_new (fs : FileSystem) (stat : Stat) (h : (fs.getInode stat).1.2 = true) :
    (fs.getInode stat).1.1 = fs.inodes.length ∧
      (fs.getInode stat).2.inodes = fs.inodes ++ [⟨stat, none, ""⟩] := by
  unfold FileSystem.getInode at h ⊢
  cases hl : fs.InodeTable.lookup stat.Ino with
  | some a => simp [hl] at h
  | none => exact ⟨rfl, rfl⟩

theorem getInode_frozen (fs : FileSystem) (stat : Stat) (a : Nat) (r : Inode)
    (h : fs.inodes[a]? = some r) : (fs.getInode stat).2.inodes[a]? = some r := by
  unfold FileSystem.getInode
  cases hl : fs.InodeTable.lookup stat.Ino with
  | some b => exact h
  | none =>
    have hlt : a < fs.inodes.length := (List.getElem?_eq_some_iff.1 h).1
    simpa [List.getElem?_append_left hlt] using h

theorem File.scan_frozen (sys : Sys) (file : File) (fs : FileSystem) (parentName : String)
    (a : Nat) (ha : a ≠ file.Inode) :
    (File.scan sys file fs parentName).2.inodes[a]? = fs.inodes[a]? := by
  have hne : file.Inode ≠ a := fun e => ha e.symm
  unfold File.scan
  cases fs.inodes[file.Inode]? with
  | none => rfl
  | some inode =>
    simp only
    split
    · cases sys.Open (sys.join parentName file.Name) with
      | some e => rfl
      | none => exact List.getElem?_set_ne hne
    · split
      · cases sys.Readlink (sys.join parentName file.Name) with
        | error e => rfl
        | ok symlink => exact List.getElem?_set_ne hne
      · rfl

theorem File.scan_not_errno (sys : Sys) (file : File) (fs : FileSystem)
    (parentName : String) (e : Nat) :
    (File.scan sys file fs parentName).1 ≠ Outcome.error (GoError.errno e) := by
  unfold File.scan
  cases fs.inodes[file.Inode]? with
  | none => simp
  | some inode =>
    simp only
    split
    · cases sys.Open (sys.join parentName file.Name) <;> simp
    · split
      · cases sys.Readlink (sys.join parentName file.Name) <;> simp
      · simp

theorem File.scan_symlink (sys : Sys) (file : File) (fs : FileSystem) (parentName : String)
    (r : Dominator.Inode) (target : String) (hr : fs.inodes[file.Inode]? = some r)
    (hmode : r.Stat.Mode &&& S_IFMT = S_IFLNK)
    (hlink : sys.Readlink (sys.join parentName file.Name) = .ok target) :
    File.scan sys file fs parentName =
      (.ok, { fs with inodes := fs.inodes.set file.Inode { r with Symlink := target } }) := by
  have hreg : ¬ r.Stat.Mode &&& S_IFMT = S_IFREG := by
    rw [hmode]
    decide
  have hne : ¬ S_IFLNK = S_IFREG := by decide
  unfold File.scan
  simp only [hr, hmode, if_true, hlink]
  rw [if_neg hne]

theorem Directory.All_iff (sys : Sys) (P : String → Directory → Prop) (p : String)
    (d : Directory) :
    Directory.All sys P p d ↔
      P p d ∧ ∀ c ∈ d.DirectoryList, Directory.All sys P (sys.join p c.Name) c := by
  constructor
  · intro h
    refine ⟨h p d (Directory.At.root p d), fun c hc p' d' hat => ?_⟩
    exact h p' d' (Directory.At.child p d c p' d' hc hat)
  · rintro ⟨h0, hch⟩ p' d' hat
    cases hat with
    | root => exact h0
    | child _ _ c _ _ hc h => exact hch c hc p' d' h

theorem Directory.All_mono (sys : Sys) (P Q : String → Directory → Prop)
    (hPQ : ∀ p d, P p d → Q p d) (p : String) (d : Directory)
    (h : Directory.All sys P p d) : Directory.All sys Q p d :=
  fun p' d' hat => hPQ p' d' (h p' d' hat)

theorem Directory.appendDirectory_fields (d sub : Directory) :
    (d.appendDirectory sub).Name = d.Name ∧
      (d.appendDirectory sub).DirectoryList = d.DirectoryList ++ [sub] ∧
      (d.appendDirectory sub).FileList = d.FileList := by
  cases d
  exact ⟨rfl, rfl, rfl⟩

theorem Directory.appendFile_fields (d : Directory) (file : File) :
    (d.appendFile file).Name = d.Name ∧
      (d.appendFile file).DirectoryList = d.DirectoryList ∧
      (d.appendFile file).FileList = d.FileList ++ [file] := by
  cases d
  exact ⟨rfl, rfl, rfl⟩

theorem fileScan_keeps (sys : Sys) (fs : FileSystem) (stat : Stat) (name p : String)
    (out : Outcome) (fs2 : FileSystem) (hnew : (fs.getInode stat).1.2 = true)
    (hf : File.scan sys ⟨name, (fs.getInode stat).1.1⟩ (fs.getInode stat).2 p = (out, fs2))
    (a : Nat) (x : Inode) (h : fs.inodes[a]? = some x) : fs2.inodes[a]? = some x := by
  have hlt : a < fs.inodes.length := (List.getElem?_eq_some_iff.1 h).1
  have hne : a ≠ (fs.getInode stat).1.1 := by
    rw [(getInode_new fs stat hnew).1]
    omega
  have h1 := File.scan_frozen sys ⟨name, (fs.getInode stat).1.1⟩ (fs.getInode stat).2 p a hne
  rw [hf] at h1
  rw [h1]
  exact getInode_frozen fs stat a x h

theorem LoopRun.basic (sys : Sys) (scanDir : Directory → FileSystem → String → ScanResult)
    (myPathName : String) (hdir : ∀ d fs p, DirFacts sys p d fs (scanDir d fs p))
    (names : List String) (directory : Directory) (fs : FileSystem) (r : ScanResult)
    (h : LoopRun sys scanDir myPathName names directory fs r) :
    r.directory.Name = directory.Name ∧ r.directory.Inode = directory.Inode ∧
      ∀ (a : Nat) (x : Inode), fs.inodes[a]? = some x → r.fileSystem.inodes[a]? = some x := by
  induction h with
  | done directory fs => exact ⟨rfl, rfl, fun a x h => h⟩
  | lstatSkip name names directory fs r hL hr ih => exact ih
  | lstatFail name names directory fs e hL hne => exact ⟨rfl, rfl, fun a x h => h⟩
  | nilInode name names directory fs stat hL hd =>
    exact ⟨rfl, rfl, fun a x h => getInode_frozen fs stat a x h⟩
  | foreign name names directory fs stat dirInode r hL hd hdev hr ih =>
    exact ⟨ih.1, ih.2.1, fun a x h => ih.2.2 a x (getInode_frozen fs stat a x h)⟩
  | hardlink name names directory fs stat dirInode hL hd hdev hmode hnew =>
    exact ⟨rfl, rfl, fun a x h => getInode_frozen fs stat a x h⟩
  | subdirFail name names directory fs stat dirInode hL hd hdev hmode hnew hsub =>
    exact ⟨rfl, rfl, fun a x h => (hdir _ _ _).frozen a x (getInode_frozen fs stat a x h)⟩
  | subdirOk name names directory fs stat dirInode r hL hd hdev hmode hnew hsub hr ih =>
    refine ⟨ih.1.trans (Directory.appendDirectory_fields _ _).1,
      ih.2.1.trans (Directory.Inode_appendDirectory _ _), fun a x h => ?_⟩
    exact ih.2.2 a x ((hdir _ _ _).frozen a x (getInode_frozen fs stat a x h))
  | fileOld name names directory fs stat dirInode r hL hd hdev hmode hnew hr ih =>
    exact ⟨ih.1.trans (Directory.appendFile_fields _ _).1,
      ih.2.1.trans (Directory.Inode_appendFile _ _),
      fun a x h => ih.2.2 a x (getInode_frozen fs stat a x h)⟩
  | fileOk name names directory fs stat dirInode fs2 r hL hd hdev hmode hnew hf hr ih =>
    exact ⟨ih.1.trans (Directory.appendFile_fields _ _).1,
      ih.2.1.trans (Directory.Inode_appendFile _ _),
      fun a x h => ih.2.2 a x (fileScan_keeps sys fs stat name myPathName _ fs2 hnew hf a x h)⟩
  | fileSkip name names directory fs stat dirInode fs2 r hL hd hdev hmode hnew hf hr ih =>
    exact ⟨ih.1, ih.2.1,
      fun a x h => ih.2.2 a x (fileScan_keeps sys fs stat name myPathName _ fs2 hnew hf a x h)⟩
  | fileFail name names directory fs stat dirInode fs2 out hL hd hdev hmode hnew hf hok hne =>
    exact ⟨rfl, rfl,
      fun a x h => fileScan_keeps sys fs stat name myPathName _ fs2 hnew hf a x h⟩

theorem OnDevice.mono (sys : Sys) (D : Nat) (fs fs' : FileSystem)
    (hfr : ∀ (a : Nat) (x : Inode), fs.inodes[a]? = some x → fs'.inodes[a]? = some x)
    (p : String) (d : Directory) (h : OnDevice sys D fs p d) : OnDevice sys D fs' p d := by
  obtain ⟨⟨x, hx, hD⟩, h2⟩ := h
  exact ⟨⟨x, hfr _ _ hx, hD⟩, h2⟩

theorem getInode_new_record (fs : FileSystem) (stat : Stat)
    (h : (fs.getInode stat).1.2 = true) :
    (fs.getInode stat).2.inodes[(fs.getInode stat).1.1]? = some ⟨stat, none, ""⟩ := by
  rw [(getInode_new fs stat h).1, (getInode_new fs stat h).2]
  simp

theorem dirInode_eq (fs : FileSystem) (stat : Stat) (a : Nat) (dirInode r0 : Inode)
    (hd : (fs.getInode stat).2.inodes[a]? = some dirInode) (h0 : fs.inodes[a]? = some r0) :
    dirInode = r0 := by
  rw [getInode_frozen fs stat a r0 h0] at hd
  exact (Option.some.inj hd).symm

theorem LoopRun.lists (sys : Sys) (scanDir : Directory → FileSystem → String → ScanResult)
    (myPathName : String) (hdir : ∀ d fs p, DirFacts sys p d fs (scanDir d fs p))
    (names : List String) (directory : Directory) (fs : FileSystem) (r : ScanResult)
    (h : LoopRun sys scanDir myPathName names directory fs r) :
    ∃ (ds : List Directory) (fl : List File),
      r.directory.DirectoryList = directory.DirectoryList ++ ds ∧
      r.directory.FileList = directory.FileList ++ fl ∧
      (ds.map Directory.Name).Sublist names ∧ (fl.map File.Name).Sublist names ∧
      (∀ c ∈ ds, Directory.All sys (SortedDir sys) (sys.join myPathName c.Name) c) ∧
      ∀ r0 : Inode, fs.inodes[directory.Inode]? = some r0 →
        (∀ c ∈ ds,
          (∃ stat, sys.Lstat (sys.join myPathName c.Name) = .ok stat ∧ stat.Dev = r0.Stat.Dev) ∧
            Directory.All sys (OnDevice sys r0.Stat.Dev r.fileSystem)
              (sys.join myPathName c.Name) c) ∧
        (∀ f ∈ fl, ∃ stat, sys.Lstat (sys.join myPathName f.Name) = .ok stat ∧
          stat.Dev = r0.Stat.Dev) := by
  have hnil : ∀ (d : Directory) (fs' : FileSystem) (ns : List String),
      ∃ (ds : List Directory) (fl : List File),
      d.DirectoryList = d.DirectoryList ++ ds ∧ d.FileList = d.FileList ++ fl ∧
      (ds.map Directory.Name).Sublist ns ∧ (fl.map File.Name).Sublist ns ∧
      (∀ c ∈ ds, Directory.All sys (SortedDir sys) (sys.join myPathName c.Name) c) ∧
      ∀ r0 : Inode, fs'.inodes[d.Inode]? = some r0 →
        (∀ c ∈ ds,
          (∃ stat, sys.Lstat (sys.join myPathName c.Name) = .ok stat ∧ stat.Dev = r0.Stat.Dev) ∧
            Directory.All sys (OnDevice sys r0.Stat.Dev fs')
              (sys.join myPathName c.Name) c) ∧
        (∀ f ∈ fl, ∃ stat, sys.Lstat (sys.join myPathName f.Name) = .ok stat ∧
          stat.Dev = r0.Stat.Dev) := by
    intro d fs' ns
    refine ⟨[], [], by simp, by simp, by simp, by simp, by simp, ?_⟩
    intro r0 _
    exact ⟨by simp, by simp⟩
  induction h with
  | done directory fs => exact hnil directory fs []
  | lstatSkip name names directory fs r hL hr ih =>
    obtain ⟨ds, fl, h1, h2, h3, h4, h5, h6⟩ := ih
    exact ⟨ds, fl, h1, h2, h3.cons _, h4.cons _, h5, h6⟩
  | lstatFail name names directory fs e hL hne => exact hnil directory fs _
  | nilInode name names directory fs stat hL hd =>
    obtain ⟨ds, fl, h1, h2, h3, h4, h5, h6⟩ := hnil directory fs (name :: names)
    exact ⟨ds, fl, h1, h2, h3, h4, h5, fun r0 h0 => by
      rw [getInode_frozen fs stat _ r0 h0] at hd
      exact absurd hd (by simp)⟩
  | foreign name names directory fs stat dirInode r hL hd hdev hr ih =>
    obtain ⟨ds, fl, h1, h2, h3, h4, h5, h6⟩ := ih
    exact ⟨ds, fl, h1, h2, h3.cons _, h4.cons _, h5,
      fun r0 h0 => h6 r0 (getInode_frozen fs stat _ r0 h0)⟩
  | hardlink name names directory fs stat dirInode hL hd hdev hmode hnew =>
    refine ⟨[], [], by simp, by simp, by simp, by simp, by simp, ?_⟩
    intro r0 _
    exact ⟨by simp, by simp⟩
  | subdirFail name names directory fs stat dirInode hL hd hdev hmode hnew hsub =>
    refine ⟨[], [], by simp, by simp, by simp, by simp, by simp, ?_⟩
    intro r0 _
    exact ⟨by simp, by simp⟩
  | subdirOk name names directory fs stat dirInode r hL hd hdev hmode hnew hsub hr ih =>
    obtain ⟨ds, fl, h1, h2, h3, h4, h5, h6⟩ := ih
    have hF := hdir (.mk name (fs.getInode stat).1.1 [] []) (fs.getInode stat).2 myPathName
    have hname : (scanDir (.mk name (fs.getInode stat).1.1 [] []) (fs.getInode stat).2
        myPathName).directory.Name = name := hF.name
    have hB := LoopRun.basic sys scanDir myPathName hdir _ _ _ _ hr
    refine ⟨(scanDir (.mk name (fs.getInode stat).1.1 [] []) (fs.getInode stat).2
        myPathName).directory :: ds, fl, ?_, ?_, ?_, h4.cons _, ?_, ?_⟩
    · rw [h1, (Directory.appendDirectory_fields _ _).2.1]
      simp
    · rw [h2, (Directory.appendDirectory_fields _ _).2.2]
    · rw [List.map_cons, hname]
      exact h3.cons₂ _
    · intro c hc
      rcases List.mem_cons.1 hc with rfl | hc
      · have := hF.sorted rfl rfl hsub
        rw [hname]
        exact this
      · exact h5 c hc
    · intro r0 h0
      have hr0 : dirInode = r0 := dirInode_eq fs stat _ _ _ hd h0
      subst hr0
      have h0' := hF.frozen _ _ hd
      rw [← Directory.Inode_appendDirectory directory (scanDir (.mk name (fs.getInode stat).1.1
        [] []) (fs.getInode stat).2 myPathName).directory] at h0'
      obtain ⟨h6a, h6b⟩ := h6 dirInode h0'
      refine ⟨?_, h6b⟩
      intro c hc
      rcases List.mem_cons.1 hc with rfl | hc
      · rw [hname]
        refine ⟨⟨stat, hL, hdev⟩, ?_⟩
        have hdv := hF.device ⟨stat, none, ""⟩ (getInode_new_record fs stat hnew) rfl rfl
        simp only [Directory.Name] at hdv
        rw [← hdev]
        exact Directory.All_mono sys _ _
          (fun p d hp => OnDevice.mono sys _ _ _ hB.2.2 p d hp) _ _ hdv
      · exact h6a c hc
  | fileOld name names directory fs stat dirInode r hL hd hdev hmode hnew hr ih =>
    obtain ⟨ds, fl, h1, h2, h3, h4, h5, h6⟩ := ih
    refine ⟨ds, ⟨name, (fs.getInode stat).1.1⟩ :: fl, ?_, ?_, h3.cons _, ?_, h5, ?_⟩
    · rw [h1, (Directory.appendFile_fields _ _).2.1]
    · rw [h2, (Directory.appendFile_fields _ _).2.2]
      simp
    · rw [List.map_cons]
      exact h4.cons₂ _
    · intro r0 h0
      have hr0 : dirInode = r0 := dirInode_eq fs stat _ _ _ hd h0
      subst hr0
      have h0' := hd
      rw [← Directory.Inode_appendFile directory ⟨name, (fs.getInode stat).1.1⟩] at h0'
      obtain ⟨h6a, h6b⟩ := h6 dirInode h0'
      refine ⟨h6a, ?_⟩
      intro f hf
      rcases List.mem_cons.1 hf with rfl | hf
      · exact ⟨stat, hL, hdev⟩
      · exact h6b f hf
  | fileOk name names directory fs stat dirInode fs2 r hL hd hdev hmode hnew hf hr ih =>
    obtain ⟨ds, fl, h1, h2, h3, h4, h5, h6⟩ := ih
    refine ⟨ds, ⟨name, (fs.getInode stat).1.1⟩ :: fl, ?_, ?_, h3.cons _, ?_, h5, ?_⟩
    · rw [h1, (Directory.appendFile_fields _ _).2.1]
    · rw [h2, (Directory.appendFile_fields _ _).2.2]
      simp
    · rw [List.map_cons]
      exact h4.cons₂ _
    · intro r0 h0
      have hr0 : dirInode = r0 := dirInode_eq fs stat _ _ _ hd h0
      subst hr0
      have h0' := fileScan_keeps sys fs stat name myPathName _ fs2 hnew hf _ _ h0
      rw [← Directory.Inode_appendFile directory ⟨name, (fs.getInode stat).1.1⟩] at h0'
      obtain ⟨h6a, h6b⟩ := h6 dirInode h0'
      refine ⟨h6a, ?_⟩
      intro f hf
      rcases List.mem_cons.1 hf with rfl | hf
      · exact ⟨stat, hL, hdev⟩
      · exact h6b f hf
  | fileSkip name names directory fs stat dirInode fs2 r hL hd hdev hmode hnew hf hr ih =>
    obtain ⟨ds, fl, h1, h2, h3, h4, h5, h6⟩ := ih
    exact ⟨ds, fl, h1, h2, h3.cons _, h4.cons _, h5,
      fun r0 h0 => h6 r0 (fileScan_keeps sys fs stat name myPathName _ fs2 hnew hf _ _ h0)⟩
  | fileFail name names directory fs stat dirInode fs2 out hL hd hdev hmode hnew hf hok hne =>
    refine ⟨[], [], by simp, by simp, by simp, by simp, by simp, ?_⟩
    intro r0 _
    exact ⟨by simp, by simp⟩

theorem Follows.of_isEntry (D : Nat) (e1 e2 : ScanEvent) (h : ScanEvent.isEntry e2) :
    Follows D e1 e2 := by
  cases e2 with
  | entry f s a n => exact True.intro
  | dirScan p => exact h.elim
  | fileScan p a => exact h.elim

theorem chain_entry_cons (D : Nat) (f : String) (s : Stat) (a : Nat) (n : Bool)
    (t : List ScanEvent) (ht : List.Chain' (Follows D) t)
    (hh : ∀ e ∈ t.head?, ScanEvent.isEntry e) :
    List.Chain' (Follows D) (ScanEvent.entry f s a n :: t) ∧
      ∀ e ∈ (ScanEvent.entry f s a n :: t).head?, ScanEvent.isEntry e := by
  refine ⟨List.chain'_cons'.2 ⟨fun y hy => Follows.of_isEntry D _ y (hh y hy), ht⟩, ?_⟩
  intro e he
  simp only [List.head?_cons, Option.mem_def, Option.some.injEq] at he
  subst he
  exact True.intro

theorem chain_subdir (D : Nat) (p : String) (s : Stat) (a : Nat) (t : List ScanEvent)
    (hD : s.Dev = D) (hmode : s.Mode &&& S_IFMT = S_IFDIR)
    (ht : List.Chain' (Follows D) t.tail ∧ (∀ e ∈ t.tail.head?, ScanEvent.isEntry e) ∧
      (∀ e ∈ t.head?, e = ScanEvent.dirScan p)) :
    List.Chain' (Follows D) (ScanEvent.entry p s a true :: t) := by
  obtain ⟨h1, h2, h3⟩ := ht
  cases t with
  | nil => exact List.chain'_singleton _
  | cons e t =>
    have he : e = ScanEvent.dirScan p := h3 e (by simp)
    subst he
    refine List.chain'_cons'.2 ⟨?_, List.chain'_cons'.2 ⟨?_, h1⟩⟩
    · intro y hy
      simp only [List.head?_cons, Option.mem_def, Option.some.injEq] at hy
      subst hy
      exact ⟨s, a, rfl, hD, hmode⟩
    · intro y hy
      exact Follows.of_isEntry D _ y (h2 y hy)

theorem chain_file (D : Nat) (p : String) (s : Stat) (a : Nat) (t : List ScanEvent)
    (hD : s.Dev = D) (hmode : ¬ s.Mode &&& S_IFMT = S_IFDIR)
    (ht : List.Chain' (Follows D) t) (hh : ∀ e ∈ t.head?, ScanEvent.isEntry e) :
    List.Chain' (Follows D) (ScanEvent.entry p s a true :: ScanEvent.fileScan p a :: t) := by
  refine List.chain'_cons'.2 ⟨?_, List.chain'_cons'.2 ⟨?_, ht⟩⟩
  · intro y hy
    simp only [List.head?_cons, Option.mem_def, Option.some.injEq] at hy
    subst hy
    exact ⟨s, rfl, hD, hmode⟩
  · intro y hy
    exact Follows.of_isEntry D _ y (hh y hy)

theorem head_entry (f : String) (s : Stat) (a : Nat) (n : Bool) (t : List ScanEvent) :
    ∀ e ∈ (ScanEvent.entry f s a n :: t).head?, ScanEvent.isEntry e := by
  intro e he
  simp only [List.head?_cons, Option.mem_def, Option.some.injEq] at he
  subst he
  exact True.intro

theorem LoopRun.chain (sys : Sys) (scanDir : Directory → FileSystem → String → ScanResult)
    (myPathName : String) (hdir : ∀ d fs p, DirFacts sys p d fs (scanDir d fs p))
    (names : List String) (directory : Directory) (fs : FileSystem) (r : ScanResult)
    (h : LoopRun sys scanDir myPathName names directory fs r) :
    ∀ r0 : Inode, fs.inodes[directory.Inode]? = some r0 →
      List.Chain' (Follows r0.Stat.Dev) r.trace ∧
        ∀ e ∈ r.trace.head?, ScanEvent.isEntry e := by
  induction h with
  | done directory fs =>
    intro r0 _
    exact ⟨List.chain'_nil, by simp⟩
  | lstatSkip name names directory fs r hL hr ih => exact ih
  | lstatFail name names directory fs e hL hne =>
    intro r0 _
    exact ⟨List.chain'_nil, by simp⟩
  | nilInode name names directory fs stat hL hd =>
    intro r0 _
    exact ⟨List.chain'_singleton _, head_entry _ _ _ _ _⟩
  | foreign name names directory fs stat dirInode r hL hd hdev hr ih =>
    intro r0 h0
    obtain ⟨h1, h2⟩ := ih r0 (getInode_frozen fs stat _ r0 h0)
    exact chain_entry_cons _ _ _ _ _ _ h1 h2
  | hardlink name names directory fs stat dirInode hL hd hdev hmode hnew =>
    intro r0 _
    exact ⟨List.chain'_singleton _, head_entry _ _ _ _ _⟩
  | subdirFail name names directory fs stat dirInode hL hd hdev hmode hnew hsub =>
    intro r0 h0
    have hr0 : dirInode = r0 := dirInode_eq fs stat _ _ _ hd h0
    subst hr0
    have hF := hdir (.mk name (fs.getInode stat).1.1 [] []) (fs.getInode stat).2 myPathName
    have hc := hF.chain ⟨stat, none, ""⟩ (getInode_new_record fs stat hnew)
    simp only [Directory.Name] at hc
    rw [hdev] at hc
    exact ⟨chain_subdir _ _ _ _ _ hdev hmode hc, head_entry _ _ _ _ _⟩
  | subdirOk name names directory fs stat dirInode r hL hd hdev hmode hnew hsub hr ih =>
    intro r0 h0
    have hr0 : dirInode = r0 := dirInode_eq fs stat _ _ _ hd h0
    subst hr0
    have hF := hdir (.mk name (fs.getInode stat).1.1 [] []) (fs.getInode stat).2 myPathName
    have hc := hF.chain ⟨stat, none, ""⟩ (getInode_new_record fs stat hnew)
    simp only [Directory.Name] at hc
    rw [hdev] at hc
    have h0' := hF.frozen _ _ hd
    rw [← Directory.Inode_appendDirectory directory (scanDir (.mk name (fs.getInode stat).1.1
      [] []) (fs.getInode stat).2 myPathName).directory] at h0'
    obtain ⟨h1, h2⟩ := ih dirInode h0'
    refine ⟨?_, head_entry _ _ _ _ _⟩
    exact List.Chain'.append
      (chain_subdir _ (sys.join myPathName name) stat (fs.getInode stat).1.1 _ hdev hmode hc) h1
      (fun x _ y hy => Follows.of_isEntry _ x y (h2 y hy))
  | fileOld name names directory fs stat dirInode r hL hd hdev hmode hnew hr ih =>
    intro r0 h0
    have hr0 : dirInode = r0 := dirInode_eq fs stat _ _ _ hd h0
    subst hr0
    have h0' := hd
    rw [← Directory.Inode_appendFile directory ⟨name, (fs.getInode stat).1.1⟩] at h0'
    obtain ⟨h1, h2⟩ := ih dirInode h0'
    exact chain_entry_cons _ _ _ _ _ _ h1 h2
  | fileOk name names directory fs stat dirInode fs2 r hL hd hdev hmode hnew hf hr ih =>
    intro r0 h0
    have hr0 : dirInode = r0 := dirInode_eq fs stat _ _ _ hd h0
    subst hr0
    have h0' := fileScan_keeps sys fs stat name myPathName _ fs2 hnew hf _ _ h0
    rw [← Directory.Inode_appendFile directory ⟨name, (fs.getInode stat).1.1⟩] at h0'
    obtain ⟨h1, h2⟩ := ih dirInode h0'
    exact ⟨chain_file _ _ _ _ _ hdev hmode h1 h2, head_entry _ _ _ _ _⟩
  | fileSkip name names directory fs stat dirInode fs2 r hL hd hdev hmode hnew hf hr ih =>
    intro r0 h0
    have hr0 : dirInode = r0 := dirInode_eq fs stat _ _ _ hd h0
    subst hr0
    have h0' := fileScan_keeps sys fs stat name myPathName _ fs2 hnew hf _ _ h0
    obtain ⟨h1, h2⟩ := ih dirInode h0'
    exact ⟨chain_file _ _ _ _ _ hdev hmode h1 h2, head_entry _ _ _ _ _⟩
  | fileFail name names directory fs stat dirInode fs2 out hL hd hdev hmode hnew hf hok hne =>
    intro r0 h0
    have hr0 : dirInode = r0 := dirInode_eq fs stat _ _ _ hd h0
    subst hr0
    exact ⟨chain_file _ _ _ _ _ hdev hmode List.chain'_nil (by simp), head_entry _ _ _ _ _⟩

theorem LoopRun.listed (sys : Sys) (scanDir : Directory → FileSystem → String → ScanResult)
    (myPathName : String) (hdir : ∀ d fs p, DirFacts sys p d fs (scanDir d fs p))
    (names : List String) (directory : Directory) (fs : FileSystem) (r : ScanResult)
    (h : LoopRun sys scanDir myPathName names directory fs r) :
    ∀ r0 : Inode, fs.inodes[directory.Inode]? = some r0 → r.outcome = .ok →
      ∀ (f : String) (s : Stat) (a : Nat) (n : Bool), ScanEvent.entry f s a n ∈ r.trace →
        s.Dev = r0.Stat.Dev → ¬ s.Mode &&& S_IFMT = S_IFDIR →
        (∃ name, f = sys.join myPathName name ∧ (⟨name, a⟩ : File) ∈ r.directory.FileList) ∨
          (∃ c ∈ r.directory.DirectoryList, FileAt sys (sys.join myPathName c.Name) c f a) := by
  induction h with
  | done directory fs =>
    intro r0 _ _ f s a n hm
    simp at hm
  | lstatSkip name names directory fs r hL hr ih => exact ih
  | lstatFail name names directory fs e hL hne =>
    intro r0 _ hok
    cases hok
  | nilInode name names directory fs stat hL hd =>
    intro r0 _ hok
    cases hok
  | foreign name names directory fs stat dirInode r hL hd hdev hr ih =>
    intro r0 h0 hok f s a n hm hD hnd
    have hr0 : dirInode = r0 := dirInode_eq fs stat _ _ _ hd h0
    subst hr0
    rcases List.mem_cons.1 hm with he | hm
    · cases he
      exact absurd hD hdev
    · exact ih dirInode hd hok f s a n hm hD hnd
  | hardlink name names directory fs stat dirInode hL hd hdev hmode hnew =>
    intro r0 _ hok
    cases hok
  | subdirFail name names directory fs stat dirInode hL hd hdev hmode hnew hsub =>
    intro r0 _ hok
    exact absurd hok hsub
  | subdirOk name names directory fs stat dirInode r hL hd hdev hmode hnew hsub hr ih =>
    intro r0 h0 hok f s a n hm hD hnd
    have hr0 : dirInode = r0 := dirInode_eq fs stat _ _ _ hd h0
    subst hr0
    have hF := hdir (.mk name (fs.getInode stat).1.1 [] []) (fs.getInode stat).2 myPathName
    have hname : (scanDir (.mk name (fs.getInode stat).1.1 [] []) (fs.getInode stat).2
        myPathName).directory.Name = name := hF.name
    have h0' := hF.frozen _ _ hd
    rw [← Directory.Inode_appendDirectory directory (scanDir (.mk name (fs.getInode stat).1.1
      [] []) (fs.getInode stat).2 myPathName).directory] at h0'
    rcases List.mem_cons.1 hm with he | hm
    · cases he
      exact absurd hmode hnd
    · rcases List.mem_append.1 hm with hm | hm
      · right
        obtain ⟨ds, fl, h1, -⟩ := LoopRun.lists sys scanDir myPathName hdir _ _ _ _ hr
        refine ⟨(scanDir (.mk name (fs.getInode stat).1.1 [] []) (fs.getInode stat).2
          myPathName).directory, ?_, ?_⟩
        · have : r.directory.DirectoryList = _ := h1
          rw [this, (Directory.appendDirectory_fields _ _).2.1]
          simp
        · rw [hname]
          have := hF.listed ⟨stat, none, ""⟩ (getInode_new_record fs stat hnew) hsub f s a n hm
            (hD.trans hdev.symm) hnd
          exact this
      · exact ih dirInode h0' hok f s a n hm hD hnd
  | fileOld name names directory fs stat dirInode r hL hd hdev hmode hnew hr ih =>
    intro r0 h0 hok f s a n hm hD hnd
    have hr0 : dirInode = r0 := dirInode_eq fs stat _ _ _ hd h0
    subst hr0
    have h0' := hd
    rw [← Directory.Inode_appendFile directory ⟨name, (fs.getInode stat).1.1⟩] at h0'
    rcases List.mem_cons.1 hm with he | hm
    · cases he
      left
      obtain ⟨ds, fl, -, h2, -⟩ := LoopRun.lists sys scanDir myPathName hdir _ _ _ _ hr
      refine ⟨name, rfl, ?_⟩
      have : r.directory.FileList = _ := h2
      rw [this, (Directory.appendFile_fields _ _).2.2]
      simp
    · exact ih dirInode h0' hok f s a n hm hD hnd
  | fileOk name names directory fs stat dirInode fs2 r hL hd hdev hmode hnew hf hr ih =>
    intro r0 h0 hok f s a n hm hD hnd
    have hr0 : dirInode = r0 := dirInode_eq fs stat _ _ _ hd h0
    subst hr0
    have h0' := fileScan_keeps sys fs stat name myPathName _ fs2 hnew hf _ _ h0
    rw [← Directory.Inode_appendFile directory ⟨name, (fs.getInode stat).1.1⟩] at h0'
    rcases List.mem_cons.1 hm with he | hm
    · cases he
      left
      obtain ⟨ds, fl, -, h2, -⟩ := LoopRun.lists sys scanDir myPathName hdir _ _ _ _ hr
      refine ⟨name, rfl, ?_⟩
      have : r.directory.FileList = _ := h2
      rw [this, (Directory.appendFile_fields _ _).2.2]
      simp
    · rcases List.mem_cons.1 hm with he | hm
      · cases he
      · exact ih dirInode h0' hok f s a n hm hD hnd
  | fileSkip name names directory fs stat dirInode fs2 r hL hd hdev hmode hnew hf hr ih =>
    intro r0 h0 hok
    have := File.scan_not_errno sys ⟨name, (fs.getInode stat).1.1⟩ (fs.getInode stat).2
      myPathName ENOENT
    rw [hf] at this
    exact absurd rfl this
  | fileFail name names directory fs stat dirInode fs2 out hL hd hdev hmode hnew hf hok hne =>
    intro r0 _ hok'
    exact absurd hok' hok

theorem fileScan_symlink_record (sys : Sys) (fs : FileSystem) (stat : Stat) (name p : String)
    (target : String) (out : Outcome) (fs2 : FileSystem)
    (hnew : (fs.getInode stat).1.2 = true) (hmode : stat.Mode &&& S_IFMT = S_IFLNK)
    (hlink : sys.Readlink (sys.join p name) = .ok target)
    (hf : File.scan sys ⟨name, (fs.getInode stat).1.1⟩ (fs.getInode stat).2 p = (out, fs2)) :
    out = .ok ∧ fs2.inodes[(fs.getInode stat).1.1]? = some ⟨stat, none, target⟩ := by
  have hrec := getInode_new_record fs stat hnew
  have hlt : (fs.getInode stat).1.1 < (fs.getInode stat).2.inodes.length :=
    (List.getElem?_eq_some_iff.1 hrec).1
  have hs := File.scan_symlink sys ⟨name, (fs.getInode stat).1.1⟩ (fs.getInode stat).2 p
    ⟨stat, none, ""⟩ target hrec hmode hlink
  rw [hs] at hf
  have h1 : Outcome.ok = out := congrArg Prod.fst hf
  have h2 := congrArg Prod.snd hf
  simp only at h2
  subst h2
  refine ⟨h1.symm, ?_⟩
  simp [hlt]

theorem LoopRun.symlink (sys : Sys) (scanDir : Directory → FileSystem → String → ScanResult)
    (myPathName : String) (hdir : ∀ d fs p, DirFacts sys p d fs (scanDir d fs p))
    (names : List String) (directory : Directory) (fs : FileSystem) (r : ScanResult)
    (h : LoopRun sys scanDir myPathName names directory fs r) :
    ∀ r0 : Inode, fs.inodes[directory.Inode]? = some r0 →
      ∀ (f : String) (s : Stat) (a : Nat) (target : String),
        ScanEvent.entry f s a true ∈ r.trace → s.Dev = r0.Stat.Dev →
        s.Mode &&& S_IFMT = S_IFLNK → sys.Readlink f = .ok target →
        r.fileSystem.inodes[a]? = some ⟨s, none, target⟩ := by
  have hne : ¬ S_IFDIR = S_IFLNK := by decide
  induction h with
  | done directory fs =>
    intro r0 _ f s a target hm
    simp at hm
  | lstatSkip name names directory fs r hL hr ih => exact ih
  | lstatFail name names directory fs e hL hne =>
    intro r0 _ f s a target hm
    simp at hm
  | nilInode name names directory fs stat hL hd =>
    intro r0 h0
    rw [getInode_frozen fs stat _ r0 h0] at hd
    exact absurd hd (by simp)
  | foreign name names directory fs stat dirInode r hL hd hdev hr ih =>
    intro r0 h0 f s a target hm hD hl hrl
    have hr0 : dirInode = r0 := dirInode_eq fs stat _ _ _ hd h0
    subst hr0
    rcases List.mem_cons.1 hm with he | hm
    · simp only [ScanEvent.entry.injEq] at he
      obtain ⟨-, rfl, -, -⟩ := he
      exact absurd hD hdev
    · exact ih dirInode hd f s a target hm hD hl hrl
  | hardlink name names directory fs stat dirInode hL hd hdev hmode hnew =>
    intro r0 h0 f s a target hm hD hl hrl
    rcases List.mem_cons.1 hm with he | hm
    · cases he
    · simp at hm
  | subdirFail name names directory fs stat dirInode hL hd hdev hmode hnew hsub =>
    intro r0 h0 f s a target hm hD hl hrl
    have hr0 : dirInode = r0 := dirInode_eq fs stat _ _ _ hd h0
    subst hr0
    have hF := hdir (.mk name (fs.getInode stat).1.1 [] []) (fs.getInode stat).2 myPathName
    rcases List.mem_cons.1 hm with he | hm
    · cases he
      rw [hmode] at hl
      exact absurd hl hne
    · exact hF.symlink ⟨stat, none, ""⟩ (getInode_new_record fs stat hnew) f s a target hm
        (hD.trans hdev.symm) hl hrl
  | subdirOk name names directory fs stat dirInode r hL hd hdev hmode hnew hsub hr ih =>
    intro r0 h0 f s a target hm hD hl hrl
    have hr0 : dirInode = r0 := dirInode_eq fs stat _ _ _ hd h0
    subst hr0
    have hF := hdir (.mk name (fs.getInode stat).1.1 [] []) (fs.getInode stat).2 myPathName
    have hB := LoopRun.basic sys scanDir myPathName hdir _ _ _ _ hr
    have h0' := hF.frozen _ _ hd
    rw [← Directory.Inode_appendDirectory directory (scanDir (.mk name (fs.getInode stat).1.1
      [] []) (fs.getInode stat).2 myPathName).directory] at h0'
    rcases List.mem_cons.1 hm with he | hm
    · cases he
      rw [hmode] at hl
      exact absurd hl hne
    · rcases List.mem_append.1 hm with hm | hm
      · exact hB.2.2 _ _ (hF.symlink ⟨stat, none, ""⟩ (getInode_new_record fs stat hnew)
          f s a target hm (hD.trans hdev.symm) hl hrl)
      · exact ih dirInode h0' f s a target hm hD hl hrl
  | fileOld name names directory fs stat dirInode r hL hd hdev hmode hnew hr ih =>
    intro r0 h0 f s a target hm hD hl hrl
    have hr0 : dirInode = r0 := dirInode_eq fs stat _ _ _ hd h0
    subst hr0
    have h0' := hd
    rw [← Directory.Inode_appendFile directory ⟨name, (fs.getInode stat).1.1⟩] at h0'
    rcases List.mem_cons.1 hm with he | hm
    · cases he
    · exact ih dirInode h0' f s a target hm hD hl hrl
  | fileOk name names directory fs stat dirInode fs2 r hL hd hdev hmode hnew hf hr ih =>
    intro r0 h0 f s a target hm hD hl hrl
    have hr0 : dirInode = r0 := dirInode_eq fs stat _ _ _ hd h0
    subst hr0
    have hB := LoopRun.basic sys scanDir myPathName hdir _ _ _ _ hr
    have h0' := fileScan_keeps sys fs stat name myPathName _ fs2 hnew hf _ _ h0
    rw [← Directory.Inode_appendFile directory ⟨name, (fs.getInode stat).1.1⟩] at h0'
    rcases List.mem_cons.1 hm with he | hm
    · cases he
      exact hB.2.2 _ _
        (fileScan_symlink_record sys fs stat name myPathName target _ fs2 hnew hl hrl hf).2
    · rcases List.mem_cons.1 hm with he | hm
      · cases he
      · exact ih dirInode h0' f s a target hm hD hl hrl
  | fileSkip name names directory fs stat dirInode fs2 r hL hd hdev hmode hnew hf hr ih =>
    intro r0 h0
    have := File.scan_not_errno sys ⟨name, (fs.getInode stat).1.1⟩ (fs.getInode stat).2
      myPathName ENOENT
    rw [hf] at this
    exact absurd rfl this
  | fileFail name names directory fs stat dirInode fs2 out hL hd hdev hmode hnew hf hok hne' =>
    intro r0 h0 f s a target hm hD hl hrl
    rcases List.mem_cons.1 hm with he | hm
    · cases he
      exact absurd
        (fileScan_symlink_record sys fs stat name myPathName target _ fs2 hnew hl hrl hf).1 hok
    · rcases List.mem_cons.1 hm with he | hm
      · cases he
      · simp at hm

theorem ScansNew.noSteps (D : Nat) : ScansNew D [] := by
  intro i f s a h
  simp at h

theorem ScansNew.consOther (D : Nat) (e : ScanEvent) (t : List ScanEvent)
    (hne : ∀ f s a, e = ScanEvent.entry f s a true → s.Dev = D →
      ¬ s.Mode &&& S_IFMT = S_IFDIR → False)
    (ht : ScansNew D t) : ScansNew D (e :: t) := by
  intro i f s a h hD hnd
  cases i with
  | zero =>
    simp only [List.getElem?_cons_zero, Option.some.injEq] at h
    exact (hne f s a h hD hnd).elim
  | succ i =>
    simp only [List.getElem?_cons_succ] at h ⊢
    exact ht i f s a h hD hnd

theorem ScansNew.consFile (D : Nat) (f : String) (s : Stat) (a : Nat) (t : List ScanEvent)
    (ht : ScansNew D t) :
    ScansNew D (ScanEvent.entry f s a true :: ScanEvent.fileScan f a :: t) := by
  intro i f' s' a' h hD hnd
  cases i with
  | zero =>
    simp only [List.getElem?_cons_zero, Option.some.injEq, ScanEvent.entry.injEq] at h
    obtain ⟨rfl, -, rfl, -⟩ := h
    simp
  | succ i =>
    cases i with
    | zero =>
      simp only [zero_add, List.getElem?_cons_succ, List.getElem?_cons_zero,
        Option.some.injEq] at h
      cases h
    | succ i =>
      simp only [List.getElem?_cons_succ] at h ⊢
      exact ht i f' s' a' h hD hnd

theorem ScansNew.concat (D : Nat) (t1 t2 : List ScanEvent) (h1 : ScansNew D t1)
    (h2 : ScansNew D t2) : ScansNew D (t1 ++ t2) := by
  intro i f s a h hD hnd
  by_cases hi : i < t1.length
  · rw [List.getElem?_append_left hi] at h
    have h3 := h1 i f s a h hD hnd
    have hlt : i + 1 < t1.length := (List.getElem?_eq_some_iff.1 h3).1
    rw [List.getElem?_append_left hlt]
    exact h3
  · have hle : t1.length ≤ i := Nat.le_of_not_lt hi
    rw [List.getElem?_append_right hle] at h
    have h3 := h2 (i - t1.length) f s a h hD hnd
    rw [List.getElem?_append_right (Nat.le_succ_of_le hle)]
    have : i + 1 - t1.length = i - t1.length + 1 := by omega
    rw [this]
    exact h3

theorem LoopRun.scanned (sys : Sys) (scanDir : Directory → FileSystem → String → ScanResult)
    (myPathName : String) (hdir : ∀ d fs p, DirFacts sys p d fs (scanDir d fs p))
    (names : List String) (directory : Directory) (fs : FileSystem) (r : ScanResult)
    (h : LoopRun sys scanDir myPathName names directory fs r) :
    ∀ r0 : Inode, fs.inodes[directory.Inode]? = some r0 → ScansNew r0.Stat.Dev r.trace := by
  induction h with
  | done directory fs =>
    intro r0 _
    exact ScansNew.noSteps _
  | lstatSkip name names directory fs r hL hr ih => exact ih
  | lstatFail name names directory fs e hL hne =>
    intro r0 _
    exact ScansNew.noSteps _
  | nilInode name names directory fs stat hL hd =>
    intro r0 h0
    rw [getInode_frozen fs stat _ r0 h0] at hd
    exact absurd hd (by simp)
  | foreign name names directory fs stat dirInode r hL hd hdev hr ih =>
    intro r0 h0
    have hr0 : dirInode = r0 := dirInode_eq fs stat _ _ _ hd h0
    subst hr0
    refine ScansNew.consOther _ _ _ ?_ (ih dirInode hd)
    intro f s a he hD _
    simp only [ScanEvent.entry.injEq] at he
    obtain ⟨-, rfl, -, -⟩ := he
    exact hdev hD
  | hardlink name names directory fs stat dirInode hL hd hdev hmode hnew =>
    intro r0 h0
    refine ScansNew.consOther _ _ _ ?_ (ScansNew.noSteps _)
    intro f s a he
    cases he
  | subdirFail name names directory fs stat dirInode hL hd hdev hmode hnew hsub =>
    intro r0 h0
    have hr0 : dirInode = r0 := dirInode_eq fs stat _ _ _ hd h0
    subst hr0
    have hF := hdir (.mk name (fs.getInode stat).1.1 [] []) (fs.getInode stat).2 myPathName
    have hs := hF.scanned ⟨stat, none, ""⟩ (getInode_new_record fs stat hnew)
    rw [hdev] at hs
    refine ScansNew.consOther _ _ _ ?_ hs
    intro f s a he _ hnd
    cases he
    exact hnd hmode
  | subdirOk name names directory fs stat dirInode r hL hd hdev hmode hnew hsub hr ih =>
    intro r0 h0
    have hr0 : dirInode = r0 := dirInode_eq fs stat _ _ _ hd h0
    subst hr0
    have hF := hdir (.mk name (fs.getInode stat).1.1 [] []) (fs.getInode stat).2 myPathName
    have hs := hF.scanned ⟨stat, none, ""⟩ (getInode_new_record fs stat hnew)
    rw [hdev] at hs
    have h0' := hF.frozen _ _ hd
    rw [← Directory.Inode_appendDirectory directory (scanDir (.mk name (fs.getInode stat).1.1
      [] []) (fs.getInode stat).2 myPathName).directory] at h0'
    refine ScansNew.consOther _ _ _ ?_ (ScansNew.concat _ _ _ hs (ih dirInode h0'))
    intro f s a he _ hnd
    cases he
    exact hnd hmode
  | fileOld name names directory fs stat dirInode r hL hd hdev hmode hnew hr ih =>
    intro r0 h0
    have hr0 : dirInode = r0 := dirInode_eq fs stat _ _ _ hd h0
    subst hr0
    have h0' := hd
    rw [← Directory.Inode_appendFile directory ⟨name, (fs.getInode stat).1.1⟩] at h0'
    refine ScansNew.consOther _ _ _ ?_ (ih dirInode h0')
    intro f s a he
    cases he
  | fileOk name names directory fs stat dirInode fs2 r hL hd hdev hmode hnew hf hr ih =>
    intro r0 h0
    have h0' := fileScan_keeps sys fs stat name myPathName _ fs2 hnew hf _ _ h0
    rw [← Directory.Inode_appendFile directory ⟨name, (fs.getInode stat).1.1⟩] at h0'
    exact ScansNew.consFile _ _ _ _ _ (ih r0 h0')
  | fileSkip name names directory fs stat dirInode fs2 r hL hd hdev hmode hnew hf hr ih =>
    intro r0 h0
    have h0' := fileScan_keeps sys fs stat name myPathName _ fs2 hnew hf _ _ h0
    exact ScansNew.consFile _ _ _ _ _ (ih r0 h0')
  | fileFail name names directory fs stat dirInode fs2 out hL hd hdev hmode hnew hf hok hne =>
    intro r0 h0
    exact ScansNew.consFile _ _ _ _ _ (ScansNew.noSteps _)

theorem DirFacts.leaf (sys : Sys) (parentName : String) (d : Directory) (fs : FileSystem)
    (o : Outcome) (t : List ScanEvent) (ho : o ≠ .ok)
    (ht : t = [] ∨ t = [ScanEvent.dirScan (sys.join parentName d.Name)]) :
    DirFacts sys parentName d fs ⟨o, d, fs, t⟩ := by
  have hmem : ∀ f s a n, ScanEvent.entry f s a n ∉ t := by
    intro f s a n hm
    rcases ht with rfl | rfl
    · simp at hm
    · simp at hm
  refine ⟨rfl, rfl, List.prefix_refl _, List.prefix_refl _, fun a x h => h,
    fun h => absurd h ho, fun _ _ h => absurd h ho, ?_, ?_, fun _ _ h => absurd h ho, ?_, ?_⟩
  · intro r0 h0 hd hf
    refine (Directory.All_iff sys _ _ _).2 ⟨⟨⟨r0, h0, rfl⟩, ?_, ?_⟩, ?_⟩
    · intro c hc
      simp only [hd] at hc
      simp at hc
    · intro f hf'
      simp only [hf] at hf'
      simp at hf'
    · intro c hc
      simp only [hd] at hc
      simp at hc
  · intro r0 _
    rcases ht with rfl | rfl
    · exact ⟨List.chain'_nil, by simp, by simp⟩
    · exact ⟨List.chain'_nil, by simp, by simp⟩
  · intro r0 _ f s a target hm
    exact absurd hm (hmem f s a true)
  · intro r0 _ i f s a h
    obtain ⟨hi, e⟩ := List.getElem?_eq_some_iff.1 h
    exact absurd (e ▸ List.getElem_mem hi) (hmem f s a true)

theorem Directory.scan_facts (sys : Sys) (fuel : Nat) :
    ∀ (d : Directory) (fs : FileSystem) (parentName : String),
      DirFacts sys parentName d fs (Directory.scan sys fuel d fs parentName) := by
  induction fuel with
  | zero =>
    intro d fs parentName
    exact DirFacts.leaf sys parentName d fs .outOfFuel [] (by simp) (Or.inl rfl)
  | succ fuel ih =>
    intro d fs parentName
    rw [Directory.scan]
    cases hO : sys.Open (sys.join parentName d.Name) with
    | some e =>
      exact DirFacts.leaf sys parentName d fs _ _ (by simp) (Or.inr rfl)
    | none =>
      cases hR : sys.Readdirnames (sys.join parentName d.Name) with
      | error e =>
        exact DirFacts.leaf sys parentName d fs _ _ (by simp) (Or.inr rfl)
      | ok names =>
        simp only
        have hrun := scanNames_run sys (Directory.scan sys fuel) (sys.join parentName d.Name)
          (sortStrings names) d fs
        have hB := LoopRun.basic sys _ _ ih _ _ _ _ hrun
        obtain ⟨ds, fl, h1, h2, h3, h4, h5, h6⟩ := LoopRun.lists sys _ _ ih _ _ _ _ hrun
        have hC := LoopRun.chain sys _ _ ih _ _ _ _ hrun
        have hL := LoopRun.listed sys _ _ ih _ _ _ _ hrun
        have hS := LoopRun.symlink sys _ _ ih _ _ _ _ hrun
        have hN := LoopRun.scanned sys _ _ ih _ _ _ _ hrun
        refine ⟨hB.1, hB.2.1, ⟨ds, h1.symm⟩, ⟨fl, h2.symm⟩, hB.2.2, fun _ => ⟨_, rfl⟩,
          ?_, ?_, ?_, ?_, ?_, ?_⟩
        · intro hd hf _
          simp only [hd, List.nil_append] at h1
          simp only [hf, List.nil_append] at h2
          refine (Directory.All_iff sys _ _ _).2 ⟨⟨names, hR, ?_, ?_⟩, ?_⟩
          · simp only [h1]
            exact h3
          · simp only [h2]
            exact h4
          · intro c hc
            simp only [h1] at hc
            exact h5 c hc
        · intro r0 h0 hd hf
          simp only [hd, List.nil_append] at h1
          simp only [hf, List.nil_append] at h2
          obtain ⟨h6a, h6b⟩ := h6 r0 h0
          refine (Directory.All_iff sys _ _ _).2 ⟨⟨⟨r0, ?_, rfl⟩, ?_, ?_⟩, ?_⟩
          · have := hB.2.2 _ _ h0
            simp only [hB.2.1]
            exact this
          · intro c hc
            simp only [h1] at hc
            exact (h6a c hc).1
          · intro f hf'
            simp only [h2] at hf'
            exact h6b f hf'
          · intro c hc
            simp only [h1] at hc
            exact (h6a c hc).2
        · intro r0 h0
          obtain ⟨hc1, hc2⟩ := hC r0 h0
          exact ⟨hc1, hc2, by simp⟩
        · intro r0 h0 hok f s a n hm hD hnd
          rcases List.mem_cons.1 hm with he | hm
          · cases he
          · rcases hL r0 h0 hok f s a n hm hD hnd with ⟨name, hf, hmem⟩ | ⟨c, hc, p', d', name, hat, hf, hmem⟩
            · exact ⟨_, _, name, Directory.At.root _ _, hf, hmem⟩
            · exact ⟨p', d', name, Directory.At.child _ _ c p' d' hc hat, hf, hmem⟩
        · intro r0 h0 f s a target hm hD hl hrl
          rcases List.mem_cons.1 hm with he | hm
          · cases he
          · exact hS r0 h0 f s a target hm hD hl hrl
        · intro r0 h0
          refine ScansNew.consOther _ _ _ ?_ (hN r0 h0)
          intro f s a he
          cases he

theorem chain_next {α : Type} (R : α → α → Prop) (l : List α) (h : List.Chain' R l) :
    ∀ (i : Nat) (x y : α), l[i]? = some x → l[i + 1]? = some y → R x y := by
  induction l with
  | nil =>
    intro i x y hx
    simp at hx
  | cons a t ih =>
    intro i x y hx hy
    cases i with
    | zero =>
      simp only [List.getElem?_cons_zero, Option.some.injEq] at hx
      subst hx
      simp only [zero_add, List.getElem?_cons_succ] at hy
      refine (List.chain'_cons'.1 h).1 y ?_
      rw [List.head?_eq_getElem?]
      exact hy
    | succ i =>
      simp only [List.getElem?_cons_succ] at hx hy
      exact ih (List.chain'_cons'.1 h).2 i x y hx hy

theorem Directory.scan_follows (sys : Sys) (fuel : Nat) (directory : Directory)
    (fs : FileSystem) (parentName : String) (r : Dominator.Inode)
    (hroot : fs.inodes[directory.Inode]? = some r) (i : Nat) (e1 e2 : ScanEvent)
    (h1 : (Directory.scan sys fuel directory fs parentName).trace[i]? = some e1)
    (h2 : (Directory.scan sys fuel directory fs parentName).trace[i + 1]? = some e2) :
    Follows r.Stat.Dev e1 e2 := by
  obtain ⟨hc, hh, -⟩ := (Directory.scan_facts sys fuel directory fs parentName).chain r hroot
  generalize (Directory.scan sys fuel directory fs parentName).trace = t at hc hh h1 h2
  cases t with
  | nil => simp at h1
  | cons e t =>
    simp only [List.tail_cons] at hc hh
    cases i with
    | zero =>
      simp only [zero_add, List.getElem?_cons_succ] at h2
      refine Follows.of_isEntry _ _ _ (hh e2 ?_)
      rw [List.head?_eq_getElem?]
      exact h2
    | succ i =>
      simp only [List.getElem?_cons_succ] at h1 h2
      exact chain_next _ t hc i e1 e2 h1 h2

/-! ### The scanner: order of the lists -/

/-- C13. After a successful scan started on a directory with empty lists, in every
directory of the produced tree the names of the `DirectoryList` and the names of
the `FileList` are each a subsequence of the sorted listing of that directory
(`sort.Strings` of what `Readdirnames` returned, a sorted permutation of it), and
each is in strictly increasing order; a listing holds no name twice. -/
theorem scan_lists_sorted (sys : Sys) (fuel : Nat) (directory : Directory)
    (fs : FileSystem) (parentName : String)
    (hnodup : ∀ p names, sys.Readdirnames p = .ok names → names.Nodup)
    (hdirs : directory.DirectoryList = []) (hfiles : directory.FileList = [])
    (hok : (Directory.scan sys fuel directory fs parentName).outcome = .ok)
    (p' : String) (d' : Directory)
    (hat : Directory.At sys (sys.join parentName directory.Name)
      (Directory.scan sys fuel directory fs parentName).directory p' d') :
    ∃ names, sys.Readdirnames p' = .ok names ∧
      (sortStrings names).Perm names ∧ (sortStrings names).Pairwise nameLe ∧
      (d'.DirectoryList.map Directory.Name).Sublist (sortStrings names) ∧
      (d'.FileList.map File.Name).Sublist (sortStrings names) ∧
      (d'.DirectoryList.map Directory.Name).Pairwise nameLt ∧
      (d'.FileList.map File.Name).Pairwise nameLt := by
  obtain ⟨names, hR, hd, hf⟩ :=
    (Directory.scan_facts sys fuel directory fs parentName).sorted hdirs hfiles hok p' d' hat
  have hs := sortStrings_strict names (hnodup p' names hR)
  exact ⟨names, hR, sortStrings_perm names, sortStrings_sorted names, hd, hf,
    hs.sublist hd, hs.sublist hf⟩

/-- Witness for C13: the root directory of the example, whose listing comes
unsorted. -/
theorem scan_lists_sorted_witness :
    ∃ names, linkedSys.Readdirnames (linkedSys.join "" rootDirectory.Name) = .ok names ∧
      (sortStrings names).Perm names ∧ (sortStrings names).Pairwise nameLe ∧
      ((Directory.scan linkedSys 5 rootDirectory rootFileSystem "").directory.DirectoryList.map
        Directory.Name).Sublist (sortStrings names) ∧
      ((Directory.scan linkedSys 5 rootDirectory rootFileSystem "").directory.FileList.map
        File.Name).Sublist (sortStrings names) ∧
      ((Directory.scan linkedSys 5 rootDirectory rootFileSystem "").directory.DirectoryList.map
        Directory.Name).Pairwise nameLt ∧
      ((Directory.scan linkedSys 5 rootDirectory rootFileSystem "").directory.FileList.map
        File.Name).Pairwise nameLt :=
  scan_lists_sorted linkedSys 5 rootDirectory rootFileSystem ""
    (by
      intro p names h
      by_cases h1 : p = "/"
      · simp only [linkedSys, h1, if_true] at h
        cases h
        decide
      · by_cases h2 : p = "/usr"
        · simp only [linkedSys, h1, h2, if_true, if_false] at h
          cases h
          decide
        · simp only [linkedSys, h1, h2, if_false] at h
          cases h
          decide)
    rfl rfl (by decide) _ _ (Directory.At.root _ _)

/-! ### The scanner: entries on another device -/

/-- C14. Entries on another device are ignored.  In a scan started on a directory
with empty lists whose record is on device `D`: every directory of the produced
tree has a record on device `D`, and a name of it whose `Lstat` gives another
device is in neither its `DirectoryList` nor its `FileList`; right after the
`getInode` of an entry on another device there is no call of `Directory.scan` and
no call of `File.scan`; and every call of `Directory.scan` or `File.scan` made for
an entry comes right after the `getInode` of an entry of that path on device `D`. -/
theorem foreign_entries_ignored (sys : Sys) (fuel : Nat) (directory : Directory)
    (fs : FileSystem) (parentName : String) (r : Inode)
    (hroot : fs.inodes[directory.Inode]? = some r)
    (hdirs : directory.DirectoryList = []) (hfiles : directory.FileList = []) :
    (∀ p' d', Directory.At sys (sys.join parentName directory.Name)
        (Directory.scan sys fuel directory fs parentName).directory p' d' →
      (∃ x : Inode, (Directory.scan sys fuel directory fs parentName).fileSystem.inodes[d'.Inode]? =
          some x ∧ x.Stat.Dev = r.Stat.Dev) ∧
        ∀ name stat, sys.Lstat (sys.join p' name) = .ok stat → stat.Dev ≠ r.Stat.Dev →
          name ∉ d'.DirectoryList.map Directory.Name ∧ name ∉ d'.FileList.map File.Name) ∧
      (∀ i f s a n, (Directory.scan sys fuel directory fs parentName).trace[i]? =
          some (ScanEvent.entry f s a n) → s.Dev ≠ r.Stat.Dev →
        (∀ p, (Directory.scan sys fuel directory fs parentName).trace[i + 1]? ≠
          some (ScanEvent.dirScan p)) ∧
        ∀ p b, (Directory.scan sys fuel directory fs parentName).trace[i + 1]? ≠
          some (ScanEvent.fileScan p b)) ∧
      (∀ i p, (Directory.scan sys fuel directory fs parentName).trace[i + 1]? =
          some (ScanEvent.dirScan p) →
        ∃ s a, (Directory.scan sys fuel directory fs parentName).trace[i]? =
          some (ScanEvent.entry p s a true) ∧ s.Dev = r.Stat.Dev) ∧
      (∀ i p a, (Directory.scan sys fuel directory fs parentName).trace[i + 1]? =
          some (ScanEvent.fileScan p a) →
        ∃ s, (Directory.scan sys fuel directory fs parentName).trace[i]? =
          some (ScanEvent.entry p s a true) ∧ s.Dev = r.Stat.Dev) := by
  have hF := Directory.scan_facts sys fuel directory fs parentName
  have hprev : ∀ i e2, (Directory.scan sys fuel directory fs parentName).trace[i + 1]? = some e2 →
      ∃ e1, (Directory.scan sys fuel directory fs parentName).trace[i]? = some e1 ∧
        Follows r.Stat.Dev e1 e2 := by
    intro i e2 h2
    have hlt : i < (Directory.scan sys fuel directory fs parentName).trace.length := by
      have := (List.getElem?_eq_some_iff.1 h2).1
      omega
    refine ⟨_, List.getElem?_eq_getElem hlt, ?_⟩
    exact Directory.scan_follows sys fuel directory fs parentName r hroot i _ e2
      (List.getElem?_eq_getElem hlt) h2
  refine ⟨?_, ?_, ?_, ?_⟩
  · intro p' d' hat
    obtain ⟨hrec, hd, hf⟩ := hF.device r hroot hdirs hfiles p' d' hat
    refine ⟨hrec, ?_⟩
    intro name stat hL hne
    constructor
    · intro hm
      obtain ⟨c, hc, hcn⟩ := List.mem_map.1 hm
      obtain ⟨stat', hL', hD⟩ := hd c hc
      rw [hcn, hL] at hL'
      cases hL'
      exact hne hD
    · intro hm
      obtain ⟨c, hc, hcn⟩ := List.mem_map.1 hm
      obtain ⟨stat', hL', hD⟩ := hf c hc
      rw [hcn, hL] at hL'
      cases hL'
      exact hne hD
  · intro i f s a n h1 hne
    constructor
    · intro p h2
      have hfo := Directory.scan_follows sys fuel directory fs parentName r hroot i _ _ h1 h2
      obtain ⟨s', a', he, hD, -⟩ := hfo
      cases he
      exact hne hD
    · intro p b h2
      have hfo := Directory.scan_follows sys fuel directory fs parentName r hroot i _ _ h1 h2
      obtain ⟨s', he, hD, -⟩ := hfo
      cases he
      exact hne hD
  · intro i p h2
    obtain ⟨e1, h1, hfo⟩ := hprev i _ h2
    obtain ⟨s, a, he, hD, -⟩ := hfo
    exact ⟨s, a, he ▸ h1, hD⟩
  · intro i p a h2
    obtain ⟨e1, h1, hfo⟩ := hprev i _ h2
    obtain ⟨s, he, hD, -⟩ := hfo
    exact ⟨s, he ▸ h1, hD⟩

/-- Witness for C14: the example tree, whose root holds the mount point `/mnt` and
the link `/far`, both on device 2. -/
theorem foreign_entries_ignored_witness :
    (∀ p' d', Directory.At linkedSys (linkedSys.join "" rootDirectory.Name)
        (Directory.scan linkedSys 5 rootDirectory rootFileSystem "").directory p' d' →
      (∃ x : Inode, (Directory.scan linkedSys 5 rootDirectory rootFileSystem
          "").fileSystem.inodes[d'.Inode]? = some x ∧ x.Stat.Dev = 1) ∧
        ∀ name stat, linkedSys.Lstat (linkedSys.join p' name) = .ok stat → stat.Dev ≠ 1 →
          name ∉ d'.DirectoryList.map Directory.Name ∧ name ∉ d'.FileList.map File.Name) ∧
      (∀ i f s a n, (Directory.scan linkedSys 5 rootDirectory rootFileSystem "").trace[i]? =
          some (ScanEvent.entry f s a n) → s.Dev ≠ 1 →
        (∀ p, (Directory.scan linkedSys 5 rootDirectory rootFileSystem "").trace[i + 1]? ≠
          some (ScanEvent.dirScan p)) ∧
        ∀ p b, (Directory.scan linkedSys 5 rootDirectory rootFileSystem "").trace[i + 1]? ≠
          some (ScanEvent.fileScan p b)) ∧
      (∀ i p, (Directory.scan linkedSys 5 rootDirectory rootFileSystem "").trace[i + 1]? =
          some (ScanEvent.dirScan p) →
        ∃ s a, (Directory.scan linkedSys 5 rootDirectory rootFileSystem "").trace[i]? =
          some (ScanEvent.entry p s a true) ∧ s.Dev = 1) ∧
      (∀ i p a, (Directory.scan linkedSys 5 rootDirectory rootFileSystem "").trace[i + 1]? =
          some (ScanEvent.fileScan p a) →
        ∃ s, (Directory.scan linkedSys 5 rootDirectory rootFileSystem "").trace[i]? =
          some (ScanEvent.entry p s a true) ∧ s.Dev = 1) :=
  foreign_entries_ignored linkedSys 5 rootDirectory rootFileSystem ""
    ⟨⟨1, 2, 0o040755⟩, none, ""⟩ (by decide) rfl rfl

/-! ### The scanner: hard links of files -/

/-- C15. Hardlinked files share one record and `File.scan` is not run again.  In a
scan started on a directory whose record is on device `D`, when two entries that are not directories, both on device `D`, have the
same inode number, both were given the same `Inode` record, the later one in the
order of the traversal was not given a new record and no call of `File.scan`
follows its `getInode`, the earlier one is followed by the call of `File.scan` for
it when it was given a new record, and after a successful scan both are in a
`FileList` of the produced tree under their paths, with that record. -/
theorem hardlinked_files_share_record (sys : Sys) (fuel : Nat) (directory : Directory)
    (fs : FileSystem) (parentName : String) (r : Inode)
    (hroot : fs.inodes[directory.Inode]? = some r)
    (i j : Nat) (hij : i < j)
    (f1 f2 : String) (s1 s2 : Stat) (a1 a2 : Nat) (n1 n2 : Bool)
    (h1 : (Directory.scan sys fuel directory fs parentName).trace[i]? =
      some (ScanEvent.entry f1 s1 a1 n1))
    (h2 : (Directory.scan sys fuel directory fs parentName).trace[j]? =
      some (ScanEvent.entry f2 s2 a2 n2))
    (hino : s1.Ino = s2.Ino)
    (hdev1 : s1.Dev = r.Stat.Dev) (hdev2 : s2.Dev = r.Stat.Dev)
    (hfile1 : ¬ s1.Mode &&& S_IFMT = S_IFDIR) (hfile2 : ¬ s2.Mode &&& S_IFMT = S_IFDIR) :
    a1 = a2 ∧ n2 = false ∧
      (∀ p b, (Directory.scan sys fuel directory fs parentName).trace[j + 1]? ≠
        some (ScanEvent.fileScan p b)) ∧
      (n1 = true → (Directory.scan sys fuel directory fs parentName).trace[i + 1]? =
        some (ScanEvent.fileScan f1 a1)) ∧
      ((Directory.scan sys fuel directory fs parentName).outcome = .ok →
        FileAt sys (sys.join parentName directory.Name)
            (Directory.scan sys fuel directory fs parentName).directory f1 a1 ∧
          FileAt sys (sys.join parentName directory.Name)
            (Directory.scan sys fuel directory fs parentName).directory f2 a2) := by
  obtain ⟨hrun, -⟩ := Directory.scan_spec sys fuel directory fs parentName
  have hF := Directory.scan_facts sys fuel directory fs parentName
  obtain ⟨hi, e1⟩ := List.getElem?_eq_some_iff.1 h1
  obtain ⟨hj, e2⟩ := List.getElem?_eq_some_iff.1 h2
  have m1 : ScanEvent.entry f1 s1 a1 n1 ∈
      (Directory.scan sys fuel directory fs parentName).trace := by
    rw [← e1]
    exact List.getElem_mem _
  have m2 : ScanEvent.entry f2 s2 a2 n2 ∈
      (Directory.scan sys fuel directory fs parentName).trace := by
    rw [← e2]
    exact List.getElem_mem _
  have hn2 : n2 = false :=
    List.pairwise_iff_getElem.1 hrun.pairwise i j hi hj hij f1 s1 a1 n1 f2 s2 a2 n2 e1 e2 hino
  refine ⟨?_, hn2, ?_, ?_, ?_⟩
  · have l1 := hrun.recorded f1 s1 a1 n1 m1
    have l2 := hrun.recorded f2 s2 a2 n2 m2
    rw [hino, l2] at l1
    exact (Option.some.inj l1).symm
  · intro p b h3
    have hfo := Directory.scan_follows sys fuel directory fs parentName r hroot j _ _ h2 h3
    obtain ⟨s', he, -, -⟩ := hfo
    subst hn2
    cases he
  · intro hn1
    subst hn1
    exact hF.scanned r hroot i f1 s1 a1 h1 hdev1 hfile1
  · intro hok
    exact ⟨hF.listed r hroot hok f1 s1 a1 n1 m1 hdev1 hfile1,
      hF.listed r hroot hok f2 s2 a2 n2 m2 hdev2 hfile2⟩

/-- Witness for C15: the files `/a` and `/b` of the example are hard links of one
file. -/
theorem hardlinked_files_share_record_witness :
    (1 : Nat) = 1 ∧ false = false ∧
      (∀ p b, (Directory.scan linkedSys 5 rootDirectory rootFileSystem "").trace[3 + 1]? ≠
        some (ScanEvent.fileScan p b)) ∧
      (true = true → (Directory.scan linkedSys 5 rootDirectory rootFileSystem "").trace[1 + 1]? =
        some (ScanEvent.fileScan "/a" 1)) ∧
      ((Directory.scan linkedSys 5 rootDirectory rootFileSystem "").outcome = .ok →
        FileAt linkedSys (linkedSys.join "" rootDirectory.Name)
            (Directory.scan linkedSys 5 rootDirectory rootFileSystem "").directory "/a" 1 ∧
          FileAt linkedSys (linkedSys.join "" rootDirectory.Name)
            (Directory.scan linkedSys 5 rootDirectory rootFileSystem "").directory "/b" 1) :=
  hardlinked_files_share_record linkedSys 5 rootDirectory rootFileSystem ""
    ⟨⟨1, 2, 0o040755⟩, none, ""⟩ (by decide) 1 3 (by decide)
    "/a" "/b" ⟨1, 20, 0o100644⟩ ⟨1, 20, 0o100644⟩ 1 1 true false
    (by decide) (by decide) rfl (by decide) (by decide) (by decide) (by decide)

/-! ### The scanner: symbolic links -/

/-- C16 does not hold for every symbolic link.  In the example the entry `/far` is
a symbolic link (its `Lstat` mode says so, and `Readlink` gives its target) that
reports another device than the root directory: the scan succeeds, `/far` is in no
`FileList`, and its record keeps an empty `Symlink`, the target being never read. -/
theorem symlink_on_other_device_counterexample :
    linkedSys.Lstat "/far" = .ok ⟨2, 12, 0o120777⟩ ∧
      (0o120777 : Nat) &&& S_IFMT = S_IFLNK ∧
      linkedSys.Readlink "/far" = .ok "/etc" ∧
      (Directory.scan linkedSys 5 rootDirectory rootFileSystem "").outcome = Outcome.ok ∧
      (Directory.scan linkedSys 5 rootDirectory rootFileSystem "").trace[4]? =
        some (ScanEvent.entry "/far" ⟨2, 12, 0o120777⟩ 2 true) ∧
      (Directory.scan linkedSys 5 rootDirectory rootFileSystem "").directory.FileList =
        [⟨"a", 1⟩, ⟨"b", 1⟩, ⟨"lnk", 3⟩] ∧
      (Directory.scan linkedSys 5 rootDirectory rootFileSystem "").directory.DirectoryList.map
        Directory.FileList = [[⟨"c", 6⟩]] ∧
      (Directory.scan linkedSys 5 rootDirectory rootFileSystem "").fileSystem.inodes[2]? =
        some ⟨⟨2, 12, 0o120777⟩, none, ""⟩ :=
  ⟨rfl, by decide, rfl, by decide, by decide, by decide, by decide, by decide⟩

/-- C16, amended. Symbolic links on the scanned device are recorded and not
followed.  In a scan started on a directory whose record is on device `D`, for
every entry on device `D` whose `Lstat` mode is a symbolic link, that was given a
new record and whose `Readlink` succeeds: the record ends the scan with the stat
result of the entry, no hash and the target of the link in `Symlink`; the
`getInode` of the entry is followed by the call of `File.scan` for it, not by a
call of `Directory.scan`; and after a successful scan the entry is in a `FileList`
of the produced tree under its path, with that record. -/
theorem symlink_recorded_not_followed (sys : Sys) (fuel : Nat) (directory : Directory)
    (fs : FileSystem) (parentName : String) (r : Inode)
    (hroot : fs.inodes[directory.Inode]? = some r)
    (i : Nat) (f : String) (s : Stat) (a : Nat) (target : String)
    (h1 : (Directory.scan sys fuel directory fs parentName).trace[i]? =
      some (ScanEvent.entry f s a true))
    (hdev : s.Dev = r.Stat.Dev) (hlink : s.Mode &&& S_IFMT = S_IFLNK)
    (hread : sys.Readlink f = .ok target) :
    (Directory.scan sys fuel directory fs parentName).fileSystem.inodes[a]? =
        some ⟨s, none, target⟩ ∧
      (Directory.scan sys fuel directory fs parentName).trace[i + 1]? =
        some (ScanEvent.fileScan f a) ∧
      (∀ p, (Directory.scan sys fuel directory fs parentName).trace[i + 1]? ≠
        some (ScanEvent.dirScan p)) ∧
      ((Directory.scan sys fuel directory fs parentName).outcome = .ok →
        FileAt sys (sys.join parentName directory.Name)
          (Directory.scan sys fuel directory fs parentName).directory f a) := by
  have hF := Directory.scan_facts sys fuel directory fs parentName
  obtain ⟨hi, e1⟩ := List.getElem?_eq_some_iff.1 h1
  have m1 : ScanEvent.entry f s a true ∈
      (Directory.scan sys fuel directory fs parentName).trace := by
    rw [← e1]
    exact List.getElem_mem _
  have hnd : ¬ s.Mode &&& S_IFMT = S_IFDIR := by
    rw [hlink]
    decide
  refine ⟨hF.symlink r hroot f s a target m1 hdev hlink hread,
    hF.scanned r hroot i f s a h1 hdev hnd, ?_, ?_⟩
  · intro p h2
    have hfo := Directory.scan_follows sys fuel directory fs parentName r hroot i _ _ h1 h2
    obtain ⟨s', a', he, -, hmode⟩ := hfo
    cases he
    exact hnd hmode
  · intro hok
    exact hF.listed r hroot hok f s a true m1 hdev hnd

/-- Witness for the amended C16: the link `/lnk` of the example, whose target is the
directory `usr`. -/
theorem symlink_recorded_not_followed_witness :
    (Directory.scan linkedSys 5 rootDirectory rootFileSystem "").fileSystem.inodes[3]? =
        some ⟨⟨1, 11, 0o120777⟩, none, "usr"⟩ ∧
      (Directory.scan linkedSys 5 rootDirectory rootFileSystem "").trace[5 + 1]? =
        some (ScanEvent.fileScan "/lnk" 3) ∧
      (∀ p, (Directory.scan linkedSys 5 rootDirectory rootFileSystem "").trace[5 + 1]? ≠
        some (ScanEvent.dirScan p)) ∧
      ((Directory.scan linkedSys 5 rootDirectory rootFileSystem "").outcome = .ok →
        FileAt linkedSys (linkedSys.join "" rootDirectory.Name)
          (Directory.scan linkedSys 5 rootDirectory rootFileSystem "").directory "/lnk" 3) :=
  symlink_recorded_not_followed linkedSys 5 rootDirectory rootFileSystem ""
    ⟨⟨1, 2, 0o040755⟩, none, ""⟩ (by decide) 5 "/lnk" ⟨1, 11, 0o120777⟩ 3 "usr"
    (by decide) (by decide) (by decide) rfl

/-! ### doFetch: failure and the rescan signal -/

theorem readOne_error_disk (env : FetchEnv) (hash : Hash) (length : Nat) (t : Transfer)
    (d d' : Disk) : (readOne env hash length t d).1 = (readOne env hash length t d').1 := by
  unfold readOne
  cases t.mkdirAllErr with
  | some e => rfl
  | none =>
    cases t.createErr with
    | some e => rfl
    | none =>
      simp only
      rcases ioCopy t with ⟨n, err⟩
      cases err with
      | some e => rfl
      | none =>
        simp only
        split <;> rfl

theorem Disk.file?_MkdirAll (d : Disk) (dirname f : String) :
    (d.MkdirAll dirname).file? f = d.file? f := by
  unfold Disk.MkdirAll
  split <;> rfl

theorem Disk.isSome_iff (d : Disk) (f : String) :
    (d.file? f).isSome ↔ ∃ x ∈ d.files, x.1 = f := by
  unfold Disk.file?
  rw [Option.isSome_map', List.find?_isSome]
  simp

theorem Disk.isSome_Create (d : Disk) (f' f : String) (h : (d.file? f).isSome) :
    ((d.Create f').file? f).isSome := by
  rw [Disk.isSome_iff] at h ⊢
  obtain ⟨x, hx, hxf⟩ := h
  by_cases hf : x.1 = f'
  · exact ⟨(f', []), by simp [Disk.Create], hf.symm.trans hxf⟩
  · refine ⟨x, ?_, hxf⟩
    simp only [Disk.Create, List.mem_cons, List.mem_filter]
    exact Or.inr ⟨hx, by simpa using hf⟩

theorem Disk.isSome_append (d : Disk) (f' f : String) (data : List Nat)
    (h : (d.file? f).isSome) : ((d.append f' data).file? f).isSome := by
  rw [Disk.isSome_iff] at h ⊢
  obtain ⟨x, hx, hxf⟩ := h
  refine ⟨if x.1 = f' then (x.1, x.2 ++ data) else x, ?_, ?_⟩
  · simp only [Disk.append]
    exact List.mem_map.2 ⟨x, hx, rfl⟩
  · split <;> exact hxf

theorem readOne_keeps_file (env : FetchEnv) (hash : Hash) (length : Nat) (t : Transfer)
    (d : Disk) (f : String) (h : (d.file? f).isSome) :
    ((readOne env hash length t d).2.file? f).isSome := by
  have h1 : ((d.MkdirAll (env.pathDir (objectFilename env hash))).file? f).isSome := by
    rw [Disk.file?_MkdirAll]
    exact h
  have h3 := Disk.isSome_append _ (objectFilename env hash) f (t.body.take t.stored)
    (Disk.isSome_Create _ (objectFilename env hash) f h1)
  unfold readOne
  cases t.mkdirAllErr with
  | some e => exact h
  | none =>
    cases t.createErr with
    | some e => exact h1
    | none =>
      simp only
      rcases ioCopy t with ⟨n, err⟩
      cases err with
      | some e => exact h3
      | none =>
        simp only
        split <;> exact h3

theorem readOne_ok_file (env : FetchEnv) (hash : Hash) (length : Nat) (t : Transfer)
    (d : Disk) (h : (readOne env hash length t d).1 = none) :
    ((readOne env hash length t d).2.file? (objectFilename env hash)).isSome := by
  have h3 := Disk.file?_Create_append (d.MkdirAll (env.pathDir (objectFilename env hash)))
    (objectFilename env hash) (t.body.take t.stored)
  unfold readOne at h ⊢
  cases hm : t.mkdirAllErr with
  | some e =>
    rw [hm] at h
    simp at h
  | none =>
    cases hc : t.createErr with
    | some e =>
      rw [hm, hc] at h
      simp at h
    | none =>
      simp only
      rcases ioCopy t with ⟨n, err⟩
      cases err with
      | some e => simp [h3]
      | none =>
        simp only
        split <;> simp [h3]

theorem objectDisk_keeps_file (env : FetchEnv) (hash : Hash) (d : Disk) (o : NextObject)
    (f : String) (h : (d.file? f).isSome) : ((objectDisk env hash d o).file? f).isSome := by
  cases o with
  | failure err => exact h
  | object length t => exact readOne_keeps_file env hash length t d f h

theorem objectDisk_ok_file (env : FetchEnv) (hash : Hash) (d : Disk) (o : NextObject)
    (h : objectError env hash o = none) :
    ((objectDisk env hash d o).file? (objectFilename env hash)).isSome := by
  cases o with
  | failure err => simp [objectError] at h
  | object length t =>
    refine readOne_ok_file env hash length t d ?_
    rw [readOne_error_disk env hash length t d ⟨[], []⟩]
    exact h

theorem diskAfter_keeps_file (env : FetchEnv) (w : FetchWorld) (hs : List Hash) :
    ∀ (i : Nat) (d : Disk) (f : String), (d.file? f).isSome →
      ((diskAfter env w hs i d).file? f).isSome := by
  induction hs with
  | nil =>
    intro i d f h
    exact h
  | cons hash rest ih =>
    intro i d f h
    exact ih (i + 1) _ f (objectDisk_keeps_file env hash d (w.next i) f h)

theorem diskAfter_has_file (env : FetchEnv) (w : FetchWorld) (hs : List Hash) :
    ∀ (i : Nat) (d : Disk) (j : Nat) (h : Hash), hs[j]? = some h →
      objectError env h (w.next (i + j)) = none →
      ((diskAfter env w hs i d).file? (objectFilename env h)).isSome := by
  induction hs with
  | nil =>
    intro i d j h hj
    simp at hj
  | cons hash rest ih =>
    intro i d j h hj hok
    cases j with
    | zero =>
      simp only [List.getElem?_cons_zero, Option.some.injEq] at hj
      subst hj
      exact diskAfter_keeps_file env w rest (i + 1) _ _
        (objectDisk_ok_file env hash d (w.next i) hok)
    | succ j =>
      simp only [List.getElem?_cons_succ] at hj
      refine ih (i + 1) _ j h hj ?_
      have : i + 1 + j = i + (j + 1) := by omega
      rw [this]
      exact hok

theorem fetchObjects_cons_ok (env : FetchEnv) (w : FetchWorld) (hash : Hash)
    (rest : List Hash) (i : Nat) (s : FetchState)
    (h : objectError env hash (w.next i) = none) :
    ∃ s' : FetchState, fetchObjects env w (hash :: rest) i s = fetchObjects env w rest (i + 1) s' ∧
      s'.handled = s.handled ++ [hash] ∧ s'.disk = objectDisk env hash s.disk (w.next i) ∧
      s'.rescanObjectCacheChannel = s.rescanObjectCacheChannel ∧ s'.exitCode = s.exitCode := by
  rw [fetchObjects]
  cases hn : w.next i with
  | failure err =>
    rw [hn] at h
    simp [objectError] at h
  | object length t =>
    rw [hn] at h
    simp only [objectError] at h
    have h' : (readOne env hash length t s.disk).1 = none := by
      rw [readOne_error_disk env hash length t s.disk ⟨[], []⟩]
      exact h
    simp only [objectDisk]
    rcases hr : readOne env hash length t s.disk with ⟨err, disk⟩
    rw [hr] at h'
    simp only at h'
    subst h'
    exact ⟨_, rfl, rfl, rfl, rfl, rfl⟩

theorem fetchObjects_cons_fail (env : FetchEnv) (w : FetchWorld) (hash : Hash)
    (rest : List Hash) (i : Nat) (s : FetchState)
    (h : objectError env hash (w.next i) ≠ none) :
    ∃ s' : FetchState, fetchObjects env w (hash :: rest) i s = (false, s') ∧
      s'.handled = s.handled ++ [hash] ∧ s'.disk = objectDisk env hash s.disk (w.next i) ∧
      s'.rescanObjectCacheChannel = s.rescanObjectCacheChannel := by
  rw [fetchObjects]
  cases hn : w.next i with
  | failure err => exact ⟨_, rfl, rfl, rfl, rfl⟩
  | object length t =>
    rw [hn] at h
    simp only [objectError] at h
    have h' : (readOne env hash length t s.disk).1 ≠ none := by
      rw [readOne_error_disk env hash length t s.disk ⟨[], []⟩]
      exact h
    simp only [objectDisk]
    rcases hr : readOne env hash length t s.disk with ⟨err, disk⟩
    rw [hr] at h'
    simp only at h'
    cases err with
    | none => exact absurd rfl h'
    | some e => exact ⟨_, rfl, rfl, rfl, rfl⟩

theorem fetchObjects_spec (env : FetchEnv) (w : FetchWorld) (hs : List Hash) :
    ∀ (i : Nat) (s : FetchState),
      (fetchObjects env w hs i s).2.rescanObjectCacheChannel = s.rescanObjectCacheChannel ∧
      ((∀ j h, hs[j]? = some h → objectError env h (w.next (i + j)) = none) →
        (fetchObjects env w hs i s).1 = true ∧
          (fetchObjects env w hs i s).2.handled = s.handled ++ hs ∧
          (fetchObjects env w hs i s).2.disk = diskAfter env w hs i s.disk ∧
          (fetchObjects env w hs i s).2.exitCode = s.exitCode) ∧
      (∀ k h, hs[k]? = some h →
        (∀ j, j < k → ∀ h', hs[j]? = some h' → objectError env h' (w.next (i + j)) = none) →
        objectError env h (w.next (i + k)) ≠ none →
        (fetchObjects env w hs i s).1 = false ∧
          (fetchObjects env w hs i s).2.handled = s.handled ++ hs.take (k + 1) ∧
          (fetchObjects env w hs i s).2.disk = diskAfter env w (hs.take (k + 1)) i s.disk) := by
  induction hs with
  | nil =>
    intro i s
    refine ⟨rfl, fun _ => ⟨rfl, by simp [fetchObjects], rfl, rfl⟩, ?_⟩
    intro k h hk
    simp at hk
  | cons hash rest ih =>
    intro i s
    by_cases h0 : objectError env hash (w.next i) = none
    · obtain ⟨s', he, hh, hd, hr, hx⟩ := fetchObjects_cons_ok env w hash rest i s h0
      obtain ⟨ih1, ih2, ih3⟩ := ih (i + 1) s'
      rw [he]
      refine ⟨ih1.trans hr, ?_, ?_⟩
      · intro hall
        obtain ⟨a, b, c, d⟩ := ih2 (fun j h hj => by
          have := hall (j + 1) h (by simpa using hj)
          have e : i + 1 + j = i + (j + 1) := by omega
          rw [e]
          exact this)
        refine ⟨a, ?_, ?_, d.trans hx⟩
        · rw [b, hh]
          simp
        · rw [c, hd]
          rfl
      · intro k h hk hbefore hfail
        cases k with
        | zero =>
          simp only [List.getElem?_cons_zero, Option.some.injEq] at hk
          subst hk
          exact absurd h0 hfail
        | succ k =>
          simp only [List.getElem?_cons_succ] at hk
          obtain ⟨a, b, c⟩ := ih3 k h hk (fun j hj h' hj' => by
            have := hbefore (j + 1) (by omega) h' (by simpa using hj')
            have e : i + 1 + j = i + (j + 1) := by omega
            rw [e]
            exact this) (by
            have e : i + 1 + k = i + (k + 1) := by omega
            rw [e]
            exact hfail)
          refine ⟨a, ?_, ?_⟩
          · rw [b, hh]
            simp
          · rw [c, hd]
            rfl
    · obtain ⟨s', he, hh, hd, hr⟩ := fetchObjects_cons_fail env w hash rest i s h0
      rw [he]
      refine ⟨hr, ?_, ?_⟩
      · intro hall
        exact absurd (hall 0 hash (by simp)) h0
      · intro k h hk hbefore hfail
        cases k with
        | zero =>
          refine ⟨rfl, ?_, ?_⟩
          · simp [hh]
          · simp [hd, diskAfter]
        | succ k =>
          exact absurd (hbefore 0 (by omega) hash (by simp)) h0

theorem fetchObjects_true (env : FetchEnv) (w : FetchWorld) (hs : List Hash) :
    ∀ (i : Nat) (s : FetchState), (fetchObjects env w hs i s).1 = true →
      ∀ j h, hs[j]? = some h → objectError env h (w.next (i + j)) = none := by
  induction hs with
  | nil =>
    intro i s _ j h hj
    simp at hj
  | cons hash rest ih =>
    intro i s ht j h hj
    by_cases h0 : objectError env hash (w.next i) = none
    · obtain ⟨s', he, -⟩ := fetchObjects_cons_ok env w hash rest i s h0
      rw [he] at ht
      cases j with
      | zero =>
        simp only [List.getElem?_cons_zero, Option.some.injEq] at hj
        subst hj
        exact h0
      | succ j =>
        simp only [List.getElem?_cons_succ] at hj
        have := ih (i + 1) s' ht j h hj
        have e : i + 1 + j = i + (j + 1) := by omega
        rw [e] at this
        exact this
    · obtain ⟨s', he, -⟩ := fetchObjects_cons_fail env w hash rest i s h0
      rw [he] at ht
      cases ht

theorem fetchObjects_prefix (env : FetchEnv) (w : FetchWorld) (hs : List Hash) :
    ∀ (i : Nat) (s : FetchState),
      ∃ m, (fetchObjects env w hs i s).2.handled = s.handled ++ hs.take m := by
  induction hs with
  | nil =>
    intro i s
    exact ⟨0, by simp [fetchObjects]⟩
  | cons hash rest ih =>
    intro i s
    by_cases h0 : objectError env hash (w.next i) = none
    · obtain ⟨s', he, hh, -⟩ := fetchObjects_cons_ok env w hash rest i s h0
      obtain ⟨m, hm⟩ := ih (i + 1) s'
      exact ⟨m + 1, by rw [he, hm, hh]; simp⟩
    · obtain ⟨s', he, hh, -⟩ := fetchObjects_cons_fail env w hash rest i s h0
      exact ⟨1, by rw [he]; simp [hh]⟩

theorem doFetch_of_GetObjects (env : FetchEnv) (w : FetchWorld) (request : FetchRequest)
    (disk : Disk) (h : w.GetObjects = none) :
    ((fetchObjects env w request.Hashes 0 (fetchStart w disk)).1 = false →
        doFetch env w request disk =
          (fetchObjects env w request.Hashes 0 (fetchStart w disk)).2) ∧
      ((fetchObjects env w request.Hashes 0 (fetchStart w disk)).1 = true →
        doFetch env w request disk =
          fetchComplete w (fetchObjects env w request.Hashes 0 (fetchStart w disk)).2) := by
  unfold doFetch
  rw [h]
  simp only
  rcases fetchObjects env w request.Hashes 0 (fetchStart w disk) with ⟨ok, s⟩
  constructor
  · intro hok
    simp only at hok
    subst hok
    rfl
  · intro hok
    simp only at hok
    subst hok
    rfl

theorem fetchComplete_fields (w : FetchWorld) (s : FetchState) :
    (fetchComplete w s).handled = s.handled ∧
      (fetchComplete w s).rescanObjectCacheChannel = s.rescanObjectCacheChannel + 1 := by
  unfold fetchComplete
  cases benchmarking w with
  | false => exact ⟨rfl, rfl⟩
  | true =>
    cases w.netbenchCreate with
    | none => exact ⟨rfl, rfl⟩
    | some e => exact ⟨rfl, rfl⟩

/-- C21. A failed fetch is abandoned without rollback and only a complete fetch
sends the rescan signal.  `doFetch` calls `NextObject` for the hashes of a prefix of
the request, in order.  One value is sent on `rescanObjectCacheChannel` exactly
when `GetObjects` succeeded and every object of the request was obtained and
stored without error, and none is sent otherwise.  When `GetObjects` fails nothing
is fetched.  When the object of index `k` is the first that fails, the objects
handled are those of index up to `k`, no value is sent, the disk is the one the
attempts up to `k` left, and the file of every earlier object is on it. -/
theorem doFetch_abandons_without_rollback (env : FetchEnv) (w : FetchWorld)
    (request : FetchRequest) (disk : Disk) :
    (doFetch env w request disk).handled <+: request.Hashes ∧
      ((doFetch env w request disk).rescanObjectCacheChannel = 1 ↔
        (w.GetObjects = none ∧
          ∀ j h, request.Hashes[j]? = some h → objectError env h (w.next j) = none)) ∧
      ((doFetch env w request disk).rescanObjectCacheChannel ≠ 1 →
        (doFetch env w request disk).rescanObjectCacheChannel = 0) ∧
      (w.GetObjects ≠ none →
        (doFetch env w request disk).handled = [] ∧ (doFetch env w request disk).disk = disk) ∧
      (∀ k h, w.GetObjects = none → request.Hashes[k]? = some h →
        (∀ j, j < k → ∀ h', request.Hashes[j]? = some h' →
          objectError env h' (w.next j) = none) →
        objectError env h (w.next k) ≠ none →
        (doFetch env w request disk).handled = request.Hashes.take (k + 1) ∧
          (doFetch env w request disk).rescanObjectCacheChannel = 0 ∧
          (doFetch env w request disk).disk =
            diskAfter env w (request.Hashes.take (k + 1)) 0 disk ∧
          ∀ j, j < k → ∀ h', request.Hashes[j]? = some h' →
            ((doFetch env w request disk).disk.file? (objectFilename env h')).isSome) := by
  obtain ⟨sp1, sp2, sp3⟩ := fetchObjects_spec env w request.Hashes 0 (fetchStart w disk)
  have strue := fetchObjects_true env w request.Hashes 0 (fetchStart w disk)
  simp only [Nat.zero_add] at sp2 sp3 strue
  have hstart : (fetchStart w disk).rescanObjectCacheChannel = 0 := rfl
  cases hg : w.GetObjects with
  | some err =>
    have hd : doFetch env w request disk =
        giveUp w ("Error getting object reader:\t" ++ err ++ "\n") (fetchStart w disk) := by
      unfold doFetch
      rw [hg]
    rw [hd]
    refine ⟨by simp [giveUp, fetchStart], ?_, fun _ => rfl, fun _ => ⟨rfl, rfl⟩, ?_⟩
    · constructor
      · intro h
        simp [giveUp, fetchStart] at h
      · rintro ⟨h, -⟩
        cases h
    · intro k h hn
      cases hn
  | none =>
    obtain ⟨dfalse, dtrue⟩ := doFetch_of_GetObjects env w request disk hg
    cases hok : (fetchObjects env w request.Hashes 0 (fetchStart w disk)).1 with
    | true =>
      have hall := strue hok
      obtain ⟨-, hh, -, -⟩ := sp2 hall
      rw [dtrue hok]
      have hc := fetchComplete_fields w (fetchObjects env w request.Hashes 0 (fetchStart w disk)).2
      refine ⟨?_, ?_, ?_, fun h => absurd rfl h, ?_⟩
      · rw [hc.1, hh]
        simp [fetchStart]
      · rw [hc.2, sp1, hstart]
        exact ⟨fun _ => ⟨rfl, hall⟩, fun _ => rfl⟩
      · intro h
        rw [hc.2, sp1, hstart] at h
        exact absurd rfl h
      · intro k h _ hk _ hfail
        exact absurd (hall k h hk) hfail
    | false =>
      rw [dfalse hok]
      refine ⟨?_, ?_, fun _ => by rw [sp1, hstart], fun h => absurd rfl h, ?_⟩
      · obtain ⟨m, hm⟩ := fetchObjects_prefix env w request.Hashes 0 (fetchStart w disk)
        rw [hm]
        simp only [fetchStart, List.nil_append]
        exact List.take_prefix m _
      · constructor
        · intro h
          rw [sp1, hstart] at h
          cases h
        · rintro ⟨-, hall⟩
          rw [(sp2 hall).1] at hok
          cases hok
      · intro k h _ hk hbefore hfail
        obtain ⟨-, hh, hdisk⟩ := sp3 k h hk hbefore hfail
        refine ⟨by rw [hh]; simp [fetchStart], by rw [sp1, hstart], by rw [hdisk]; rfl, ?_⟩
        intro j hj h' hj'
        rw [hdisk]
        refine diskAfter_has_file env w _ 0 _ j h' ?_ ?_
        · rw [List.getElem?_take]
          simp only [show j < k + 1 by omega, if_true]
          exact hj'
        · rw [Nat.zero_add]
          exact hbefore j hj h' hj'

/-- Witness for C21: three objects are asked for and the second comes one byte
short; two objects were handled, no signal was sent, and the file of the first is
on the disk. -/
theorem doFetch_abandons_without_rollback_witness :
    (doFetch exampleEnv shortWorld ⟨"server", [[1], [2], [3]]⟩ ⟨[], []⟩).handled =
        [[1], [2]] ∧
      (doFetch exampleEnv shortWorld ⟨"server", [[1], [2], [3]]⟩ ⟨[], []⟩).rescanObjectCacheChannel
        = 0 ∧
      ((doFetch exampleEnv shortWorld ⟨"server", [[1], [2], [3]]⟩ ⟨[], []⟩).disk.file?
        (objectFilename exampleEnv [1])).isSome := by
  have h := (doFetch_abandons_without_rollback exampleEnv shortWorld
    ⟨"server", [[1], [2], [3]]⟩ ⟨[], []⟩).2.2.2.2 1 [2] rfl rfl
    (by
      intro j hj h' hj'
      have : j = 0 := by omega
      subst this
      cases hj'
      decide)
    (by decide)
  exact ⟨h.1, h.2.1, h.2.2.2 0 (by decide) [1] rfl⟩

/-! ### The adder queue: the error channel -/

theorem consumeErrors_nils (n : Nat) (l : List (Option String)) :
    consumeErrors (List.replicate n none ++ l) = consumeErrors l := by
  induction n with
  | zero => rfl
  | succ n ih =>
    rw [List.replicate_succ, List.cons_append, consumeErrors]
    exact ih

theorem consumeErrors_only_nils (n : Nat) :
    consumeErrors (List.replicate n none) = (none, []) := by
  have := consumeErrors_nils n []
  rw [List.append_nil] at this
  rw [this]
  rfl

theorem add_of_pending (sha512 : List Nat → Hash) (maxLen : Nat) (objQ : ObjectAdderQueue)
    (reader : Reader) (length : Nat) (err : String) (rest : List (Option String))
    (h : consumeErrors objQ.errorChan = (some err, rest)) :
    objQ.add sha512 maxLen reader length =
      (.returned (List.replicate 64 0) (some err), { objQ with errorChan := rest }, reader) := by
  unfold ObjectAdderQueue.add
  rw [h]

theorem add_of_clear (sha512 : List Nat → Hash) (maxLen : Nat) (objQ : ObjectAdderQueue)
    (reader : Reader) (length : Nat) (h : consumeErrors objQ.errorChan = (none, [])) :
    objQ.add sha512 maxLen reader length =
      ObjectAdderQueue.add sha512 maxLen { objQ with errorChan := [] } reader length := by
  unfold ObjectAdderQueue.add
  rw [h]
  rfl

theorem add_panics (sha512 : List Nat → Hash) (maxLen : Nat) (objQ : ObjectAdderQueue)
    (reader : Reader) (length : Nat) (h : consumeErrors objQ.errorChan = (none, []))
    (hbig : maxLen < length) :
    objQ.add sha512 maxLen reader length =
      (.panic, { objQ with errorChan := [] }, reader) := by
  unfold ObjectAdderQueue.add
  rw [h]
  simp only [hbig, if_true]

theorem add_reads_and_sends (sha512 : List Nat → Hash) (maxLen : Nat)
    (objQ : ObjectAdderQueue) (reader : Reader) (length : Nat) (hL : length < 2 ^ 64)
    (halloc : length ≤ maxLen) (h : consumeErrors objQ.errorChan = (none, [])) :
    (length ≤ reader.bytes.length →
      objQ.add sha512 maxLen reader length =
        (.returned (sha512 (reader.bytes.take length)) none,
          { errorChan := []
            sent := objQ.sent ++ [Frame.request ⟨length, some (sha512 (reader.bytes.take length))⟩,
              Frame.data (reader.bytes.take length)]
            getResponseChan := objQ.getResponseChan + 1 },
          { reader with bytes := reader.bytes.drop length })) ∧
      (reader.bytes.length < length →
        (∃ e, (objQ.add sha512 maxLen reader length).1 =
            .returned (List.replicate 64 0) (some e)) ∧
          (objQ.add sha512 maxLen reader length).2.1.sent = objQ.sent ∧
          (objQ.add sha512 maxLen reader length).2.1.getResponseChan = objQ.getResponseChan ∧
          (objQ.add sha512 maxLen reader length).2.1.errorChan = []) := by
  have hL' : length < 18446744073709551616 := by
    have : (2 : Nat) ^ 64 = 18446744073709551616 := by norm_num
    omega
  have hnb : ¬ maxLen < length := by omega
  constructor
  · intro hle
    have hlen : (reader.bytes.take length).length = length := by
      rw [List.length_take]
      omega
    have hmod : length % 18446744073709551616 = length := Nat.mod_eq_of_lt hL'
    unfold ObjectAdderQueue.add
    rw [h]
    simp only [hnb, if_false, ReadFull, hle, if_true, hlen, hmod, ne_eq, not_true_eq_false]
    norm_num [hmod]
  · intro hlt
    have hnle : ¬ length ≤ reader.bytes.length := by omega
    unfold ObjectAdderQueue.add
    rw [h]
    simp only [hnb, if_false, ReadFull, hnle]
    cases reader.endErr with
    | some e => exact ⟨⟨e, rfl⟩, rfl, rfl, rfl⟩
    | none => exact ⟨⟨_, rfl⟩, rfl, rfl, rfl⟩

/-- C22. The sender consults the error channel before each send.  When the error
channel holds a non-nil error preceded only by nil entries, `add` returns that
error (with the zero hash), takes these entries from the channel, and leaves the
reader and what was sent as they were.  When the channel holds only nil entries,
or none, `add` takes them from the channel and goes on as on an empty channel: it
allocates the buffer and, that done, reads from the reader with `io.ReadFull`. -/
theorem add_consults_error_channel (sha512 : List Nat → Hash) (maxLen : Nat)
    (objQ : ObjectAdderQueue) (reader : Reader) (length : Nat) (n : Nat) :
    (∀ err rest, objQ.errorChan = List.replicate n none ++ some err :: rest →
      objQ.add sha512 maxLen reader length =
        (.returned (List.replicate 64 0) (some err), { objQ with errorChan := rest },
          reader)) ∧
      (objQ.errorChan = List.replicate n none →
        objQ.add sha512 maxLen reader length =
            ObjectAdderQueue.add sha512 maxLen { objQ with errorChan := [] } reader length ∧
          (objQ.add sha512 maxLen reader length).2.1.errorChan = [] ∧
          (length ≤ maxLen →
            (objQ.add sha512 maxLen reader length).2.2 = (ReadFull reader length).2.2) ∧
          (maxLen < length →
            objQ.add sha512 maxLen reader length =
              (.panic, { objQ with errorChan := [] }, reader))) := by
  constructor
  · intro err rest h
    refine add_of_pending sha512 maxLen objQ reader length err rest ?_
    rw [h, consumeErrors_nils]
    rfl
  · intro h
    have hc : consumeErrors objQ.errorChan = (none, []) := by
      rw [h]
      exact consumeErrors_only_nils n
    refine ⟨add_of_clear sha512 maxLen objQ reader length hc, ?_, ?_,
      add_panics sha512 maxLen objQ reader length hc⟩
    · unfold ObjectAdderQueue.add
      rw [hc]
      simp only
      split
      · rfl
      · rcases ReadFull reader length with ⟨data, err, reader'⟩
        cases err with
        | some e => rfl
        | none =>
          simp only
          split <;> rfl
    · intro halloc
      have hnb : ¬ maxLen < length := by omega
      unfold ObjectAdderQueue.add
      rw [hc]
      simp only [hnb, if_false]
      rcases ReadFull reader length with ⟨data, err, reader'⟩
      cases err with
      | some e => rfl
      | none =>
        simp only
        split <;> rfl

/-- Witness for C22: two nil entries and then an error; the reader keeps its
bytes and nothing is sent. -/
theorem add_consults_error_channel_witness :
    ObjectAdderQueue.add exampleDigest exampleMaxLen
        ⟨[none, none, some "no space", none], [], 2⟩ ⟨[1, 2, 3], none⟩ 3 =
      (.returned (List.replicate 64 0) (some "no space"), ⟨[none], [], 2⟩,
        ⟨[1, 2, 3], none⟩) :=
  (add_consults_error_channel exampleDigest exampleMaxLen
    ⟨[none, none, some "no space", none], [], 2⟩ ⟨[1, 2, 3], none⟩ 3 2).1 "no space" [none] rfl

/-- C27 does not hold for every length.  With no error pending, a length of `2^62`
and a reader that holds two bytes, `add` does not return an error: the call
`make([]byte, length)` of line 42, which comes before the read, does not return
for a length no slice can have; nothing is read and nothing is sent. -/
theorem add_panics_on_huge_length_counterexample :
    (2 : Nat) ^ 62 < 2 ^ 64 ∧
      ObjectAdderQueue.add exampleDigest exampleMaxLen ⟨[], [], 0⟩ ⟨[1, 2], none⟩ (2 ^ 62) =
        (.panic, ⟨[], [], 0⟩, ⟨[1, 2], none⟩) := by
  decide

/-- C27, amended. With no error pending (the error channel holds nil entries only)
and a length `L` below `2^64`.  When a slice of `L` bytes can be made: if the
reader yields at least `L` bytes, `add` returns the digest of the first `L` bytes
and nil, and sends one request whose `Length` is `L` and whose `ExpectedHash` is
that digest, followed at once by these `L` bytes, the reader being left at the
byte after them; if the reader yields fewer than `L` bytes, `add` returns an error
and sends nothing.  When no slice of `L` bytes can be made, `add` does not return:
`make` panics before anything is read, and nothing is sent. -/
theorem add_sends_request_then_body (sha512 : List Nat → Hash) (maxLen : Nat)
    (objQ : ObjectAdderQueue) (reader : Reader) (L : Nat) (n : Nat)
    (hchan : objQ.errorChan = List.replicate n none) (hL : L < 2 ^ 64) :
    (L ≤ maxLen → L ≤ reader.bytes.length →
      objQ.add sha512 maxLen reader L =
        (.returned (sha512 (reader.bytes.take L)) none,
          { errorChan := []
            sent := objQ.sent ++ [Frame.request ⟨L, some (sha512 (reader.bytes.take L))⟩,
              Frame.data (reader.bytes.take L)]
            getResponseChan := objQ.getResponseChan + 1 },
          { reader with bytes := reader.bytes.drop L })) ∧
      (L ≤ maxLen → reader.bytes.length < L →
        (∃ e, (objQ.add sha512 maxLen reader L).1 =
            .returned (List.replicate 64 0) (some e)) ∧
          (objQ.add sha512 maxLen reader L).2.1.sent = objQ.sent ∧
          (objQ.add sha512 maxLen reader L).2.1.getResponseChan = objQ.getResponseChan) ∧
      (maxLen < L →
        objQ.add sha512 maxLen reader L = (.panic, { objQ with errorChan := [] }, reader)) := by
  have hc : consumeErrors objQ.errorChan = (none, []) := by
    rw [hchan]
    exact consumeErrors_only_nils n
  refine ⟨fun halloc => (add_reads_and_sends sha512 maxLen objQ reader L hL halloc hc).1,
    fun halloc h => ?_, add_panics sha512 maxLen objQ reader L hc⟩
  have h2 := (add_reads_and_sends sha512 maxLen objQ reader L hL halloc hc).2 h
  exact ⟨h2.1, h2.2.1, h2.2.2.1⟩

/-- Witness for the amended C27: two bytes are asked for of a reader that holds
three. -/
theorem add_sends_request_then_body_witness :
    ObjectAdderQueue.add exampleDigest exampleMaxLen ⟨[none], [], 0⟩ ⟨[5, 6, 7], none⟩ 2 =
      (.returned (exampleDigest [5, 6]) none,
        ⟨[], [Frame.request ⟨2, some (exampleDigest [5, 6])⟩, Frame.data [5, 6]], 1⟩,
        ⟨[7], none⟩) :=
  (add_sends_request_then_body exampleDigest exampleMaxLen ⟨[none], [], 0⟩ ⟨[5, 6, 7], none⟩
    2 1 rfl (by decide)).1 (by decide) (by decide)

/-- C23 does not hold for the calls made after the error has been returned once.
An object is added and the server answers with an error; `readResponses` puts the
error in the channel, closes the channel and returns.  The next `add` returns the
error and sends nothing; the `add` after it returns nil and sends its request and
its body. -/
theorem add_sends_after_reported_error_counterexample :
    (QueueSystem.add exampleDigest exampleMaxLen (newQueueSystem [.reply (some "no space")])
        ⟨[1, 2], none⟩ 2).2.1 =
      ⟨⟨[], [Frame.request ⟨2, some [2, 3]⟩, Frame.data [1, 2]], 1⟩, 0,
        [.reply (some "no space")], false, false, false⟩ ∧
    readResponsesStep
        ⟨⟨[], [Frame.request ⟨2, some [2, 3]⟩, Frame.data [1, 2]], 1⟩, 0,
          [.reply (some "no space")], false, false, false⟩ =
      some ⟨⟨[some "no space"], [Frame.request ⟨2, some [2, 3]⟩, Frame.data [1, 2]], 1⟩, 1,
        [], true, false, true⟩ ∧
    QueueSystem.add exampleDigest exampleMaxLen
        ⟨⟨[some "no space"], [Frame.request ⟨2, some [2, 3]⟩, Frame.data [1, 2]], 1⟩, 1,
          [], true, false, true⟩ ⟨[7], none⟩ 1 =
      (.returned (List.replicate 64 0) (some "no space"),
        ⟨⟨[], [Frame.request ⟨2, some [2, 3]⟩, Frame.data [1, 2]], 1⟩, 1, [], true, false, true⟩,
        ⟨[7], none⟩) ∧
    QueueSystem.add exampleDigest exampleMaxLen
        ⟨⟨[], [Frame.request ⟨2, some [2, 3]⟩, Frame.data [1, 2]], 1⟩, 1, [], true, false, true⟩
        ⟨[7], none⟩ 1 =
      (.returned [1, 7] none,
        ⟨⟨[], [Frame.request ⟨2, some [2, 3]⟩, Frame.data [1, 2],
          Frame.request ⟨1, some [1, 7]⟩, Frame.data [7]], 2⟩, 1, [], true, false, true⟩,
        ⟨[], none⟩) := by
  decide

/-- C23, amended. Once `readResponses` has reported an error, the next call of
`add` returns it and sends nothing, and the calls after that one send again.  When
`readResponses` decodes a response that carries an error (the channel holding nil
entries only), it puts the error in the channel, closes the channel and returns,
and makes no further step; the next call of `add` returns this error with the zero
hash, empties the channel and leaves the reader and what was sent as they were;
`readResponses` still makes no step, and a call of `add` after that, with a reader
that yields the bytes asked for (their number being one a slice can have), returns
nil and sends its request and its body. -/
theorem add_returns_reported_error_once (sha512 : List Nat → Hash) (maxLen : Nat)
    (q : QueueSystem) (r : ReplyResult) (rest : List ReplyResult) (e : String) (n : Nat)
    (hrun : q.readerReturned = false) (htoken : q.taken < q.objQ.getResponseChan)
    (hreply : q.replies = r :: rest) (herr : r.err = some e)
    (hchan : q.objQ.errorChan = List.replicate n none) (hroom : n < 1024) :
    ∃ q1 : QueueSystem, readResponsesStep q = some q1 ∧
      q1.objQ.errorChan = List.replicate n none ++ [some e] ∧
      q1.errorChanClosed = true ∧ q1.readerReturned = true ∧ readResponsesStep q1 = none ∧
      (∀ reader length, QueueSystem.add sha512 maxLen q1 reader length =
        (.returned (List.replicate 64 0) (some e),
          { q1 with objQ := { q1.objQ with errorChan := [] } }, reader)) ∧
      readResponsesStep { q1 with objQ := { q1.objQ with errorChan := [] } } = none ∧
      (∀ (reader : Reader) (length : Nat), length < 2 ^ 64 → length ≤ maxLen →
        length ≤ reader.bytes.length →
        QueueSystem.add sha512 maxLen { q1 with objQ := { q1.objQ with errorChan := [] } }
            reader length =
          (.returned (sha512 (reader.bytes.take length)) none,
            { q1 with objQ :=
              { errorChan := []
                sent := q.objQ.sent ++
                  [Frame.request ⟨length, some (sha512 (reader.bytes.take length))⟩,
                    Frame.data (reader.bytes.take length)]
                getResponseChan := q.objQ.getResponseChan + 1 } },
            { reader with bytes := reader.bytes.drop length })) := by
  have hlen : q.objQ.errorChan.length < 1024 := by
    rw [hchan, List.length_replicate]
    exact hroom
  refine ⟨{ q with
      taken := q.taken + 1
      replies := rest
      objQ := { q.objQ with errorChan := q.objQ.errorChan ++ [r.err] }
      errorChanClosed := true
      readerReturned := true }, ?_, ?_, rfl, rfl, ?_, ?_, ?_, ?_⟩
  · unfold readResponsesStep
    simp only [hrun, Bool.false_eq_true, if_false, htoken, if_true, hreply, hlen, herr]
  · simp only [hchan, herr]
  · simp [readResponsesStep]
  · intro reader length
    unfold QueueSystem.add
    have hc : consumeErrors (q.objQ.errorChan ++ [r.err]) = (some e, []) := by
      rw [hchan, herr, consumeErrors_nils]
      rfl
    rw [add_of_pending sha512 maxLen _ reader length e [] hc]
  · simp [readResponsesStep]
  · intro reader length hL halloc hle
    unfold QueueSystem.add
    have := (add_reads_and_sends sha512 maxLen
      { q.objQ with errorChan := [] } reader length hL halloc rfl).1 hle
    simp only at this ⊢
    rw [this]

/-- Witness for the amended C23: the queue of the counterexample before
`readResponses` has decoded the response. -/
theorem add_returns_reported_error_once_witness :
    ∃ q1 : QueueSystem, readResponsesStep
        ⟨⟨[], [Frame.request ⟨2, some [2, 3]⟩, Frame.data [1, 2]], 1⟩, 0,
          [.reply (some "no space")], false, false, false⟩ = some q1 ∧
      q1.objQ.errorChan = List.replicate 0 none ++ [some "no space"] ∧
      q1.errorChanClosed = true ∧ q1.readerReturned = true ∧ readResponsesStep q1 = none ∧
      (∀ reader length, QueueSystem.add exampleDigest exampleMaxLen q1 reader length =
        (.returned (List.replicate 64 0) (some "no space"),
          { q1 with objQ := { q1.objQ with errorChan := [] } }, reader)) ∧
      readResponsesStep { q1 with objQ := { q1.objQ with errorChan := [] } } = none ∧
      (∀ (reader : Reader) (length : Nat), length < 2 ^ 64 → length ≤ exampleMaxLen →
        length ≤ reader.bytes.length →
        QueueSystem.add exampleDigest exampleMaxLen
            { q1 with objQ := { q1.objQ with errorChan := [] } } reader length =
          (.returned (exampleDigest (reader.bytes.take length)) none,
            { q1 with objQ :=
              { errorChan := []
                sent := [Frame.request ⟨2, some [2, 3]⟩, Frame.data [1, 2]] ++
                  [Frame.request ⟨length, some (exampleDigest (reader.bytes.take length))⟩,
                    Frame.data (reader.bytes.take length)]
                getResponseChan := 1 + 1 } },
            { reader with bytes := reader.bytes.drop length })) :=
  add_returns_reported_error_once exampleDigest exampleMaxLen
    ⟨⟨[], [Frame.request ⟨2, some [2, 3]⟩, Frame.data [1, 2]], 1⟩, 0,
      [.reply (some "no space")], false, false, false⟩
    (.reply (some "no space")) [] "no space" 0 rfl (by decide) rfl rfl rfl (by decide)

/-- C24 fails on the code.  An object is added and the server's response to it
carries an error.  When `close` is called before `readResponses` has decoded that
response, the error channel is empty, `close` returns nil (the connection and the
client closing without error) and the error is reported to no one; had
`readResponses` made its step first, `close` would have returned the error.  When
an `add` has returned the error before, `close` returns nil as well. -/
theorem close_misses_response_error :
    (QueueSystem.add exampleDigest exampleMaxLen (newQueueSystem [.reply (some "no space")])
        ⟨[1, 2], none⟩ 2).1 = .returned [2, 3] none ∧
    (QueueSystem.add exampleDigest exampleMaxLen (newQueueSystem [.reply (some "no space")])
        ⟨[1, 2], none⟩ 2).2.1.replies = [.reply (some "no space")] ∧
    (QueueSystem.close none none
      (QueueSystem.add exampleDigest exampleMaxLen (newQueueSystem [.reply (some "no space")])
        ⟨[1, 2], none⟩ 2).2.1).1 = none ∧
    (readResponsesStep
      (QueueSystem.add exampleDigest exampleMaxLen (newQueueSystem [.reply (some "no space")])
        ⟨[1, 2], none⟩ 2).2.1).map (fun q => (QueueSystem.close none none q).1) =
      some (some "no space") ∧
    (readResponsesStep
      (QueueSystem.add exampleDigest exampleMaxLen (newQueueSystem [.reply (some "no space")])
        ⟨[1, 2], none⟩ 2).2.1).map
        (fun q => ((QueueSystem.add exampleDigest exampleMaxLen q ⟨[7], none⟩ 1).1,
          (QueueSystem.close none none
            (QueueSystem.add exampleDigest exampleMaxLen q ⟨[7], none⟩ 1).2.1).1)) =
      some (.returned (List.replicate 64 0) (some "no space"), none) := by
  decide

/-! ### srpc client: the reply to CONNECT, and the endpoints tried -/

/-- C25. The reply to the CONNECT request, when it parses as an HTTP response, is
mapped as follows: status 404 gives `ErrorNoSrpcEndpoint`, 401 gives
`ErrorBadCertificate`, 405 gives `ErrorMissingCertificate`, status 200 with the
status line `connectString` gives nil, and every other reply (another status, or
200 with another status line) gives a new error with the text
"unexpected HTTP response: " followed by the status line. -/
theorem doHTTPConnect_maps_reply (c : SrpcConsts) (flag : Bool) (path : String)
    (resp : HttpResponse) :
    (resp.StatusCode = 404 →
      (doHTTPConnect c flag path (.ok resp)).2 = some .ErrorNoSrpcEndpoint) ∧
    (resp.StatusCode = 401 →
      (doHTTPConnect c flag path (.ok resp)).2 = some .ErrorBadCertificate) ∧
    (resp.StatusCode = 405 →
      (doHTTPConnect c flag path (.ok resp)).2 = some .ErrorMissingCertificate) ∧
    (resp.StatusCode = 200 → resp.Status = c.connectString →
      (doHTTPConnect c flag path (.ok resp)).2 = none) ∧
    (resp.StatusCode ≠ 404 → resp.StatusCode ≠ 401 → resp.StatusCode ≠ 405 →
      (resp.StatusCode ≠ 200 ∨ resp.Status ≠ c.connectString) →
      (doHTTPConnect c flag path (.ok resp)).2 =
        some (.other ("unexpected HTTP response: " ++ resp.Status))) := by
  refine ⟨?_, ?_, ?_, ?_, ?_⟩
  · intro h
    simp [doHTTPConnect, h]
  · intro h
    simp [doHTTPConnect, h]
  · intro h
    simp [doHTTPConnect, h]
  · intro h hs
    simp [doHTTPConnect, h, hs]
  · intro h1 h2 h3 h4
    unfold doHTTPConnect
    simp only [h1, h2, h3, if_false]
    rw [if_pos h4]

/-- Witness for C25: status 200 with the status line of a plain web server. -/
theorem doHTTPConnect_maps_reply_witness :
    (doHTTPConnect exampleConsts false "/_goSRPC_/" (.ok ⟨200, "200 OK"⟩)).2 =
      some (.other ("unexpected HTTP response: " ++ "200 OK")) :=
  (doHTTPConnect_maps_reply exampleConsts false "/_goSRPC_/" ⟨200, "200 OK"⟩).2.2.2.2
    (by decide) (by decide) (by decide) (Or.inr (by decide))

theorem dialHTTPEndpoints_tried (c : SrpcConsts) (flags : SrpcFlags)
    (attempts : Nat → Attempt) (fullTLS : Bool) (eps : List endpointType) :
    ∀ i : Nat, ∃ m, m ≤ eps.length ∧
      (dialHTTPEndpoints c flags attempts fullTLS eps i).tried =
        (eps.take m).map (fun e => (fullTLS, e)) := by
  induction eps with
  | nil =>
    intro i
    exact ⟨0, Nat.le_refl _, rfl⟩
  | cons e rest ih =>
    intro i
    rw [dialHTTPEndpoints]
    cases dialHTTPEndpoint c flags (attempts i) fullTLS e with
    | ok client => exact ⟨1, by simp, rfl⟩
    | error err =>
      simp only
      split
      · exact ⟨1, by simp, rfl⟩
      · obtain ⟨m, hm, ht⟩ := ih (i + 1)
        exact ⟨m + 1, by simpa using hm, by simp [ht]⟩

theorem dialHTTPDirect_tried (c : SrpcConsts) (flags : SrpcFlags)
    (attempts : Nat → Attempt) (tlsConfig : Option TlsConfig) :
    (tlsConfig = none → ∃ m, m ≤ 2 ∧
      (dialHTTPDirect c flags attempts tlsConfig).tried =
        ((insecureEndpoints c).take m).map (fun e => (false, e))) ∧
    (∀ cfg, tlsConfig = some cfg → ∃ m1 m2, m1 ≤ 4 ∧ m2 ≤ 2 ∧
      (cfg.InsecureSkipVerify = false → m1 ≤ 2) ∧
      (dialHTTPDirect c flags attempts tlsConfig).tried =
        ((secureEndpoints c ++ insecureEndpoints c).take m1).map (fun e => (false, e)) ++
          ((secureEndpoints c).take m2).map (fun e => (true, e))) := by
  constructor
  · intro h
    subst h
    obtain ⟨m, hm, ht⟩ := dialHTTPEndpoints_tried c flags attempts false (insecureEndpoints c) 0
    exact ⟨m, hm, ht⟩
  · intro cfg h
    subst h
    have hfirst : ∃ m, m ≤ 4 ∧ (cfg.InsecureSkipVerify = false → m ≤ 2) ∧
        (dialHTTPEndpoints c flags attempts false
          (secureEndpoints c ++ (if cfg.InsecureSkipVerify then insecureEndpoints c else []))
          0).tried =
          ((secureEndpoints c ++ insecureEndpoints c).take m).map (fun e => (false, e)) := by
      by_cases hs : cfg.InsecureSkipVerify = true
      · rw [if_pos hs]
        obtain ⟨m1, hm1, ht1⟩ := dialHTTPEndpoints_tried c flags attempts false
          (secureEndpoints c ++ insecureEndpoints c) 0
        have hm1' : m1 ≤ 4 := hm1
        exact ⟨m1, hm1', fun h => absurd hs (by rw [h]; decide), ht1⟩
      · rw [if_neg hs, List.append_nil]
        obtain ⟨m1, hm1, ht1⟩ := dialHTTPEndpoints_tried c flags attempts false
          (secureEndpoints c) 0
        have hm1' : m1 ≤ 2 := hm1
        refine ⟨m1, by omega, fun _ => hm1', ?_⟩
        rw [ht1, List.take_append_of_le_length hm1]
    obtain ⟨m, hm4, hm2, hm⟩ := hfirst
    unfold dialHTTPDirect
    simp only
    cases hr : (dialHTTPEndpoints c flags attempts false
        (secureEndpoints c ++ (if cfg.InsecureSkipVerify then insecureEndpoints c else []))
        0).result with
    | ok client =>
      simp only
      exact ⟨m, 0, hm4, by decide, hm2, by simp [hm]⟩
    | error err =>
      simp only
      split
      · obtain ⟨m2, hm2', ht2⟩ := dialHTTPEndpoints_tried c flags attempts true
          (secureEndpoints c) (dialHTTPEndpoints c flags attempts false
            (secureEndpoints c ++ (if cfg.InsecureSkipVerify then insecureEndpoints c else []))
            0).tried.length
        refine ⟨m, m2, hm4, hm2', hm2, ?_⟩
        rw [ht2, hm]
      · exact ⟨m, 0, hm4, by decide, hm2, by simp [hm]⟩

theorem tried_shape_mem (c : SrpcConsts) (m1 m2 : Nat) (t : Bool × endpointType)
    (h : t ∈ ((secureEndpoints c ++ insecureEndpoints c).take m1).map (fun e => (false, e)) ++
      ((secureEndpoints c).take m2).map (fun e => (true, e))) :
    (t.2.tls = true → t.2 ∈ secureEndpoints c) ∧ (t.2.tls = false → t.1 = false ∧ 2 < m1) := by
  rcases List.mem_append.1 h with h | h
  · obtain ⟨e, he, rfl⟩ := List.mem_map.1 h
    have hmem := List.mem_of_mem_take he
    rcases m1 with _ | _ | _ | m1
    · simp at he
    · simp [secureEndpoints, insecureEndpoints] at he
      subst he
      simp [secureEndpoints]
    · simp [secureEndpoints, insecureEndpoints] at he
      rcases he with rfl | rfl <;> simp [secureEndpoints]
    · simp only [secureEndpoints, insecureEndpoints, List.cons_append, List.nil_append,
        List.mem_cons, List.mem_singleton, List.not_mem_nil, or_false] at hmem
      rcases hmem with rfl | rfl | rfl | rfl <;> simp [secureEndpoints]
  · obtain ⟨e, he, rfl⟩ := List.mem_map.1 h
    have hmem := List.mem_of_mem_take he
    refine ⟨fun _ => hmem, fun hf => ?_⟩
    simp only [secureEndpoints, List.mem_cons, List.mem_singleton, List.not_mem_nil,
      or_false] at hmem
    rcases hmem with rfl | rfl <;> simp at hf

theorem tried_shape_first (c : SrpcConsts) (m1 m2 : Nat) (h : 2 < m1) :
    (((secureEndpoints c ++ insecureEndpoints c).take m1).map (fun e => (false, e)) ++
        ((secureEndpoints c).take m2).map (fun e => (true, e)))[0]? =
      some (false, ⟨.gobCoder, c.tlsRpcPath, true⟩) ∧
    (((secureEndpoints c ++ insecureEndpoints c).take m1).map (fun e => (false, e)) ++
        ((secureEndpoints c).take m2).map (fun e => (true, e)))[1]? =
      some (false, ⟨.jsonCoder, c.jsonTlsRpcPath, true⟩) := by
  rcases m1 with _ | _ | _ | m1
  · omega
  · omega
  · omega
  · simp [secureEndpoints, insecureEndpoints]

theorem tried_shape_index (c : SrpcConsts) (m1 m2 i : Nat) (t : Bool × endpointType)
    (h : (((secureEndpoints c ++ insecureEndpoints c).take m1).map (fun e => (false, e)) ++
      ((secureEndpoints c).take m2).map (fun e => (true, e)))[i]? = some t)
    (hf : t.2.tls = false) : 2 ≤ i := by
  rcases i with _ | _ | i
  · rcases m1 with _ | m1
    · rcases m2 with _ | m2
      · simp at h
      · simp [secureEndpoints] at h
        subst h
        simp at hf
    · simp [secureEndpoints, insecureEndpoints] at h
      subst h
      simp at hf
  · rcases m1 with _ | _ | m1
    · rcases m2 with _ | _ | m2
      · simp at h
      · simp [secureEndpoints] at h
      · simp [secureEndpoints] at h
        subst h
        simp at hf
    · rcases m2 with _ | m2
      · simp [secureEndpoints, insecureEndpoints] at h
      · simp [secureEndpoints, insecureEndpoints] at h
        subst h
        simp at hf
    · simp [secureEndpoints, insecureEndpoints] at h
      subst h
      simp at hf
  · omega

/-- C28. No downgrade to an unencrypted endpoint unless the server need not be
trusted.  With a TLS configuration whose `InsecureSkipVerify` is false, the calls
of `dialHTTPEndpoint` that `dialHTTPDirect` makes are for the two TLS endpoints
only, gob and then JSON, first without and then (in the retry) with full TLS.  An
endpoint without TLS is tried only when the configuration is nil or
`InsecureSkipVerify` is true; with a configuration it is tried never with full TLS
and only after the two TLS endpoints have been tried, which are the first two
calls. -/
theorem no_downgrade_to_unencrypted (c : SrpcConsts) (flags : SrpcFlags)
    (attempts : Nat → Attempt) (tlsConfig : Option TlsConfig) :
    (∀ cfg, tlsConfig = some cfg → cfg.InsecureSkipVerify = false →
      (∃ m1 m2, m1 ≤ 2 ∧ m2 ≤ 2 ∧ (dialHTTPDirect c flags attempts tlsConfig).tried =
        ((secureEndpoints c).take m1).map (fun e => (false, e)) ++
          ((secureEndpoints c).take m2).map (fun e => (true, e))) ∧
      ∀ t ∈ (dialHTTPDirect c flags attempts tlsConfig).tried,
        t.2.tls = true ∧ t.2 ∈ secureEndpoints c) ∧
    (∀ t ∈ (dialHTTPDirect c flags attempts tlsConfig).tried, t.2.tls = false →
      tlsConfig = none ∨ ∃ cfg, tlsConfig = some cfg ∧ cfg.InsecureSkipVerify = true) ∧
    (∀ cfg, tlsConfig = some cfg → ∀ i t,
      (dialHTTPDirect c flags attempts tlsConfig).tried[i]? = some t → t.2.tls = false →
      t.1 = false ∧ 2 ≤ i ∧
        (dialHTTPDirect c flags attempts tlsConfig).tried[0]? =
          some (false, ⟨.gobCoder, c.tlsRpcPath, true⟩) ∧
        (dialHTTPDirect c flags attempts tlsConfig).tried[1]? =
          some (false, ⟨.jsonCoder, c.jsonTlsRpcPath, true⟩)) := by
  obtain ⟨-, hcfg⟩ := dialHTTPDirect_tried c flags attempts tlsConfig
  refine ⟨?_, ?_, ?_⟩
  · intro cfg h hs
    obtain ⟨m1, m2, -, hm2, hskip, ht⟩ := hcfg cfg h
    have hm1 := hskip hs
    have hshape : (dialHTTPDirect c flags attempts tlsConfig).tried =
        ((secureEndpoints c).take m1).map (fun e => (false, e)) ++
          ((secureEndpoints c).take m2).map (fun e => (true, e)) := by
      have hm1' : m1 ≤ (secureEndpoints c).length := hm1
      rw [ht, List.take_append_of_le_length hm1']
    refine ⟨⟨m1, m2, hm1, hm2, hshape⟩, ?_⟩
    intro t htm
    rw [ht] at htm
    obtain ⟨h1, h2⟩ := tried_shape_mem c m1 m2 t htm
    cases htls : t.2.tls with
    | true => exact ⟨rfl, h1 htls⟩
    | false =>
      have := (h2 htls).2
      omega
  · intro t htm hf
    cases tlsConfig with
    | none => exact Or.inl rfl
    | some cfg =>
      right
      refine ⟨cfg, rfl, ?_⟩
      obtain ⟨m1, m2, -, -, hskip, ht⟩ := hcfg cfg rfl
      rw [ht] at htm
      have h3 := ((tried_shape_mem c m1 m2 t htm).2 hf).2
      cases hs : cfg.InsecureSkipVerify with
      | true => rfl
      | false =>
        have := hskip hs
        omega
  · intro cfg h i t hi hf
    obtain ⟨m1, m2, -, -, -, ht⟩ := hcfg cfg h
    rw [ht] at hi ⊢
    have hmem : t ∈ ((secureEndpoints c ++ insecureEndpoints c).take m1).map
        (fun e => (false, e)) ++ ((secureEndpoints c).take m2).map (fun e => (true, e)) := by
      obtain ⟨hlt, e⟩ := List.getElem?_eq_some_iff.1 hi
      rw [← e]
      exact List.getElem_mem hlt
    obtain ⟨h1, h2⟩ := (tried_shape_mem c m1 m2 t hmem).2 hf
    exact ⟨h1, tried_shape_index c m1 m2 i t hi hf, tried_shape_first c m1 m2 h2⟩

/-- Witness for C28: a server that speaks TLS on every connection and serves no
endpoint; with a verifying configuration the two TLS endpoints are tried, the
first of them without and, in the retry, both with full TLS, and nothing else. -/
theorem no_downgrade_to_unencrypted_witness :
    (∃ m1 m2, m1 ≤ 2 ∧ m2 ≤ 2 ∧
      (dialHTTPDirect exampleConsts ⟨0, false⟩ tlsOnlyAttempt (some ⟨false⟩)).tried =
        ((secureEndpoints exampleConsts).take m1).map (fun e => (false, e)) ++
          ((secureEndpoints exampleConsts).take m2).map (fun e => (true, e))) ∧
      ∀ t ∈ (dialHTTPDirect exampleConsts ⟨0, false⟩ tlsOnlyAttempt (some ⟨false⟩)).tried,
        t.2.tls = true ∧ t.2 ∈ secureEndpoints exampleConsts :=
  (no_downgrade_to_unencrypted exampleConsts ⟨0, false⟩ tlsOnlyAttempt (some ⟨false⟩)).1
    ⟨false⟩ rfl rfl

/-! ### The command-line tools: dispatch of subcommands -/

theorem dispatch_unknown (usage : List String) (run : String → List String → Option Nat)
    (a : String) (rest : List String) (table : List subcommand)
    (h : ∀ sc ∈ table, sc.command ≠ a) :
    dispatch usage run (a :: rest) table = ⟨usage, [], [], 2⟩ := by
  induction table with
  | nil => rfl
  | cons sc table ih =>
    have hne : ¬ a = sc.command := fun e => h sc (by simp) e.symm
    rw [dispatch]
    simp only [List.getD_cons_zero, hne, if_false]
    exact ih (fun sc' hsc' => h sc' (List.mem_cons_of_mem _ hsc'))

theorem dispatch_found (usage : List String) (run : String → List String → Option Nat)
    (a : String) (rest : List String) (table : List subcommand) (sc : subcommand)
    (h : table.find? (fun sc => sc.command = a) = some sc) :
    dispatch usage run (a :: rest) table =
      if (rest.length : Int) < sc.minArgs ∨ (sc.maxArgs ≥ 0 ∧ (rest.length : Int) > sc.maxArgs)
      then ⟨usage, [], [], 2⟩
      else
        match run sc.cmdFunc rest with
        | some code => ⟨[], [], [(sc.cmdFunc, rest)], code⟩
        | none => ⟨[], [], [(sc.cmdFunc, rest)], 3⟩ := by
  induction table with
  | nil => simp at h
  | cons sc' table ih =>
    rw [dispatch]
    by_cases hc : sc'.command = a
    · have hsc : sc' = sc := by
        rw [List.find?_cons_of_pos _ (by simpa using hc)] at h
        exact Option.some.inj h
      subst hsc
      have hlen : (((a :: rest).length : Nat) : Int) - 1 = (rest.length : Int) := by
        simp
      simp only [List.getD_cons_zero, hc, if_true, hlen, List.drop_succ_cons, List.drop_zero]
    · have hne : ¬ a = sc'.command := fun e => hc e.symm
      rw [List.find?_cons_of_neg _ (by simpa using hc)] at h
      simp only [List.getD_cons_zero, hne, if_false]
      exact ih h

theorem Dispatches.ofDispatch (usage : List String) (run : String → List String → Option Nat)
    (table : List subcommand) (m : List String → MainRun)
    (h0 : m [] = ⟨usage, [], [], 2⟩)
    (h1 : ∀ a rest, m (a :: rest) = dispatch usage run (a :: rest) table) :
    Dispatches table run m := by
  refine ⟨by rw [h0]; exact ⟨rfl, rfl⟩, ?_, ?_, ?_⟩
  · intro a rest h
    rw [h1, dispatch_unknown usage run a rest table h]
    exact ⟨rfl, rfl⟩
  · intro a rest sc hf hout
    have hout' : (rest.length : Int) < sc.minArgs ∨
        (sc.maxArgs ≥ 0 ∧ (rest.length : Int) > sc.maxArgs) := hout
    rw [h1, dispatch_found usage run a rest table sc hf, if_pos hout']
    exact ⟨rfl, rfl⟩
  · intro a rest sc hf hmin hmax
    have hin : ¬ ((rest.length : Int) < sc.minArgs ∨
        (sc.maxArgs ≥ 0 ∧ (rest.length : Int) > sc.maxArgs)) := by
      intro h
      rcases h with h | ⟨h2, h3⟩
      · omega
      · rcases hmax with h4 | h4 <;> omega
    rw [h1, dispatch_found usage run a rest table sc hf, if_neg hin]
    cases hr : run sc.cmdFunc rest with
    | some code => exact ⟨rfl, rfl, fun h => by cases h⟩
    | none => exact ⟨rfl, rfl, fun _ => rfl⟩

/-- C26. Subcommand dispatch in ami-publisher and in vm-control, the flags being
parsed, `SetupTls` succeeding and, for vm-control, a cluster manager or a
hypervisor being named: the process exits with code 2 and calls no function when
no subcommand is given, when the first argument is no command of the table, or
when the number of remaining arguments is below `minArgs` or above a non-negative
`maxArgs` of the matching entry; otherwise the function of the matching entry is
called once with the remaining arguments, and the process exits with code 3 when
the function returns. -/
theorem subcommand_dispatch (flagDefaults : List String)
    (run : String → List String → Option Nat) (SetupTls : Option String)
    (clusterManagerHostname hypervisorHostname : String)
    (hsetup : SetupTls = none)
    (hserver : clusterManagerHostname ≠ "" ∨ hypervisorHostname ≠ "") :
    Dispatches amiPublisher.subcommands run (amiPublisher.main flagDefaults SetupTls run) ∧
      Dispatches vmControl.subcommands run
        (vmControl.main flagDefaults clusterManagerHostname hypervisorHostname SetupTls run) := by
  subst hsetup
  have hs : ¬ (clusterManagerHostname = "" ∧ hypervisorHostname = "") := by
    rintro ⟨h1, h2⟩
    rcases hserver with h | h
    · exact h h1
    · exact h h2
  constructor
  · refine Dispatches.ofDispatch (amiPublisher.printUsage flagDefaults) run _ _ rfl ?_
    intro a rest
    simp [amiPublisher.main]
  · refine Dispatches.ofDispatch (vmControl.printUsage flagDefaults) run _ _ rfl ?_
    intro a rest
    simp [vmControl.main, hs]

/-- Witness for C26: `vm-control -hypervisorHostname=h list-vms` calls
`listVMsSubcommand` with no argument and, that function returning, exits with
code 3. -/
theorem subcommand_dispatch_witness :
    (vmControl.main [] "" "h" none (fun _ _ => none) ["list-vms"]).calls =
        [("listVMsSubcommand", [])] ∧
      (vmControl.main [] "" "h" none (fun _ _ => none) ["list-vms"]).exitCode =
        ((fun _ _ => none : String → List String → Option Nat) "listVMsSubcommand" []).getD 3 ∧
      ((fun _ _ => none : String → List String → Option Nat) "listVMsSubcommand" [] = none →
        (vmControl.main [] "" "h" none (fun _ _ => none) ["list-vms"]).exitCode = 3) :=
  (subcommand_dispatch [] (fun _ _ => none) none "" "h" rfl (Or.inr (by decide))).2.called
    "list-vms" [] ⟨"list-vms", 0, 0, "listVMsSubcommand"⟩ (by decide) (by decide)
    (Or.inr (by decide))

/-- C30 fails on the code for ami-publisher.  Its usage text lists the command
`delete-tag-on-unpackers`, which is no command of its `subcommands` table (the
table has `delete-tags-on-unpackers`, which the usage text does not list):
invoking the listed command with one argument prints the usage text and exits with
code 2, no function being called.  For vm-control the commands of the usage text
and those of the table are the same, and in both tables the names are pairwise
distinct. -/
theorem usage_lists_command_not_in_table (flagDefaults : List String)
    (run : String → List String → Option Nat) :
    "delete-tag-on-unpackers" ∈ amiPublisher.commandLines.map usageCommand ∧
      "delete-tag-on-unpackers" ∉ amiPublisher.subcommands.map subcommand.command ∧
      amiPublisher.main flagDefaults none run ["delete-tag-on-unpackers", "key"] =
        ⟨amiPublisher.printUsage flagDefaults, [], [], 2⟩ ∧
      "delete-tags-on-unpackers" ∈ amiPublisher.subcommands.map subcommand.command ∧
      "delete-tags-on-unpackers" ∉ amiPublisher.commandLines.map usageCommand ∧
      (amiPublisher.subcommands.map subcommand.command).Nodup ∧
      (vmControl.subcommands.map subcommand.command).Nodup ∧
      (∀ name, name ∈ vmControl.commandLines.map usageCommand ↔
        name ∈ vmControl.subcommands.map subcommand.command) := by
  refine ⟨by decide, by decide, ?_, by decide, by decide, by decide, by decide, ?_⟩
  · have hu : ∀ sc ∈ amiPublisher.subcommands, sc.command ≠ "delete-tag-on-unpackers" := by
      decide
    have := dispatch_unknown (amiPublisher.printUsage flagDefaults) run
      "delete-tag-on-unpackers" ["key"] amiPublisher.subcommands hu
    simpa [amiPublisher.main] using this
  · have h1 : vmControl.commandLines.map usageCommand ⊆
        vmControl.subcommands.map subcommand.command := by decide
    have h2 : vmControl.subcommands.map subcommand.command ⊆
        vmControl.commandLines.map usageCommand := by decide
    exact fun name => ⟨fun h => h1 h, fun h => h2 h⟩

/-! ### The herd: status filtering -/

/-- C29 fails on the code.  The filter of `getInfoForSubs` tests `sub.status` while
`makeInfo` reports `sub.publishedStatus`.  For a herd with one sub whose status is
"polling" and whose published status is "compliant": the request that matches
"polling" returns that sub with the `Status` "compliant", which is not in
`StatusesToMatch`; the request that matches "compliant" returns nothing, although
the status reported for the sub is "compliant"; and so it is when the sub is asked
for by name. -/
theorem getInfoForSubs_filters_other_status :
    (getInfoForSubs exampleStatusString id ⟨[polledSub], [("a", polledSub)]⟩
        ⟨[], ["polling"]⟩).1.map SubInfo.Status = ["compliant"] ∧
      (polledSub.makeInfo exampleStatusString).Status = "compliant" ∧
      (getInfoForSubs exampleStatusString id ⟨[polledSub], [("a", polledSub)]⟩
        ⟨[], ["compliant"]⟩).1 = [] ∧
      (getInfoForSubs exampleStatusString id ⟨[polledSub], [("a", polledSub)]⟩
        ⟨["a"], ["polling"]⟩).1.map SubInfo.Status = ["compliant"] ∧
      (getInfoForSubs exampleStatusString id ⟨[polledSub], [("a", polledSub)]⟩
        ⟨["a"], ["compliant"]⟩).1 = [] := by
  decide

end Dominator
